import Mathlib

/-!
Winged-edge topology store and butterfly subdivision (`libs/butterfly/mesh.cpp`).

A shallow embedding of `gfx::WingedEdge`.

* `std::set<T>` is a list kept in key order, `std::map<K, V>` a list of key/value pairs kept
  in key order. `operator[]` on a map is `mapGet` (the value referred to) together with
  `mapTouch` (the map afterwards: a default entry is created when the key is absent).
* Member functions that go through `operator[]` take the store and return the store
  afterwards next to their result.
* `throw` is `Except.error` carrying the message of the `RuntimeError`; the store at the
  moment of the throw is still returned.
* `GLfloat` coordinates are exact rationals.
-/

namespace gfx

/-! ## Value types (`vertex.hpp`, `edge.hpp`, `face.hpp`) -/

/-- Strict order used by the ordered containers (`operator<` of the key type). -/
class KeyLt (α : Type) where
  lt : α → α → Bool

/-- Modelled from the spec: `vertex.hpp` is not among the sources. A vertex is three
coordinates, equal when the coordinates are equal. Floating point is replaced by exact
rationals. -/
structure Vertex where
  x : ℚ
  y : ℚ
  z : ℚ
deriving DecidableEq

/-- Modelled from the spec: the ordering of `vertex.hpp` (not among the sources) is defined
over the coordinate values; here lexicographically on `x`, `y`, `z`. -/
def Vertex.lt (a b : Vertex) : Bool :=
  decide (a.x < b.x) ||
    (decide (a.x = b.x) && (decide (a.y < b.y) || (decide (a.y = b.y) && decide (a.z < b.z))))

instance : KeyLt Vertex := ⟨Vertex.lt⟩

/-- Modelled from the spec: componentwise `operator+` of `vertex.hpp`. -/
def Vertex.add (a b : Vertex) : Vertex := ⟨a.x + b.x, a.y + b.y, a.z + b.z⟩

/-- Modelled from the spec: componentwise `operator-` of `vertex.hpp`. -/
def Vertex.sub (a b : Vertex) : Vertex := ⟨a.x - b.x, a.y - b.y, a.z - b.z⟩

/-- Modelled from the spec: `operator/` of `vertex.hpp`, division of every coordinate by a
scalar. -/
def Vertex.div (a : Vertex) (c : ℚ) : Vertex := ⟨a.x / c, a.y / c, a.z / c⟩

/-- Modelled from the spec: `operator*` of `vertex.hpp`, multiplication of every coordinate
by a scalar. -/
def Vertex.mul (a : Vertex) (c : ℚ) : Vertex := ⟨a.x * c, a.y * c, a.z * c⟩

instance : Add Vertex := ⟨Vertex.add⟩

instance : Sub Vertex := ⟨Vertex.sub⟩

instance : HDiv Vertex ℚ Vertex := ⟨Vertex.div⟩

instance : HMul Vertex ℚ Vertex := ⟨Vertex.mul⟩

/-- Modelled from the spec: `edge.hpp` is not among the sources. An edge is an unordered
pair of vertices whose two endpoints are read through the accessors `V1`, `V2`. -/
structure Edge where
  V1 : Vertex
  V2 : Vertex
deriving DecidableEq

/-- Modelled from the spec: the constructor `Edge(v1, v2)` of `edge.hpp` (not among the
sources). The endpoints are stored in a fixed order that need not be the order of the
arguments (the smaller vertex first), which makes `Edge(a, b) == Edge(b, a)`. -/
def Edge.make (v1 v2 : Vertex) : Edge :=
  if Vertex.lt v2 v1 then ⟨v2, v1⟩ else ⟨v1, v2⟩

/-- Modelled from the spec: `operator<` of `edge.hpp`, lexicographic on the endpoints. -/
def Edge.lt (a b : Edge) : Bool :=
  Vertex.lt a.V1 b.V1 || (decide (a.V1 = b.V1) && Vertex.lt a.V2 b.V2)

instance : KeyLt Edge := ⟨Edge.lt⟩

/-- Modelled from the spec: `face.hpp` is not among the sources. A face is an ordered triple
of exactly three edges, read through `E1`, `E2`, `E3`; nothing is checked at construction. -/
structure Face where
  E1 : Edge
  E2 : Edge
  E3 : Edge
deriving DecidableEq

/-- Modelled from the spec: `operator<` of `face.hpp`, lexicographic on the three edges. -/
def Face.lt (a b : Face) : Bool :=
  Edge.lt a.E1 b.E1 ||
    (decide (a.E1 = b.E1) && (Edge.lt a.E2 b.E2 || (decide (a.E2 = b.E2) && Edge.lt a.E3 b.E3)))

instance : KeyLt Face := ⟨Face.lt⟩

/-! ## Ordered containers -/

/-- Position of a new element in a container kept in key order. -/
def orderedInsert {α : Type} [KeyLt α] (x : α) : List α → List α
  | [] => [x]
  | y :: ys => if KeyLt.lt x y then x :: y :: ys else y :: orderedInsert x ys

/-- The operation `std::set<T>::insert`: nothing happens when the element is already there. -/
def setInsert {α : Type} [DecidableEq α] [KeyLt α] (x : α) (l : List α) : List α :=
  if x ∈ l then l else orderedInsert x l

/-- The operation `std::map<K,V>::find`, as an option. -/
def mapFind {κ β : Type} [DecidableEq κ] (k : κ) : List (κ × β) → Option β
  | [] => none
  | p :: rest => if p.1 = k then some p.2 else mapFind k rest

/-- Position of a new entry in a map kept in key order. -/
def mapInsertNew {κ β : Type} [KeyLt κ] (k : κ) (v : β) : List (κ × β) → List (κ × β)
  | [] => [(k, v)]
  | p :: rest => if KeyLt.lt k p.1 then (k, v) :: p :: rest else p :: mapInsertNew k v rest

/-- Replaces the value stored under an existing key. -/
def mapUpdate {κ β : Type} [DecidableEq κ] (k : κ) (f : β → β) : List (κ × β) → List (κ × β)
  | [] => []
  | p :: rest => if p.1 = k then (p.1, f p.2) :: rest else p :: mapUpdate k f rest

/-- The value `m[k]` refers to: the stored one, or a default-constructed one. -/
def mapGet {κ β : Type} [DecidableEq κ] [Inhabited β] (k : κ) (m : List (κ × β)) : β :=
  (mapFind k m).getD default

/-- The map after evaluating `m[k]`: a default entry is created when `k` is absent. -/
def mapTouch {κ β : Type} [DecidableEq κ] [KeyLt κ] [Inhabited β] (k : κ)
    (m : List (κ × β)) : List (κ × β) :=
  match mapFind k m with
  | some _ => m
  | none => mapInsertNew k default m

/-- The map after `m[k] = f(m[k])`, e.g. `m[k].insert(x)`. -/
def mapModify {κ β : Type} [DecidableEq κ] [KeyLt κ] [Inhabited β] (k : κ) (f : β → β)
    (m : List (κ × β)) : List (κ × β) :=
  match mapFind k m with
  | some _ => mapUpdate k f m
  | none => mapInsertNew k (f default) m

/-! ## The store (`mesh.hpp`) -/

/-- The record `struct EdgeList` of `mesh.hpp`. -/
structure EdgeList where
  vertices : List Vertex
  faces : List Face
  edges : List Edge
deriving DecidableEq

instance : Inhabited EdgeList := ⟨⟨[], [], []⟩⟩

/-- The data members of `class WingedEdge`. -/
structure WingedEdge where
  faceList : List (Face × List Edge)
  edgeListMap : List (Edge × EdgeList)
  vertexList : List (Vertex × List Edge)
  butterfly : Bool
deriving DecidableEq

/-- The constructor `WingedEdge()`: three empty maps. -/
def WingedEdge.empty : WingedEdge := ⟨[], [], [], false⟩

/-- Member `NumVertices`. -/
def NumVertices (s : WingedEdge) : Nat := s.vertexList.length

/-- Member `NumEdges`. -/
def NumEdges (s : WingedEdge) : Nat := s.edgeListMap.length

/-- Member `NumFaces`. -/
def NumFaces (s : WingedEdge) : Nat := s.faceList.length

/-! ## Insertion (`mesh.cpp`, lines 9-64) -/

/-- Member `AddVertex`. -/
def AddVertex (s : WingedEdge) (x y z : ℚ) : Vertex × WingedEdge :=
  (⟨x, y, z⟩, { s with vertexList := mapTouch (⟨x, y, z⟩ : Vertex) s.vertexList })

/-- One statement `vertexList[v].insert(e)`. -/
def insertVertexEdge (s : WingedEdge) (v : Vertex) (e : Edge) : WingedEdge :=
  { s with vertexList := mapModify v (setInsert e) s.vertexList }

/-- The update of an edge record by `.edges.insert(e)`. -/
def EdgeList.addEdge (e : Edge) (l : EdgeList) : EdgeList :=
  { l with edges := setInsert e l.edges }

/-- The update of an edge record by `.vertices.insert(v)`. -/
def EdgeList.addVertex (v : Vertex) (l : EdgeList) : EdgeList :=
  { l with vertices := setInsert v l.vertices }

/-- The update of an edge record by `.faces.insert(f)`. -/
def EdgeList.addFace (f : Face) (l : EdgeList) : EdgeList :=
  { l with faces := setInsert f l.faces }

/-- One statement `edgeListMap[e].edges.insert(e2)`. -/
def insertEdgeEdge (s : WingedEdge) (e e2 : Edge) : WingedEdge :=
  { s with edgeListMap := mapModify e (EdgeList.addEdge e2) s.edgeListMap }

/-- One statement `edgeListMap[e].vertices.insert(v)`. -/
def insertEdgeVertex (s : WingedEdge) (e : Edge) (v : Vertex) : WingedEdge :=
  { s with edgeListMap := mapModify e (EdgeList.addVertex v) s.edgeListMap }

/-- One statement `edgeListMap[e].faces.insert(f)`. -/
def insertEdgeFace (s : WingedEdge) (e : Edge) (f : Face) : WingedEdge :=
  { s with edgeListMap := mapModify e (EdgeList.addFace f) s.edgeListMap }

/-- One statement `faceList[f].insert(e)`. -/
def insertFaceEdge (s : WingedEdge) (f : Face) (e : Edge) : WingedEdge :=
  { s with faceList := mapModify f (setInsert e) s.faceList }

/-- Member `AddEdge(const Vertex&, const Vertex&)`. -/
def AddEdge (s : WingedEdge) (v1 v2 : Vertex) : Edge × WingedEdge :=
  let e := Edge.make v1 v2
  let s := insertVertexEdge s v1 e
  let s := insertVertexEdge s v2 e
  let s := insertEdgeEdge s e e
  let s := insertEdgeVertex s e v1
  let s := insertEdgeVertex s e v2
  (e, s)

/-- Member `AddEdge(const Edge&)`. -/
def AddEdgeOf (s : WingedEdge) (e : Edge) : Edge × WingedEdge :=
  AddEdge s e.V1 e.V2

/-- Member `AddFace`. -/
def AddFace (s : WingedEdge) (e1 e2 e3 : Edge) : Face × WingedEdge :=
  let f : Face := ⟨e1, e2, e3⟩
  let s := (AddEdge s e1.V1 e1.V2).2
  let s := (AddEdge s e2.V1 e2.V2).2
  let s := (AddEdge s e3.V1 e3.V2).2
  let s := insertFaceEdge s f e1
  let s := insertFaceEdge s f e2
  let s := insertFaceEdge s f e3
  let s := insertEdgeFace s e1 f
  let s := insertEdgeFace s e2 f
  let s := insertEdgeFace s e3 f
  let s := insertEdgeVertex s e1 e1.V1
  let s := insertEdgeVertex s e1 e1.V2
  let s := insertEdgeVertex s e2 e2.V1
  let s := insertEdgeVertex s e2 e2.V2
  let s := insertEdgeVertex s e3 e3.V1
  let s := insertEdgeVertex s e3 e3.V2
  (f, s)

/-! ## Adjacency queries (`mesh.cpp`, lines 557-638) -/

/-- Member `GetAdjacentVertex`: the returned vertex and the `success` flag. -/
def GetAdjacentVertex (face : Face) (edge : Edge) : Vertex × Bool :=
  if face.E1 ≠ edge then
    (if face.E1.V1 = edge.V1 then face.E1.V2 else face.E1.V1, true)
  else if face.E2 ≠ edge then
    (if face.E2.V1 = edge.V1 then face.E2.V2 else face.E2.V1, true)
  else if face.E3 ≠ edge then
    (if face.E3.V1 = edge.V1 then face.E3.V2 else face.E3.V1, true)
  else (edge.V1, false)

/-- The store after evaluating `edgeListMap[edge]`. -/
def touchEdge (s : WingedEdge) (edge : Edge) : WingedEdge :=
  { s with edgeListMap := mapTouch edge s.edgeListMap }

/-- The store after evaluating `vertexList[a]`. -/
def touchVertex (s : WingedEdge) (a : Vertex) : WingedEdge :=
  { s with vertexList := mapTouch a s.vertexList }

/-- The incident-face set of an edge, `edgeListMap[edge].faces`. -/
def facesOf (s : WingedEdge) (edge : Edge) : List Face :=
  (mapGet edge s.edgeListMap).faces

/-- Member `GetAdjacentFace`: the returned face, the `success` flag and the store after
`edgeListMap[edge]`. -/
def GetAdjacentFace (s : WingedEdge) (face : Face) (edge : Edge) : Face × Bool × WingedEdge :=
  match (facesOf s edge).find? (fun f => decide (f ≠ face)) with
  | some f => (f, true, touchEdge s edge)
  | none => (face, false, touchEdge s edge)

/-- Member `GetAdjacentFaceVertex`. -/
def GetAdjacentFaceVertex (s : WingedEdge) (face : Face) (edge : Edge) :
    Vertex × Bool × WingedEdge :=
  let r := GetAdjacentFace s face edge
  if r.2.1 = false then (edge.V1, false, r.2.2)
  else ((GetAdjacentVertex r.1 edge).1, (GetAdjacentVertex r.1 edge).2, r.2.2)

/-- Member `getNumAdjacentFaces`: the count and the store after `edgeListMap[edge]`. -/
def getNumAdjacentFaces (s : WingedEdge) (edge : Edge) : Nat × WingedEdge :=
  ((facesOf s edge).length, touchEdge s edge)

/-- Member `getOtherVertex`. -/
def getOtherVertex (edge : Edge) (v : Vertex) : Vertex :=
  if edge.V1 = v then edge.V2 else edge.V1

/-- The range-for loop of `getOtherBoundaryVertice` over the copied incident-edge set. -/
def getOtherBoundaryVerticeLoop (a : Vertex) (forbidden_edge : Edge) :
    List Edge → WingedEdge → Vertex × WingedEdge
  | [], s => (a, s)
  | e :: rest, s =>
    if e ≠ forbidden_edge then
      if (getNumAdjacentFaces s e).1 = 1 then (getOtherVertex e a, (getNumAdjacentFaces s e).2)
      else getOtherBoundaryVerticeLoop a forbidden_edge rest (getNumAdjacentFaces s e).2
    else getOtherBoundaryVerticeLoop a forbidden_edge rest s

/-- Member `getOtherBoundaryVertice`: the vertex and the store after `vertexList[a]` and the
`edgeListMap[e]` of the loop. -/
def getOtherBoundaryVertice (s : WingedEdge) (a : Vertex) (forbidden_edge : Edge) :
    Vertex × WingedEdge :=
  getOtherBoundaryVerticeLoop a forbidden_edge (mapGet a s.vertexList) (touchVertex s a)

/-! ## Subdivision engine (`mesh.cpp`, lines 72-551) -/

/-- The three statements `e1 = mesh.AddEdge(..); e2 = mesh.AddEdge(..); e3 = mesh.AddEdge(..)`
followed by `mesh.AddFace(e1, e2, e3)`. -/
def addEdgesFace (mesh : WingedEdge) (a1 b1 a2 b2 a3 b3 : Vertex) : WingedEdge :=
  let r1 := AddEdge mesh a1 b1
  let r2 := AddEdge r1.2 a2 b2
  let r3 := AddEdge r2.2 a3 b3
  (AddFace r3.2 r1.1 r2.1 r3.1).2

/-- Member `performTriangulation`: the target mesh afterwards. -/
def performTriangulation (mesh : WingedEdge) (v1 v2 v3 v4 v5 v6 : Vertex) : WingedEdge :=
  let mesh := addEdgesFace mesh v1 v5 v1 v6 v5 v6
  let mesh := addEdgesFace mesh v2 v4 v2 v6 v4 v6
  let mesh := addEdgesFace mesh v3 v4 v3 v5 v4 v5
  addEdgesFace mesh v4 v5 v4 v6 v5 v6

/-- The local `std::set<Edge> edges` of `SubdivideEdge` after inserting `E1`, `E2`, `E3`. -/
def edgeSet (f : Face) : List Edge :=
  setInsert f.E3 (setInsert f.E2 (setInsert f.E1 []))

/-- One `for` loop of `SubdivideEdge` over the edges of a face: the running sum `v`, the flag
`boundary` and the store. A failed lookup sets the flag and leaves this loop only. -/
def SubdivideEdgeLoop (f : Face) (e : Edge) :
    List Edge → Vertex → Bool → WingedEdge → Vertex × Bool × WingedEdge
  | [], v, boundary, s => (v, boundary, s)
  | edge :: rest, v, boundary, s =>
    if edge ≠ e then
      if (GetAdjacentFaceVertex s f edge).2.1 = false then
        (v - (GetAdjacentFaceVertex s f edge).1 / (16 : ℚ), true,
          (GetAdjacentFaceVertex s f edge).2.2)
      else
        SubdivideEdgeLoop f e rest (v - (GetAdjacentFaceVertex s f edge).1 / (16 : ℚ)) boundary
          (GetAdjacentFaceVertex s f edge).2.2
    else SubdivideEdgeLoop f e rest v boundary s

/-- The block `if(boundary)` of `SubdivideEdge`. -/
def boundaryStencil (s : WingedEdge) (e : Edge) : Vertex × WingedEdge :=
  let v1 := e.V1
  let v2 := e.V2
  let r3 := getOtherBoundaryVertice s v1 e
  let r4 := getOtherBoundaryVertice r3.2 v2 e
  (v1 * (9 : ℚ) / (16 : ℚ) + v2 * (9 : ℚ) / (16 : ℚ) - r3.1 / (16 : ℚ) - r4.1 / (16 : ℚ), r4.2)

/-- The body of the `do .. while(false)` of `SubdivideEdge`: the running sum `v`, the flag
`boundary` and the store. -/
def interiorStencil (s : WingedEdge) (f1 : Face) (e : Edge) (b1 v : Vertex) :
    Vertex × Bool × WingedEdge :=
  let r := GetAdjacentFace s f1 e
  if r.2.1 = false then (v, true, r.2.2)
  else
    let f2 := r.1
    let b2 := GetAdjacentVertex f2 e
    if b2.2 = false then (v, true, r.2.2)
    else
      let v := v + b1 / (8 : ℚ)
      let v := v + b2.1 / (8 : ℚ)
      let l1 := SubdivideEdgeLoop f1 e (edgeSet f1) v false r.2.2
      SubdivideEdgeLoop f2 e (edgeSet f2) l1.1 l1.2.1 l1.2.2

/-- Member `SubdivideEdge`: the new vertex and the store afterwards. -/
def SubdivideEdge (s : WingedEdge) (f1 : Face) (e : Edge) (b1 : Vertex) (linear : Bool) :
    Vertex × WingedEdge :=
  let v := e.V1 / (2 : ℚ)
  let v := v + e.V2 / (2 : ℚ)
  if linear then (v, s)
  else
    let r := interiorStencil s f1 e b1 v
    if r.2.1 then boundaryStencil r.2.2 e else (r.1, r.2.2)

/-- The body of the loop of `Subdivide` for one face: the new mesh (or the throw) and the
store afterwards. -/
def SubdivideFace (linear : Bool) (face : Face) (mesh s : WingedEdge) :
    Except String WingedEdge × WingedEdge :=
  let e1 := face.E1
  let e2 := face.E2
  let e3 := face.E3
  let v1 := (GetAdjacentVertex face e1).1
  let v2 := (GetAdjacentVertex face e2).1
  let v3 := (GetAdjacentVertex face e3).1
  let success := (GetAdjacentVertex face e3).2
  if success = false then (Except.error "Something is wrong with the mesh topology", s)
  else
    let swap : Bool := decide (v1 = e3.V1) || decide (v1 = e3.V2)
    let e2s := if swap then e3 else e2
    let e3s := if swap then e2 else e3
    let r4 := SubdivideEdge s face e1 v1 linear
    let r5 := SubdivideEdge r4.2 face e2s v2 linear
    let r6 := SubdivideEdge r5.2 face e3s v3 linear
    (Except.ok (performTriangulation mesh v1 v2 v3 r4.1 r5.1 r6.1), r6.2)

/-- A `for` loop over the faces of the store with a body that may throw. -/
def facesLoop (body : Face → WingedEdge → WingedEdge → Except String WingedEdge × WingedEdge) :
    List Face → WingedEdge → WingedEdge → Except String WingedEdge × WingedEdge
  | [], mesh, s => (Except.ok mesh, s)
  | face :: rest, mesh, s =>
    match body face mesh s with
    | (Except.error msg, s1) => (Except.error msg, s1)
    | (Except.ok mesh1, s1) => facesLoop body rest mesh1 s1

/-- Member `Subdivide(bool linear)`: the new mesh (or the throw) and the store afterwards. -/
def Subdivide (s : WingedEdge) (linear : Bool) : Except String WingedEdge × WingedEdge :=
  facesLoop (SubdivideFace linear) (s.faceList.map Prod.fst) WingedEdge.empty s

/-- Member `ButterflySubdivide`. -/
def ButterflySubdivide (s : WingedEdge) : Except String WingedEdge × WingedEdge :=
  Subdivide s false

/-- Member `LinearSubdivide`. -/
def LinearSubdivide (s : WingedEdge) : Except String WingedEdge × WingedEdge :=
  Subdivide s true

/-- The two faces emitted for a face with one boundary edge (`mesh.cpp`, lines 212-221);
the second face reuses `e1`. -/
def addTwoFaces (mesh : WingedEdge) (v_new v_old1 v_old2 v_old3 : Vertex) : WingedEdge :=
  let r1 := AddEdge mesh v_new v_old1
  let r2 := AddEdge r1.2 v_new v_old2
  let r3 := AddEdge r2.2 v_old1 v_old2
  let mesh := (AddFace r3.2 r1.1 r2.1 r3.1).2
  let r4 := AddEdge mesh v_new v_old3
  let r5 := AddEdge r4.2 v_old1 v_old3
  (AddFace r5.2 r1.1 r4.1 r5.1).2

/-- The three faces emitted for a face with two boundary edges (`mesh.cpp`, lines 280-296). -/
def addThreeFaces (mesh : WingedEdge) (v_old1 v_old2 v_old3 v_new1 v_new2 : Vertex) :
    WingedEdge :=
  let mesh := addEdgesFace mesh v_old1 v_new1 v_old1 v_new2 v_new1 v_new2
  let mesh := addEdgesFace mesh v_old3 v_new1 v_old3 v_new2 v_new1 v_new2
  addEdgesFace mesh v_old2 v_new2 v_old3 v_new2 v_old3 v_old2

/-- The branch `boundary_count == 0` of `BoundaryTrianglularSubdivide` (lines 174-182). -/
def copyFace (mesh : WingedEdge) (e1 e2 e3 : Edge) : WingedEdge :=
  let r1 := AddEdgeOf mesh e1
  let r2 := AddEdgeOf r1.2 e2
  let r3 := AddEdgeOf r2.2 r2.1
  (AddFace r3.2 r1.1 r3.1 e3).2

/-- The count `boundary_count` of the boundary predicates (`mesh.cpp`, lines 167-171). -/
def boundaryCount (b1 b2 b3 : Bool) : Nat :=
  let boundary_count : Nat := 0
  let boundary_count := if b1 then boundary_count + 1 else boundary_count
  let boundary_count := if b2 then boundary_count + 1 else boundary_count
  if b3 then boundary_count + 1 else boundary_count

/-- The branch `boundary_count == 1` of `BoundaryTrianglularSubdivide` (lines 184-224). -/
def BoundaryFaceOne (face : Face) (mesh s : WingedEdge) (v1 v2 v3 : Vertex) (b1 b2 : Bool) :
    Except String WingedEdge × WingedEdge :=
  if b1 then
    (Except.ok (addTwoFaces mesh (SubdivideEdge s face face.E1 v1 false).1 v1 v2 v3),
      (SubdivideEdge s face face.E1 v1 false).2)
  else if b2 then
    (Except.ok (addTwoFaces mesh (SubdivideEdge s face face.E2 v2 false).1 v2 v3 v1),
      (SubdivideEdge s face face.E2 v2 false).2)
  else
    (Except.ok (addTwoFaces mesh (SubdivideEdge s face face.E3 v3 false).1 v3 v1 v2),
      (SubdivideEdge s face face.E3 v3 false).2)

/-- The faces with two or three boundary edges in `BoundaryTrianglularSubdivide`
(lines 226-296). -/
def BoundaryFaceFull (face : Face) (mesh s : WingedEdge) (v1 v2 v3 : Vertex) (b1 b2 b3 : Bool)
    (boundary_count : Nat) : Except String WingedEdge × WingedEdge :=
  let r1 := SubdivideEdge s face face.E1 v1 (!b1)
  let r2 := SubdivideEdge r1.2 face face.E2 v2 (!b2)
  let r3 := SubdivideEdge r2.2 face face.E3 v3 (!b3)
  let vn1 := r1.1
  let vn2 := r2.1
  let vn3 := r3.1
  if boundary_count = 3 then
    (Except.ok (performTriangulation mesh v1 v2 v3 vn1 vn2 vn3), r3.2)
  else if boundary_count > 3 then
    (Except.error "Face has more than 3 edges. This is not a triangle!", r3.2)
  else if !b1 then (Except.ok (addThreeFaces mesh v1 v2 v3 vn2 vn3), r3.2)
  else if !b2 then (Except.ok (addThreeFaces mesh v2 v3 v1 vn3 vn1), r3.2)
  else (Except.ok (addThreeFaces mesh v3 v1 v2 vn1 vn2), r3.2)

/-- The body of the loop of `BoundaryTrianglularSubdivide` for one face. -/
def BoundaryFace (face : Face) (mesh s : WingedEdge) : Except String WingedEdge × WingedEdge :=
  let e1 := face.E1
  let e2 := face.E2
  let e3 := face.E3
  let v1 := (GetAdjacentVertex face e1).1
  let v2 := (GetAdjacentVertex face e2).1
  let v3 := (GetAdjacentVertex face e3).1
  let success := (GetAdjacentVertex face e3).2
  if success = false then (Except.error "Error : Winged Edge topology is malformed!", s)
  else
    let n1 := getNumAdjacentFaces s e1
    let n2 := getNumAdjacentFaces n1.2 e2
    let n3 := getNumAdjacentFaces n2.2 e3
    let b1 : Bool := decide (n1.1 = 1)
    let b2 : Bool := decide (n2.1 = 1)
    let b3 : Bool := decide (n3.1 = 1)
    let boundary_count := boundaryCount b1 b2 b3
    if boundary_count = 0 then (Except.ok (copyFace mesh e1 e2 e3), n3.2)
    else if boundary_count = 1 then BoundaryFaceOne face mesh n3.2 v1 v2 v3 b1 b2
    else BoundaryFaceFull face mesh n3.2 v1 v2 v3 b1 b2 b3 boundary_count

/-- Member `BoundaryTrianglularSubdivide`. -/
def BoundaryTrianglularSubdivide (s : WingedEdge) : Except String WingedEdge × WingedEdge :=
  facesLoop BoundaryFace (s.faceList.map Prod.fst) WingedEdge.empty s

/-- The four faces emitted by `SillyPascalSubdivide` (`mesh.cpp`, lines 353-379). -/
def addPascalFaces (mesh : WingedEdge) (v1 v2 v3 v4 v5 v6 : Vertex) : WingedEdge :=
  let mesh := addEdgesFace mesh v1 v4 v1 v5 v5 v4
  let mesh := addEdgesFace mesh v4 v2 v4 v6 v6 v2
  let mesh := addEdgesFace mesh v5 v6 v5 v3 v3 v6
  addEdgesFace mesh v6 v5 v6 v4 v4 v5

/-- The body of the loop of `SillyPascalSubdivide` for one face. -/
def SillyPascalFace (face : Face) (mesh s : WingedEdge) :
    Except String WingedEdge × WingedEdge :=
  let e1 := face.E1
  let e2 := face.E2
  let e3 := face.E3
  let v1 := e1.V1
  let v2 := e1.V2
  let v3 := if e2.V1 = v1 ∨ e2.V1 = v2 then e2.V2 else e2.V1
  let swap : Bool := decide (v1 = e3.V1) || decide (v1 = e3.V2)
  let e2s := if swap then e3 else e2
  let e3s := if swap then e2 else e3
  let n1 := getNumAdjacentFaces s e1
  let n2 := getNumAdjacentFaces n1.2 e2s
  let n3 := getNumAdjacentFaces n2.2 e3s
  let s := n3.2
  if n1.1 = 2 ∧ n2.1 = 2 ∧ n3.1 = 2 then (Except.ok mesh, s)
  else
    let r4 := SubdivideEdge s face e1 (GetAdjacentVertex face e1).1 false
    let r5 := SubdivideEdge r4.2 face e2s (GetAdjacentVertex face e2s).1 false
    let r6 := SubdivideEdge r5.2 face e3s (GetAdjacentVertex face e3s).1 false
    let success := (GetAdjacentVertex face e3s).2
    if success = false then
      (Except.error "WindgedEdge Error: Something is wrong with the mesh to be subdivided.",
        r6.2)
    else (Except.ok (addPascalFaces mesh v1 v2 v3 r4.1 r5.1 r6.1), r6.2)

/-- Member `SillyPascalSubdivide`. -/
def SillyPascalSubdivide (s : WingedEdge) : Except String WingedEdge × WingedEdge :=
  facesLoop SillyPascalFace (s.faceList.map Prod.fst) WingedEdge.empty s

/-! ## Vocabulary of the specification and concrete meshes -/

/-- The edge joins the two vertices, whatever the order of its endpoints. -/
def Edge.joins (e : Edge) (p q : Vertex) : Prop :=
  (e.V1 = p ∧ e.V2 = q) ∨ (e.V1 = q ∧ e.V2 = p)

instance (e : Edge) (p q : Vertex) : Decidable (e.joins p q) := by
  unfold Edge.joins; infer_instance

/-- The face is a triangle on the pairwise distinct vertices `a`, `b`, `c`: its three edges
are the three sides, `E1` opposite `a`, `E2` opposite `b`, `E3` opposite `c`. Every order of
the edges in a face is covered by renaming the vertices. -/
def Face.isTriangle (f : Face) (a b c : Vertex) : Prop :=
  a ≠ b ∧ a ≠ c ∧ b ≠ c ∧ f.E1.joins b c ∧ f.E2.joins a c ∧ f.E3.joins a b

instance (f : Face) (a b c : Vertex) : Decidable (f.isTriangle a b c) := by
  unfold Face.isTriangle; infer_instance

/-- A sample vertex. -/
def ptA : Vertex := ⟨0, 0, 0⟩

/-- A sample vertex. -/
def ptB : Vertex := ⟨4, 0, 0⟩

/-- A sample vertex. -/
def ptC : Vertex := ⟨4, 4, 0⟩

/-- A sample vertex. -/
def ptD : Vertex := ⟨8, 8, 8⟩

/-- The face has a side joining each two of the three vertices. -/
def Face.onVertices (f : Face) (p q r : Vertex) : Prop :=
  (∃ e ∈ [f.E1, f.E2, f.E3], e.joins p q) ∧ (∃ e ∈ [f.E1, f.E2, f.E3], e.joins q r) ∧
    (∃ e ∈ [f.E1, f.E2, f.E3], e.joins p r)

instance (f : Face) (p q r : Vertex) : Decidable (f.onVertices p q r) := by
  unfold Face.onVertices; infer_instance

/-- The store contains a face that is a triangle on the three vertices, whatever the order of
its edges and of their endpoints. -/
def hasTriangle (m : WingedEdge) (p q r : Vertex) : Prop :=
  ∃ x ∈ m.faceList, x.1.onVertices p q r

instance (m : WingedEdge) (p q r : Vertex) : Decidable (hasTriangle m p q r) := by
  unfold hasTriangle; infer_instance

/-- The componentwise arithmetic mean of two vertices. -/
def midpoint (p q : Vertex) : Vertex :=
  ⟨(p.x + q.x) / 2, (p.y + q.y) / 2, (p.z + q.z) / 2⟩

/-- The store after one `AddFace` of the triangle `ptA ptB ptC`, edges in the order `ab`, `ac`,
`bc`. -/
def triangleSorted : WingedEdge :=
  (AddFace WingedEdge.empty (Edge.make ptA ptB) (Edge.make ptA ptC) (Edge.make ptB ptC)).2

/-- The four faces of the tetrahedron on `ptA`, `ptB`, `ptC`, `ptD`. -/
def tetrahedronFaces : List Face :=
  [⟨Edge.make ptA ptB, Edge.make ptA ptC, Edge.make ptB ptC⟩,
   ⟨Edge.make ptA ptB, Edge.make ptA ptD, Edge.make ptB ptD⟩,
   ⟨Edge.make ptA ptC, Edge.make ptA ptD, Edge.make ptC ptD⟩,
   ⟨Edge.make ptB ptC, Edge.make ptB ptD, Edge.make ptC ptD⟩]

/-- The store after four `AddFace` calls, one for each face of the tetrahedron. -/
def tetrahedron : WingedEdge :=
  tetrahedronFaces.foldl (fun s f => (AddFace s f.E1 f.E2 f.E3).2) WingedEdge.empty

/-- The key has an entry in the map. -/
def hasKey {κ β : Type} [DecidableEq κ] (k : κ) (m : List (κ × β)) : Prop :=
  (mapFind k m).isSome = true

instance {κ β : Type} [DecidableEq κ] (k : κ) (m : List (κ × β)) : Decidable (hasKey k m) := by
  unfold hasKey; infer_instance

/-- Every entry of `s` is still present in `t`, with sets that only grew. -/
structure Grows (s t : WingedEdge) : Prop where
  faceKeys : ∀ f, hasKey f s.faceList → hasKey f t.faceList
  faceEdges : ∀ f e, e ∈ mapGet f s.faceList → e ∈ mapGet f t.faceList
  edgeKeys : ∀ e, hasKey e s.edgeListMap → hasKey e t.edgeListMap
  edgeVertices : ∀ e v,
    v ∈ (mapGet e s.edgeListMap).vertices → v ∈ (mapGet e t.edgeListMap).vertices
  edgeFaces : ∀ e f, f ∈ (mapGet e s.edgeListMap).faces → f ∈ (mapGet e t.edgeListMap).faces
  edgeEdges : ∀ e e2, e2 ∈ (mapGet e s.edgeListMap).edges → e2 ∈ (mapGet e t.edgeListMap).edges
  vertexKeys : ∀ v, hasKey v s.vertexList → hasKey v t.vertexList
  vertexEdges : ∀ v e, e ∈ mapGet v s.vertexList → e ∈ mapGet v t.vertexList

/-- The primitive statements the insertion members are made of. -/
inductive Stmt where
  | vertexKey (v : Vertex)
  | vertexEdge (v : Vertex) (e : Edge)
  | edgeEdge (e e2 : Edge)
  | edgeVertex (e : Edge) (v : Vertex)
  | edgeFace (e : Edge) (f : Face)
  | faceEdge (f : Face) (e : Edge)
deriving DecidableEq

/-- The store after one primitive statement. -/
def Stmt.run (s : WingedEdge) : Stmt → WingedEdge
  | Stmt.vertexKey v => touchVertex s v
  | Stmt.vertexEdge v e => insertVertexEdge s v e
  | Stmt.edgeEdge e e2 => insertEdgeEdge s e e2
  | Stmt.edgeVertex e v => insertEdgeVertex s e v
  | Stmt.edgeFace e f => insertEdgeFace s e f
  | Stmt.faceEdge f e => insertFaceEdge s f e

/-- What a primitive statement establishes: the key or the element is in the store. -/
def Stmt.done (s : WingedEdge) : Stmt → Prop
  | Stmt.vertexKey v => hasKey v s.vertexList
  | Stmt.vertexEdge v e => e ∈ mapGet v s.vertexList
  | Stmt.edgeEdge e e2 => e2 ∈ (mapGet e s.edgeListMap).edges
  | Stmt.edgeVertex e v => v ∈ (mapGet e s.edgeListMap).vertices
  | Stmt.edgeFace e f => f ∈ (mapGet e s.edgeListMap).faces
  | Stmt.faceEdge f e => e ∈ mapGet f s.faceList

/-- The store after a sequence of primitive statements. -/
def runAll (s : WingedEdge) (l : List Stmt) : WingedEdge :=
  l.foldl Stmt.run s

/-- The statements of `AddEdge(v1, v2)`. -/
def addEdgeStmts (v1 v2 : Vertex) : List Stmt :=
  [Stmt.vertexEdge v1 (Edge.make v1 v2), Stmt.vertexEdge v2 (Edge.make v1 v2),
   Stmt.edgeEdge (Edge.make v1 v2) (Edge.make v1 v2),
   Stmt.edgeVertex (Edge.make v1 v2) v1, Stmt.edgeVertex (Edge.make v1 v2) v2]

/-- The statements of `AddFace(e1, e2, e3)`. -/
def addFaceStmts (e1 e2 e3 : Edge) : List Stmt :=
  addEdgeStmts e1.V1 e1.V2 ++ addEdgeStmts e2.V1 e2.V2 ++ addEdgeStmts e3.V1 e3.V2 ++
  [Stmt.faceEdge ⟨e1, e2, e3⟩ e1, Stmt.faceEdge ⟨e1, e2, e3⟩ e2, Stmt.faceEdge ⟨e1, e2, e3⟩ e3,
   Stmt.edgeFace e1 ⟨e1, e2, e3⟩, Stmt.edgeFace e2 ⟨e1, e2, e3⟩, Stmt.edgeFace e3 ⟨e1, e2, e3⟩,
   Stmt.edgeVertex e1 e1.V1, Stmt.edgeVertex e1 e1.V2, Stmt.edgeVertex e2 e2.V1,
   Stmt.edgeVertex e2 e2.V2, Stmt.edgeVertex e3 e3.V1, Stmt.edgeVertex e3 e3.V2]

/-- Every key that the passes over the store look up is present: the edges of a stored face,
the faces incident to an edge, the endpoints of a stored edge and the edges incident to a
vertex. -/
structure Closed (s : WingedEdge) : Prop where
  faceEdges : ∀ f, hasKey f s.faceList →
    hasKey f.E1 s.edgeListMap ∧ hasKey f.E2 s.edgeListMap ∧ hasKey f.E3 s.edgeListMap
  edgeFaces : ∀ e f, f ∈ facesOf s e → hasKey f s.faceList
  edgeEnds : ∀ e, hasKey e s.edgeListMap → hasKey e.V1 s.vertexList ∧ hasKey e.V2 s.vertexList
  vertexEdges : ∀ v e, e ∈ mapGet v s.vertexList → hasKey e s.edgeListMap

/-- The stores that can be built from the empty store by the three insertion members. -/
inductive Reachable : WingedEdge → Prop
  | empty : Reachable WingedEdge.empty
  | addVertex (s : WingedEdge) (x y z : ℚ) : Reachable s → Reachable (AddVertex s x y z).2
  | addEdge (s : WingedEdge) (v1 v2 : Vertex) : Reachable s → Reachable (AddEdge s v1 v2).2
  | addFace (s : WingedEdge) (e1 e2 e3 : Edge) :
      Reachable s → Reachable (AddFace s e1 e2 e3).2

/-- The two stores answer every `edgeListMap[e]` and `vertexList[a]` alike. -/
def SameLookups (s t : WingedEdge) : Prop :=
  (∀ e, mapGet e t.edgeListMap = mapGet e s.edgeListMap) ∧
    ∀ a, mapGet a t.vertexList = mapGet a s.vertexList

/-- The three edges of the face are `e`, `x` and `y`, pairwise distinct, in some order. -/
def Face.hasEdges (f : Face) (e x y : Edge) : Prop :=
  e ≠ x ∧ e ≠ y ∧ x ≠ y ∧ (∀ z ∈ [f.E1, f.E2, f.E3], z ∈ [e, x, y]) ∧
    ∀ z ∈ [e, x, y], z ∈ [f.E1, f.E2, f.E3]

instance (f : Face) (e x y : Edge) : Decidable (f.hasEdges e x y) := by
  unfold Face.hasEdges; infer_instance

/-- Some lookup of the interior stencil of `SubdivideEdge(f1, e, ..)` fails: the face across
`e`, the apex of that face, or the far apex across another edge of `f1` or of that face. -/
def interiorLookupFails (s : WingedEdge) (f1 : Face) (e : Edge) : Prop :=
  (GetAdjacentFace s f1 e).2.1 = false ∨
  (GetAdjacentVertex (GetAdjacentFace s f1 e).1 e).2 = false ∨
  (∃ x ∈ [f1.E1, f1.E2, f1.E3], x ≠ e ∧ (GetAdjacentFaceVertex s f1 x).2.1 = false) ∨
  (∃ x ∈ [(GetAdjacentFace s f1 e).1.E1, (GetAdjacentFace s f1 e).1.E2,
      (GetAdjacentFace s f1 e).1.E3],
    x ≠ e ∧ (GetAdjacentFaceVertex s (GetAdjacentFace s f1 e).1 x).2.1 = false)

instance (s : WingedEdge) (f1 : Face) (e : Edge) : Decidable (interiorLookupFails s f1 e) := by
  unfold interiorLookupFails; infer_instance

/-- The face `ptA ptB ptC` of the tetrahedron. -/
def faceABC : Face := ⟨Edge.make ptA ptB, Edge.make ptA ptC, Edge.make ptB ptC⟩

/-- The face `ptA ptB ptD` of the tetrahedron. -/
def faceABD : Face := ⟨Edge.make ptA ptB, Edge.make ptA ptD, Edge.make ptB ptD⟩

/-- A sample vertex. -/
def ptE : Vertex := ⟨12, 0, 4⟩

/-- The face `ptA ptB ptE`. -/
def faceABE : Face := ⟨Edge.make ptA ptB, Edge.make ptA ptE, Edge.make ptB ptE⟩

/-- The store after one `AddFace` call for each face of the list, in that order. -/
def storeOfFaces (l : List Face) : WingedEdge :=
  l.foldl (fun s f => (AddFace s f.E1 f.E2 f.E3).2) WingedEdge.empty

/-- Three triangles `abc`, `abd`, `abe` sharing the edge `ab`. -/
def book : WingedEdge := storeOfFaces [faceABC, faceABD, faceABE]

/-- No key occurs twice in any of the three maps. -/
def KeysNodup (s : WingedEdge) : Prop :=
  (s.faceList.map Prod.fst).Nodup ∧ (s.edgeListMap.map Prod.fst).Nodup ∧
    (s.vertexList.map Prod.fst).Nodup

/-- The four faces of the refinement template of `performTriangulation`. -/
def templateFaces (v1 v2 v3 v4 v5 v6 : Vertex) : List Face :=
  [⟨Edge.make v1 v5, Edge.make v1 v6, Edge.make v5 v6⟩,
   ⟨Edge.make v2 v4, Edge.make v2 v6, Edge.make v4 v6⟩,
   ⟨Edge.make v3 v4, Edge.make v3 v5, Edge.make v4 v5⟩,
   ⟨Edge.make v4 v5, Edge.make v4 v6, Edge.make v5 v6⟩]

/-- The nine edges of the refinement template of `performTriangulation`. -/
def templateEdges (v1 v2 v3 v4 v5 v6 : Vertex) : List Edge :=
  [Edge.make v1 v5, Edge.make v1 v6, Edge.make v5 v6, Edge.make v2 v4, Edge.make v2 v6,
   Edge.make v4 v6, Edge.make v3 v4, Edge.make v3 v5, Edge.make v4 v5]

/-- The edge is a value of the constructor `Edge(v1, v2)`: its endpoints are stored in the
fixed order. -/
def Edge.canonical (e : Edge) : Prop := Edge.make e.V1 e.V2 = e

instance (e : Edge) : Decidable e.canonical := by
  unfold Edge.canonical; infer_instance

/-- The stores that can be built from the empty store by the three insertion members, the
edges handed to `AddFace` being values of the `Edge` constructor. -/
inductive Built : WingedEdge → Prop
  | empty : Built WingedEdge.empty
  | addVertex (s : WingedEdge) (x y z : ℚ) : Built s → Built (AddVertex s x y z).2
  | addEdge (s : WingedEdge) (v1 v2 : Vertex) : Built s → Built (AddEdge s v1 v2).2
  | addFace (s : WingedEdge) (e1 e2 e3 : Edge) : e1.canonical → e2.canonical →
      e3.canonical → Built s → Built (AddFace s e1 e2 e3).2

/-- Well-formedness of a store: the cross-links between the three maps. -/
structure WellFormed (s : WingedEdge) : Prop where
  edgeEnds : ∀ e, hasKey e s.edgeListMap →
    (hasKey e.V1 s.vertexList ∧ e ∈ mapGet e.V1 s.vertexList) ∧
      (hasKey e.V2 s.vertexList ∧ e ∈ mapGet e.V2 s.vertexList)
  vertexEdges : ∀ v e, e ∈ mapGet v s.vertexList → hasKey e s.edgeListMap
  edgeVertices : ∀ e, hasKey e s.edgeListMap →
    ∀ v, v ∈ (mapGet e s.edgeListMap).vertices ↔ v = e.V1 ∨ v = e.V2
  edgeSelf : ∀ e, hasKey e s.edgeListMap → ∀ x, x ∈ (mapGet e s.edgeListMap).edges ↔ x = e
  faceEdges : ∀ f, hasKey f s.faceList →
    ∀ e ∈ [f.E1, f.E2, f.E3], hasKey e s.edgeListMap ∧ f ∈ facesOf s e

/-- The sets of every edge record hold no element twice. -/
def SetsNodup (s : WingedEdge) : Prop :=
  ∀ e, (mapGet e s.edgeListMap).vertices.Nodup ∧ (mapGet e s.edgeListMap).edges.Nodup ∧
    (mapGet e s.edgeListMap).faces.Nodup

/-- What a query that evaluates `edgeListMap[edge]` does to the store: the face map and the
vertex map are as before and every lookup answers as before; the store is unchanged when the
edge is a key of the edge map, and otherwise the edge map has one entry more. -/
def TouchesOnlyEdge (s t : WingedEdge) (edge : Edge) : Prop :=
  t.faceList = s.faceList ∧ t.vertexList = s.vertexList ∧ SameLookups s t ∧
    (hasKey edge s.edgeListMap → t = s) ∧
    (¬ hasKey edge s.edgeListMap →
      hasKey edge t.edgeListMap ∧ NumEdges t = NumEdges s + 1 ∧
        NumVertices t = NumVertices s ∧ NumFaces t = NumFaces s)

section containers
variable {α κ β : Type}

theorem mem_orderedInsert [KeyLt α] (x y : α) (l : List α) :
    y ∈ orderedInsert x l ↔ y = x ∨ y ∈ l := by
  induction l with
  | nil => simp [orderedInsert]
  | cons z zs ih =>
    unfold orderedInsert
    split
    · simp
    · simp only [List.mem_cons, ih]
      tauto

theorem mem_setInsert [DecidableEq α] [KeyLt α] (x y : α) (l : List α) :
    y ∈ setInsert x l ↔ y = x ∨ y ∈ l := by
  unfold setInsert
  split
  · constructor
    · exact Or.inr
    · rintro (rfl | h)
      · assumption
      · exact h
  · exact mem_orderedInsert x y l

theorem setInsert_of_mem [DecidableEq α] [KeyLt α] {x : α} {l : List α} (h : x ∈ l) :
    setInsert x l = l := by
  simp [setInsert, h]

theorem mapFind_mapInsertNew_ne [DecidableEq κ] [KeyLt κ] {k k2 : κ} (h : k2 ≠ k) (v : β)
    (m : List (κ × β)) : mapFind k2 (mapInsertNew k v m) = mapFind k2 m := by
  have h2 : ¬ k = k2 := fun e => h e.symm
  induction m with
  | nil => simp [mapInsertNew, mapFind, h2]
  | cons p rest ih =>
    unfold mapInsertNew
    split
    · simp [mapFind, h2]
    · simp only [mapFind, ih]

theorem mapFind_mapInsertNew_self [DecidableEq κ] [KeyLt κ] {k : κ} (v : β)
    {m : List (κ × β)} (h : mapFind k m = none) : mapFind k (mapInsertNew k v m) = some v := by
  induction m with
  | nil => simp [mapInsertNew, mapFind]
  | cons p rest ih =>
    unfold mapFind at h
    split at h
    · exact absurd h (by simp)
    · rename_i hne
      unfold mapInsertNew
      split
      · simp [mapFind]
      · simp only [mapFind, if_neg hne, ih h]

theorem mapFind_mapUpdate_ne [DecidableEq κ] {k k2 : κ} (h : k2 ≠ k) (f : β → β)
    (m : List (κ × β)) : mapFind k2 (mapUpdate k f m) = mapFind k2 m := by
  induction m with
  | nil => rfl
  | cons p rest ih =>
    unfold mapUpdate
    split
    · rename_i hp
      have : ¬ p.1 = k2 := fun e => h (e.symm.trans hp)
      simp [mapFind, this]
    · simp only [mapFind, ih]

theorem mapFind_mapUpdate_self [DecidableEq κ] (k : κ) (f : β → β) (m : List (κ × β)) :
    mapFind k (mapUpdate k f m) = (mapFind k m).map f := by
  induction m with
  | nil => rfl
  | cons p rest ih =>
    unfold mapUpdate
    split
    · rename_i hp
      simp [mapFind, hp]
    · rename_i hp
      simp only [mapFind, if_neg hp, ih]

theorem mapFind_mapModify [DecidableEq κ] [KeyLt κ] [Inhabited β] (k k2 : κ) (f : β → β)
    (m : List (κ × β)) :
    mapFind k2 (mapModify k f m) = if k2 = k then some (f (mapGet k m)) else mapFind k2 m := by
  unfold mapModify mapGet
  by_cases h : k2 = k
  · subst h
    rw [if_pos rfl]
    cases hm : mapFind k2 m with
    | none => simp [mapFind_mapInsertNew_self _ hm]
    | some w => simp [mapFind_mapUpdate_self, hm]
  · rw [if_neg h]
    cases hm : mapFind k m with
    | none => simp [mapFind_mapInsertNew_ne h]
    | some w => simp [mapFind_mapUpdate_ne h]

theorem mapGet_mapModify [DecidableEq κ] [KeyLt κ] [Inhabited β] (k k2 : κ) (f : β → β)
    (m : List (κ × β)) :
    mapGet k2 (mapModify k f m) = if k2 = k then f (mapGet k m) else mapGet k2 m := by
  rw [mapGet, mapFind_mapModify]
  split <;> rfl

theorem hasKey_mapModify [DecidableEq κ] [KeyLt κ] [Inhabited β] (k k2 : κ) (f : β → β)
    (m : List (κ × β)) : hasKey k2 (mapModify k f m) ↔ k2 = k ∨ hasKey k2 m := by
  unfold hasKey
  rw [mapFind_mapModify]
  split
  · simp [*]
  · simp [*]

theorem mapFind_mapTouch [DecidableEq κ] [KeyLt κ] [Inhabited β] (k k2 : κ)
    (m : List (κ × β)) :
    mapFind k2 (mapTouch k m) = if k2 = k then some (mapGet k m) else mapFind k2 m := by
  unfold mapTouch mapGet
  by_cases h : k2 = k
  · subst h
    rw [if_pos rfl]
    cases hm : mapFind k2 m with
    | none => simp [mapFind_mapInsertNew_self _ hm]
    | some w => simp [hm]
  · rw [if_neg h]
    cases hm : mapFind k m with
    | none => simp [mapFind_mapInsertNew_ne h]
    | some w => simp

theorem mapGet_mapTouch [DecidableEq κ] [KeyLt κ] [Inhabited β] (k k2 : κ)
    (m : List (κ × β)) : mapGet k2 (mapTouch k m) = mapGet k2 m := by
  rw [mapGet, mapFind_mapTouch]
  split
  · rename_i h; subst h; rfl
  · rfl

theorem hasKey_mapTouch [DecidableEq κ] [KeyLt κ] [Inhabited β] (k k2 : κ)
    (m : List (κ × β)) : hasKey k2 (mapTouch k m) ↔ k2 = k ∨ hasKey k2 m := by
  unfold hasKey
  rw [mapFind_mapTouch]
  split
  · simp [*]
  · simp [*]

theorem mapTouch_of_hasKey [DecidableEq κ] [KeyLt κ] [Inhabited β] {k : κ}
    {m : List (κ × β)} (h : hasKey k m) : mapTouch k m = m := by
  unfold hasKey at h
  unfold mapTouch
  cases hm : mapFind k m with
  | none => rw [hm] at h; simp at h
  | some w => rfl

theorem mapUpdate_fixed [DecidableEq κ] {k : κ} {f : β → β} {m : List (κ × β)} {w : β}
    (hm : mapFind k m = some w) (hf : f w = w) : mapUpdate k f m = m := by
  induction m with
  | nil => rfl
  | cons p rest ih =>
    unfold mapFind at hm
    unfold mapUpdate
    split at hm
    · rename_i hp
      rw [if_pos hp]
      have : p.2 = w := by simpa using hm
      rw [this, hf, ← this]
    · rename_i hp
      rw [if_neg hp, ih hm]

theorem mapModify_fixed [DecidableEq κ] [KeyLt κ] [Inhabited β] {k : κ} {f : β → β}
    {m : List (κ × β)} (hk : hasKey k m) (hf : f (mapGet k m) = mapGet k m) :
    mapModify k f m = m := by
  unfold hasKey at hk
  unfold mapModify
  cases hm : mapFind k m with
  | none => rw [hm] at hk; simp at hk
  | some w =>
    have : mapGet k m = w := by simp [mapGet, hm]
    rw [this] at hf
    exact mapUpdate_fixed hm hf

theorem hasKey_of_mem_keys [DecidableEq κ] {k : κ} {m : List (κ × β)}
    (h : k ∈ m.map Prod.fst) : hasKey k m := by
  unfold hasKey
  induction m with
  | nil => simp at h
  | cons p rest ih =>
    unfold mapFind
    split
    · rfl
    · rename_i hp
      simp only [List.map_cons, List.mem_cons] at h
      rcases h with h | h
      · exact absurd h.symm hp
      · exact ih h

end containers

/-! ## Adjacency queries -/

theorem find?_ne_eq_some {face g : Face} {l : List Face}
    (h : l.find? (fun f => decide (f ≠ face)) = some g) : g ∈ l ∧ g ≠ face := by
  refine ⟨List.mem_of_find?_eq_some h, ?_⟩
  have := List.find?_some h
  simpa using this

theorem find?_ne_eq_none {face : Face} {l : List Face}
    (h : l.find? (fun f => decide (f ≠ face)) = none) : ∀ g ∈ l, g = face := by
  intro g hg
  have := List.find?_eq_none.mp h g hg
  simpa using this

/-- C2: `GetAdjacentFace(f, e)` reports success exactly when the incident-face set of `e`
holds a face other than `f`; the face returned on success belongs to that set and differs
from `f`; and when no incident face differs from `f` (in particular when `f` is the only one)
it reports failure. -/
theorem C2_GetAdjacentFace_success_iff (s : WingedEdge) (f : Face) (e : Edge) :
    ((GetAdjacentFace s f e).2.1 = true ↔ ∃ g ∈ facesOf s e, g ≠ f) ∧
      ((GetAdjacentFace s f e).2.1 = true →
        (GetAdjacentFace s f e).1 ∈ facesOf s e ∧ (GetAdjacentFace s f e).1 ≠ f) ∧
      ((∀ g ∈ facesOf s e, g = f) → (GetAdjacentFace s f e).2.1 = false) ∧
      (facesOf s e = [f] → (GetAdjacentFace s f e).2.1 = false) := by
  unfold GetAdjacentFace
  cases h : (facesOf s e).find? (fun g => decide (g ≠ f)) with
  | none =>
    have hall := find?_ne_eq_none h
    refine ⟨?_, ?_, ?_, ?_⟩
    · simp only [Bool.false_eq_true, false_iff, not_exists, not_and]
      intro g hg hne
      exact hne (hall g hg)
    · simp
    · simp
    · simp
  | some g =>
    have hg := find?_ne_eq_some h
    refine ⟨?_, ?_, ?_, ?_⟩
    · simp only [true_iff]
      exact ⟨g, hg.1, hg.2⟩
    · intro _
      exact hg
    · intro hall
      exact absurd (hall g hg.1) hg.2
    · intro hone
      rw [hone] at hg
      simp at hg

/-! ## Uniform subdivision on concrete meshes -/

set_option maxRecDepth 100000

/-- C3 (the code departs from the claim): for the single triangle `ptA ptB ptC` the store
returned by `LinearSubdivide` contains the corner triangle at `ptC` and the centre triangle,
but neither the corner triangle `(a, m_ab, m_ac)` nor `(b, m_ab, m_bc)`; in their place it
contains `(a, m_ab, m_bc)` and `(b, m_ab, m_ac)`, each pairing a vertex with the midpoint of
the edge opposite to it. -/
theorem C3_LinearSubdivide_misses_corner_triangles :
    triangleSorted.faceList.map Prod.fst = [faceABC] ∧ faceABC.isTriangle ptC ptB ptA ∧
    ∃ m, (LinearSubdivide triangleSorted).1 = Except.ok m ∧
      ¬ hasTriangle m ptA (midpoint ptA ptB) (midpoint ptA ptC) ∧
      ¬ hasTriangle m ptB (midpoint ptA ptB) (midpoint ptB ptC) ∧
      hasTriangle m ptC (midpoint ptA ptC) (midpoint ptB ptC) ∧
      hasTriangle m (midpoint ptA ptB) (midpoint ptB ptC) (midpoint ptA ptC) ∧
      hasTriangle m ptA (midpoint ptA ptB) (midpoint ptB ptC) ∧
      hasTriangle m ptB (midpoint ptA ptB) (midpoint ptA ptC) :=
  ⟨by decide, by decide, _, rfl, by decide!⟩

/-- C4 (the code departs from the claim): the tetrahedron is a closed mesh with 4 vertices,
6 edges and 4 triangular faces, every edge having two incident faces; one linear `Subdivide`
pass returns a store with 10 vertices and 16 faces but 29 edges, not `2 * 6 + 3 * 4 = 24`. -/
theorem C4_tetrahedron_edge_count :
    NumVertices tetrahedron = 4 ∧ NumEdges tetrahedron = 6 ∧ NumFaces tetrahedron = 4 ∧
    tetrahedron.faceList.map Prod.fst = tetrahedronFaces ∧
    (∀ x ∈ tetrahedron.edgeListMap, x.2.faces.length = 2) ∧
    (∀ f ∈ tetrahedronFaces, ∃ a ∈ [ptA, ptB, ptC, ptD], ∃ b ∈ [ptA, ptB, ptC, ptD],
      ∃ c ∈ [ptA, ptB, ptC, ptD], f.isTriangle a b c) ∧
    ∃ m, (Subdivide tetrahedron true).1 = Except.ok m ∧
      NumVertices m = 10 ∧ NumEdges m = 29 ∧ NumFaces m = 16 :=
  ⟨by decide!, by decide!, by decide!, by decide!, by decide!, by decide!, _, rfl, by decide!⟩

theorem Vertex.ext_iff3 (a b : Vertex) : a = b ↔ a.x = b.x ∧ a.y = b.y ∧ a.z = b.z := by
  cases a; cases b; simp

@[simp] theorem Vertex.add_x (a b : Vertex) : (a + b).x = a.x + b.x := rfl

@[simp] theorem Vertex.add_y (a b : Vertex) : (a + b).y = a.y + b.y := rfl

@[simp] theorem Vertex.add_z (a b : Vertex) : (a + b).z = a.z + b.z := rfl

@[simp] theorem Vertex.sub_x (a b : Vertex) : (a - b).x = a.x - b.x := rfl

@[simp] theorem Vertex.sub_y (a b : Vertex) : (a - b).y = a.y - b.y := rfl

@[simp] theorem Vertex.sub_z (a b : Vertex) : (a - b).z = a.z - b.z := rfl

@[simp] theorem Vertex.div_x (a : Vertex) (c : ℚ) : (a / c).x = a.x / c := rfl

@[simp] theorem Vertex.div_y (a : Vertex) (c : ℚ) : (a / c).y = a.y / c := rfl

@[simp] theorem Vertex.div_z (a : Vertex) (c : ℚ) : (a / c).z = a.z / c := rfl

@[simp] theorem Vertex.mul_x (a : Vertex) (c : ℚ) : (a * c).x = a.x * c := rfl

@[simp] theorem Vertex.mul_y (a : Vertex) (c : ℚ) : (a * c).y = a.y * c := rfl

@[simp] theorem Vertex.mul_z (a : Vertex) (c : ℚ) : (a * c).z = a.z * c := rfl

/-- C6: in linear mode `SubdivideEdge` returns `V1(e)/2 + V2(e)/2`, which is the componentwise
arithmetic mean of the endpoints of `e`; the value does not mention the store, the face or
`b1`, and the store is not touched. -/
theorem C6_SubdivideEdge_linear_midpoint (s : WingedEdge) (f : Face) (e : Edge) (b1 : Vertex) :
    (SubdivideEdge s f e b1 true).1 = e.V1 / (2 : ℚ) + e.V2 / (2 : ℚ) ∧
      (SubdivideEdge s f e b1 true).1 = midpoint e.V1 e.V2 ∧
      (SubdivideEdge s f e b1 true).2 = s := by
  refine ⟨rfl, ?_, rfl⟩
  rw [Vertex.ext_iff3]
  simp only [SubdivideEdge, midpoint, if_true, Vertex.add_x, Vertex.add_y, Vertex.add_z,
    Vertex.div_x, Vertex.div_y, Vertex.div_z]
  refine ⟨?_, ?_, ?_⟩ <;> ring

/-! ## Insertion as a sequence of primitive statements -/

theorem mapGet_of_not_hasKey {κ β : Type} [DecidableEq κ] [Inhabited β] {k : κ}
    {m : List (κ × β)} (h : ¬ hasKey k m) : mapGet k m = default := by
  unfold hasKey at h
  unfold mapGet
  cases hm : mapFind k m with
  | none => rfl
  | some w => rw [hm] at h; simp at h

theorem hasKey_of_mem_mapGet {κ α : Type} [DecidableEq κ] {k : κ} {x : α}
    {m : List (κ × List α)} (h : x ∈ mapGet k m) : hasKey k m := by
  by_contra hk
  rw [mapGet_of_not_hasKey hk] at h
  exact absurd h (List.not_mem_nil x)

theorem hasKey_of_mem_edges {e e2 : Edge} {m : List (Edge × EdgeList)}
    (h : e2 ∈ (mapGet e m).edges) : hasKey e m := by
  by_contra hk
  rw [mapGet_of_not_hasKey hk] at h
  exact absurd h (List.not_mem_nil e2)

theorem hasKey_of_mem_vertices {e : Edge} {v : Vertex} {m : List (Edge × EdgeList)}
    (h : v ∈ (mapGet e m).vertices) : hasKey e m := by
  by_contra hk
  rw [mapGet_of_not_hasKey hk] at h
  exact absurd h (List.not_mem_nil v)

theorem hasKey_of_mem_faces {e : Edge} {f : Face} {m : List (Edge × EdgeList)}
    (h : f ∈ (mapGet e m).faces) : hasKey e m := by
  by_contra hk
  rw [mapGet_of_not_hasKey hk] at h
  exact absurd h (List.not_mem_nil f)

theorem AddEdge_eq_runAll (s : WingedEdge) (v1 v2 : Vertex) :
    AddEdge s v1 v2 = (Edge.make v1 v2, runAll s (addEdgeStmts v1 v2)) := rfl

theorem AddFace_eq_runAll (s : WingedEdge) (e1 e2 e3 : Edge) :
    AddFace s e1 e2 e3 = (⟨e1, e2, e3⟩, runAll s (addFaceStmts e1 e2 e3)) := rfl

theorem grows_refl (s : WingedEdge) : Grows s s :=
  ⟨fun _ h => h, fun _ _ h => h, fun _ h => h, fun _ _ h => h, fun _ _ h => h, fun _ _ h => h,
    fun _ h => h, fun _ _ h => h⟩

theorem grows_trans {s t u : WingedEdge} (h1 : Grows s t) (h2 : Grows t u) : Grows s u :=
  ⟨fun f h => h2.faceKeys f (h1.faceKeys f h),
    fun f e h => h2.faceEdges f e (h1.faceEdges f e h),
    fun e h => h2.edgeKeys e (h1.edgeKeys e h),
    fun e v h => h2.edgeVertices e v (h1.edgeVertices e v h),
    fun e f h => h2.edgeFaces e f (h1.edgeFaces e f h),
    fun e x h => h2.edgeEdges e x (h1.edgeEdges e x h),
    fun v h => h2.vertexKeys v (h1.vertexKeys v h),
    fun v e h => h2.vertexEdges v e (h1.vertexEdges v e h)⟩

theorem Stmt.run_grows (s : WingedEdge) (st : Stmt) : Grows s (Stmt.run s st) := by
  cases st with
  | vertexKey v =>
    refine ⟨fun _ h => h, fun _ _ h => h, fun _ h => h, fun _ _ h => h, fun _ _ h => h,
      fun _ _ h => h, ?_, ?_⟩
    · intro w h
      exact (hasKey_mapTouch v w s.vertexList).mpr (Or.inr h)
    · intro w e h
      simpa only [Stmt.run, touchVertex, mapGet_mapTouch] using h
  | vertexEdge v e =>
    refine ⟨fun _ h => h, fun _ _ h => h, fun _ h => h, fun _ _ h => h, fun _ _ h => h,
      fun _ _ h => h, ?_, ?_⟩
    · intro w h
      exact (hasKey_mapModify v w _ s.vertexList).mpr (Or.inr h)
    · intro w x h
      simp only [Stmt.run, insertVertexEdge, mapGet_mapModify]
      split
      · rename_i hw; subst hw
        exact (mem_setInsert _ _ _).mpr (Or.inr h)
      · exact h
  | edgeEdge e e2 =>
    refine ⟨fun _ h => h, fun _ _ h => h, ?_, ?_, ?_, ?_, fun _ h => h, fun _ _ h => h⟩
    · intro w h
      exact (hasKey_mapModify e w _ s.edgeListMap).mpr (Or.inr h)
    all_goals
      intro w x h
      simp only [Stmt.run, insertEdgeEdge, mapGet_mapModify]
      split
      · rename_i hw; subst hw
        first
          | exact h
          | exact (mem_setInsert _ _ _).mpr (Or.inr h)
      · exact h
  | edgeVertex e v =>
    refine ⟨fun _ h => h, fun _ _ h => h, ?_, ?_, ?_, ?_, fun _ h => h, fun _ _ h => h⟩
    · intro w h
      exact (hasKey_mapModify e w _ s.edgeListMap).mpr (Or.inr h)
    all_goals
      intro w x h
      simp only [Stmt.run, insertEdgeVertex, mapGet_mapModify]
      split
      · rename_i hw; subst hw
        first
          | exact h
          | exact (mem_setInsert _ _ _).mpr (Or.inr h)
      · exact h
  | edgeFace e f =>
    refine ⟨fun _ h => h, fun _ _ h => h, ?_, ?_, ?_, ?_, fun _ h => h, fun _ _ h => h⟩
    · intro w h
      exact (hasKey_mapModify e w _ s.edgeListMap).mpr (Or.inr h)
    all_goals
      intro w x h
      simp only [Stmt.run, insertEdgeFace, mapGet_mapModify]
      split
      · rename_i hw; subst hw
        first
          | exact h
          | exact (mem_setInsert _ _ _).mpr (Or.inr h)
      · exact h
  | faceEdge f e =>
    refine ⟨?_, ?_, fun _ h => h, fun _ _ h => h, fun _ _ h => h, fun _ _ h => h,
      fun _ h => h, fun _ _ h => h⟩
    · intro w h
      exact (hasKey_mapModify f w _ s.faceList).mpr (Or.inr h)
    · intro w x h
      simp only [Stmt.run, insertFaceEdge, mapGet_mapModify]
      split
      · rename_i hw; subst hw
        exact (mem_setInsert _ _ _).mpr (Or.inr h)
      · exact h

theorem Stmt.run_done (s : WingedEdge) (st : Stmt) : Stmt.done (Stmt.run s st) st := by
  cases st with
  | vertexKey v => exact (hasKey_mapTouch v v s.vertexList).mpr (Or.inl rfl)
  | vertexEdge v e =>
    simp only [Stmt.done, Stmt.run, insertVertexEdge, mapGet_mapModify, if_true]
    exact (mem_setInsert _ _ _).mpr (Or.inl rfl)
  | edgeEdge e e2 =>
    simp only [Stmt.done, Stmt.run, insertEdgeEdge, mapGet_mapModify, if_true]
    exact (mem_setInsert _ _ _).mpr (Or.inl rfl)
  | edgeVertex e v =>
    simp only [Stmt.done, Stmt.run, insertEdgeVertex, mapGet_mapModify, if_true]
    exact (mem_setInsert _ _ _).mpr (Or.inl rfl)
  | edgeFace e f =>
    simp only [Stmt.done, Stmt.run, insertEdgeFace, mapGet_mapModify, if_true]
    exact (mem_setInsert _ _ _).mpr (Or.inl rfl)
  | faceEdge f e =>
    simp only [Stmt.done, Stmt.run, insertFaceEdge, mapGet_mapModify, if_true]
    exact (mem_setInsert _ _ _).mpr (Or.inl rfl)

theorem Stmt.done_mono {s t : WingedEdge} (h : Grows s t) (st : Stmt) (hd : Stmt.done s st) :
    Stmt.done t st := by
  cases st with
  | vertexKey v => exact h.vertexKeys v hd
  | vertexEdge v e => exact h.vertexEdges v e hd
  | edgeEdge e e2 => exact h.edgeEdges e e2 hd
  | edgeVertex e v => exact h.edgeVertices e v hd
  | edgeFace e f => exact h.edgeFaces e f hd
  | faceEdge f e => exact h.faceEdges f e hd

theorem Stmt.run_of_done {s : WingedEdge} (st : Stmt) (hd : Stmt.done s st) :
    Stmt.run s st = s := by
  cases st with
  | vertexKey v =>
    show touchVertex s v = s
    unfold touchVertex
    rw [mapTouch_of_hasKey hd]
  | vertexEdge v e =>
    show insertVertexEdge s v e = s
    unfold insertVertexEdge
    rw [mapModify_fixed (hasKey_of_mem_mapGet hd) (setInsert_of_mem hd)]
  | edgeEdge e e2 =>
    show insertEdgeEdge s e e2 = s
    unfold insertEdgeEdge
    rw [mapModify_fixed (hasKey_of_mem_edges hd)]
    unfold EdgeList.addEdge
    rw [setInsert_of_mem hd]
  | edgeVertex e v =>
    show insertEdgeVertex s e v = s
    unfold insertEdgeVertex
    rw [mapModify_fixed (hasKey_of_mem_vertices hd)]
    unfold EdgeList.addVertex
    rw [setInsert_of_mem hd]
  | edgeFace e f =>
    show insertEdgeFace s e f = s
    unfold insertEdgeFace
    rw [mapModify_fixed (hasKey_of_mem_faces hd)]
    unfold EdgeList.addFace
    rw [setInsert_of_mem hd]
  | faceEdge f e =>
    show insertFaceEdge s f e = s
    unfold insertFaceEdge
    rw [mapModify_fixed (hasKey_of_mem_mapGet hd) (setInsert_of_mem hd)]

theorem runAll_grows (l : List Stmt) (s : WingedEdge) : Grows s (runAll s l) := by
  induction l generalizing s with
  | nil => exact grows_refl s
  | cons st rest ih => exact grows_trans (Stmt.run_grows s st) (ih (Stmt.run s st))

theorem runAll_done (l : List Stmt) (s : WingedEdge) :
    ∀ st ∈ l, Stmt.done (runAll s l) st := by
  induction l generalizing s with
  | nil => intro st h; exact absurd h (List.not_mem_nil st)
  | cons a rest ih =>
    intro st h
    rcases List.mem_cons.mp h with h | h
    · subst h
      exact Stmt.done_mono (runAll_grows rest (Stmt.run s st)) st (Stmt.run_done s st)
    · exact ih (Stmt.run s a) st h

theorem runAll_of_done (l : List Stmt) (s : WingedEdge) (h : ∀ st ∈ l, Stmt.done s st) :
    runAll s l = s := by
  induction l with
  | nil => rfl
  | cons a rest ih =>
    show runAll (Stmt.run s a) rest = s
    rw [Stmt.run_of_done a (h a (List.mem_cons_self a rest))]
    exact ih (fun st hst => h st (List.mem_cons_of_mem a hst))

theorem runAll_idem (l : List Stmt) (s : WingedEdge) : runAll (runAll s l) l = runAll s l :=
  runAll_of_done l (runAll s l) (runAll_done l s)

/-- C10: applying `AddVertex`, `AddEdge` or `AddFace` a second time with the same arguments
returns the same value and leaves the store as it was after the first call; and inserting a
vertex whose coordinates are already a key returns that vertex and leaves the store (hence
`NumVertices` and the incident-edge set of the vertex) unchanged. -/
theorem C10_insertion_idempotent (s : WingedEdge) (x y z : ℚ) (v1 v2 : Vertex)
    (e1 e2 e3 : Edge) :
    AddVertex (AddVertex s x y z).2 x y z = AddVertex s x y z ∧
      AddEdge (AddEdge s v1 v2).2 v1 v2 = AddEdge s v1 v2 ∧
      AddFace (AddFace s e1 e2 e3).2 e1 e2 e3 = AddFace s e1 e2 e3 ∧
      (hasKey (⟨x, y, z⟩ : Vertex) s.vertexList →
        AddVertex s x y z = (⟨x, y, z⟩, s) ∧
        NumVertices (AddVertex s x y z).2 = NumVertices s ∧
        mapGet (⟨x, y, z⟩ : Vertex) (AddVertex s x y z).2.vertexList =
          mapGet (⟨x, y, z⟩ : Vertex) s.vertexList) := by
  refine ⟨?_, ?_, ?_, ?_⟩
  · have h := runAll_idem [Stmt.vertexKey ⟨x, y, z⟩] s
    exact congrArg (fun t => ((⟨x, y, z⟩ : Vertex), t)) h
  · rw [AddEdge_eq_runAll, AddEdge_eq_runAll]
    exact congrArg (fun t => (Edge.make v1 v2, t)) (runAll_idem _ s)
  · rw [AddFace_eq_runAll, AddFace_eq_runAll]
    exact congrArg (fun t => ((⟨e1, e2, e3⟩ : Face), t)) (runAll_idem _ s)
  · intro hk
    have h : (AddVertex s x y z).2 = s := Stmt.run_of_done (Stmt.vertexKey ⟨x, y, z⟩) hk
    refine ⟨?_, ?_, ?_⟩
    · exact congrArg (fun t => ((⟨x, y, z⟩ : Vertex), t)) h
    · rw [h]
    · rw [h]

/-! ## Lookups do not depend on entries created by earlier lookups -/

theorem sameLookups_refl (s : WingedEdge) : SameLookups s s := ⟨fun _ => rfl, fun _ => rfl⟩

theorem sameLookups_trans {s t u : WingedEdge} (h1 : SameLookups s t) (h2 : SameLookups t u) :
    SameLookups s u :=
  ⟨fun e => (h2.1 e).trans (h1.1 e), fun a => (h2.2 a).trans (h1.2 a)⟩

theorem sameLookups_symm {s t : WingedEdge} (h : SameLookups s t) : SameLookups t s :=
  ⟨fun e => (h.1 e).symm, fun a => (h.2 a).symm⟩

theorem sameLookups_facesOf {s t : WingedEdge} (h : SameLookups s t) (e : Edge) :
    facesOf t e = facesOf s e := by
  unfold gfx.facesOf
  rw [h.1 e]

theorem sameLookups_touchEdge (s : WingedEdge) (e : Edge) : SameLookups s (touchEdge s e) :=
  ⟨fun e2 => mapGet_mapTouch e e2 s.edgeListMap, fun _ => rfl⟩

theorem sameLookups_touchVertex (s : WingedEdge) (a : Vertex) :
    SameLookups s (touchVertex s a) :=
  ⟨fun _ => rfl, fun a2 => mapGet_mapTouch a a2 s.vertexList⟩

theorem GetAdjacentFace_store (s : WingedEdge) (f : Face) (e : Edge) :
    (GetAdjacentFace s f e).2.2 = touchEdge s e := by
  unfold GetAdjacentFace
  split <;> rfl

theorem GetAdjacentFace_same {s t : WingedEdge} (h : SameLookups s t) (f : Face) (e : Edge) :
    (GetAdjacentFace t f e).1 = (GetAdjacentFace s f e).1 ∧
      (GetAdjacentFace t f e).2.1 = (GetAdjacentFace s f e).2.1 ∧
      SameLookups s (GetAdjacentFace t f e).2.2 := by
  refine ⟨?_, ?_, ?_⟩
  · unfold GetAdjacentFace
    rw [sameLookups_facesOf h e]
    split <;> rfl
  · unfold GetAdjacentFace
    rw [sameLookups_facesOf h e]
    split <;> rfl
  · rw [GetAdjacentFace_store]
    exact sameLookups_trans h (sameLookups_touchEdge t e)

theorem GetAdjacentFaceVertex_store (s : WingedEdge) (f : Face) (e : Edge) :
    (GetAdjacentFaceVertex s f e).2.2 = touchEdge s e := by
  dsimp only [GetAdjacentFaceVertex]
  split <;> exact GetAdjacentFace_store s f e

theorem GetAdjacentFaceVertex_same {s t : WingedEdge} (h : SameLookups s t) (f : Face)
    (e : Edge) :
    (GetAdjacentFaceVertex t f e).1 = (GetAdjacentFaceVertex s f e).1 ∧
      (GetAdjacentFaceVertex t f e).2.1 = (GetAdjacentFaceVertex s f e).2.1 ∧
      SameLookups s (GetAdjacentFaceVertex t f e).2.2 := by
  obtain ⟨h1, h2, _⟩ := GetAdjacentFace_same h f e
  refine ⟨?_, ?_, ?_⟩
  · dsimp only [GetAdjacentFaceVertex]
    rw [h1, h2]
    split <;> rfl
  · dsimp only [GetAdjacentFaceVertex]
    rw [h1, h2]
    split <;> rfl
  · rw [GetAdjacentFaceVertex_store]
    exact sameLookups_trans h (sameLookups_touchEdge t e)

theorem getNumAdjacentFaces_same {s t : WingedEdge} (h : SameLookups s t) (e : Edge) :
    (getNumAdjacentFaces t e).1 = (getNumAdjacentFaces s e).1 ∧
      SameLookups s (getNumAdjacentFaces t e).2 := by
  refine ⟨?_, sameLookups_trans h (sameLookups_touchEdge t e)⟩
  unfold getNumAdjacentFaces
  simp only [sameLookups_facesOf h e]

theorem getOtherBoundaryVerticeLoop_same (a : Vertex) (fe : Edge) (l : List Edge) :
    ∀ {s t : WingedEdge}, SameLookups s t →
      (getOtherBoundaryVerticeLoop a fe l t).1 = (getOtherBoundaryVerticeLoop a fe l s).1 ∧
        SameLookups s (getOtherBoundaryVerticeLoop a fe l t).2 := by
  induction l with
  | nil => intro s t h; exact ⟨rfl, h⟩
  | cons e rest ih =>
    intro s t h
    obtain ⟨hn, hs⟩ := getNumAdjacentFaces_same h e
    have hs2 : SameLookups (getNumAdjacentFaces s e).2 (getNumAdjacentFaces t e).2 :=
      sameLookups_trans (sameLookups_symm (sameLookups_touchEdge s e)) hs
    unfold getOtherBoundaryVerticeLoop
    by_cases he : e ≠ fe
    · rw [if_pos he, if_pos he, hn]
      by_cases h1 : (getNumAdjacentFaces s e).1 = 1
      · rw [if_pos h1, if_pos h1]
        exact ⟨rfl, hs⟩
      · rw [if_neg h1, if_neg h1]
        obtain ⟨r1, r2⟩ := ih hs2
        exact ⟨r1, sameLookups_trans (sameLookups_touchEdge s e) r2⟩
    · rw [if_neg he, if_neg he]
      exact ih h

theorem getOtherBoundaryVertice_same {s t : WingedEdge} (h : SameLookups s t) (a : Vertex)
    (fe : Edge) :
    (getOtherBoundaryVertice t a fe).1 = (getOtherBoundaryVertice s a fe).1 ∧
      SameLookups s (getOtherBoundaryVertice t a fe).2 := by
  unfold getOtherBoundaryVertice
  rw [h.2 a]
  have h2 : SameLookups (touchVertex s a) (touchVertex t a) :=
    sameLookups_trans (sameLookups_symm (sameLookups_touchVertex s a))
      (sameLookups_trans h (sameLookups_touchVertex t a))
  obtain ⟨r1, r2⟩ := getOtherBoundaryVerticeLoop_same a fe (mapGet a s.vertexList) h2
  exact ⟨r1, sameLookups_trans (sameLookups_touchVertex s a) r2⟩

/-! ## The loops of `SubdivideEdge` -/

theorem mem_edgeSet (f : Face) (x : Edge) : x ∈ edgeSet f ↔ x = f.E1 ∨ x = f.E2 ∨ x = f.E3 := by
  unfold edgeSet
  simp only [mem_setInsert, List.not_mem_nil, or_false]
  tauto

theorem SubdivideEdgeLoop_sameLookups (f : Face) (e : Edge) (l : List Edge) :
    ∀ (v : Vertex) (b : Bool) {s t : WingedEdge}, SameLookups s t →
      SameLookups s (SubdivideEdgeLoop f e l v b t).2.2 := by
  induction l with
  | nil => intro v b s t h; exact h
  | cons x rest ih =>
    intro v b s t h
    have hs := (GetAdjacentFaceVertex_same h f x).2.2
    unfold SubdivideEdgeLoop
    split
    · split
      · exact hs
      · exact ih _ _ hs
    · exact ih _ _ h

theorem SubdivideEdgeLoop_flag_mono (f : Face) (e : Edge) (l : List Edge) :
    ∀ (v : Vertex) (t : WingedEdge), (SubdivideEdgeLoop f e l v true t).2.1 = true := by
  induction l with
  | nil => intro v t; rfl
  | cons x rest ih =>
    intro v t
    unfold SubdivideEdgeLoop
    split
    · split
      · rfl
      · exact ih _ _
    · exact ih _ _

theorem SubdivideEdgeLoop_flag_of_fail (f : Face) (e : Edge) (l : List Edge) :
    ∀ (v : Vertex) (b : Bool) {s t : WingedEdge}, SameLookups s t →
      (∃ x ∈ l, x ≠ e ∧ (GetAdjacentFaceVertex s f x).2.1 = false) →
      (SubdivideEdgeLoop f e l v b t).2.1 = true := by
  induction l with
  | nil =>
    intro v b s t _ hx
    obtain ⟨x, hx, _⟩ := hx
    exact absurd hx (List.not_mem_nil x)
  | cons y rest ih =>
    intro v b s t h hx
    obtain ⟨hv, hb, hs⟩ := GetAdjacentFaceVertex_same h f y
    unfold SubdivideEdgeLoop
    by_cases hy : y ≠ e
    · rw [if_pos hy]
      by_cases hfail : (GetAdjacentFaceVertex t f y).2.1 = false
      · rw [if_pos hfail]
      · rw [if_neg hfail]
        apply ih _ _ hs
        obtain ⟨x, hmem, hne, hf⟩ := hx
        rcases List.mem_cons.mp hmem with hxy | hxr
        · subst hxy
          rw [hb] at hfail
          exact absurd hf hfail
        · exact ⟨x, hxr, hne, hf⟩
    · rw [if_neg hy]
      apply ih _ _ h
      obtain ⟨x, hmem, hne, hf⟩ := hx
      rcases List.mem_cons.mp hmem with hxy | hxr
      · subst hxy
        exact absurd hne hy
      · exact ⟨x, hxr, hne, hf⟩

theorem SubdivideEdgeLoop_all_found (f : Face) (e : Edge) (l : List Edge) :
    ∀ (v : Vertex) (b : Bool) {s t : WingedEdge}, SameLookups s t →
      (∀ x ∈ l, x ≠ e → (GetAdjacentFaceVertex s f x).2.1 = true) →
      (SubdivideEdgeLoop f e l v b t).1 =
          (l.filter (fun x => decide (x ≠ e))).foldl
            (fun acc x => acc - (GetAdjacentFaceVertex s f x).1 / (16 : ℚ)) v ∧
        (SubdivideEdgeLoop f e l v b t).2.1 = b := by
  induction l with
  | nil => intro v b s t _ _; exact ⟨rfl, rfl⟩
  | cons y rest ih =>
    intro v b s t h hall
    obtain ⟨hv, hb, hs⟩ := GetAdjacentFaceVertex_same h f y
    have hrest : ∀ x ∈ rest, x ≠ e → (GetAdjacentFaceVertex s f x).2.1 = true :=
      fun x hx => hall x (List.mem_cons_of_mem y hx)
    unfold SubdivideEdgeLoop
    by_cases hy : y ≠ e
    · have hok : ¬ (GetAdjacentFaceVertex t f y).2.1 = false := by
        rw [hb, hall y (List.mem_cons_self y rest) hy]
        simp
      rw [if_pos hy, if_neg hok, hv]
      have hd : (y :: rest).filter (fun x => decide (x ≠ e)) =
          y :: rest.filter (fun x => decide (x ≠ e)) := by
        simp [List.filter_cons, hy]
      rw [hd, List.foldl_cons]
      exact ih _ _ hs hrest
    · rw [if_neg hy]
      have hd : (y :: rest).filter (fun x => decide (x ≠ e)) =
          rest.filter (fun x => decide (x ≠ e)) := by
        simp only [ne_eq, not_not] at hy
        simp [List.filter_cons, hy]
      rw [hd]
      exact ih _ _ h hrest

theorem mem_edgeSet_iff_mem_list (f : Face) (x : Edge) :
    x ∈ edgeSet f ↔ x ∈ [f.E1, f.E2, f.E3] := by
  rw [mem_edgeSet]
  simp

theorem interiorStencil_sameLookups (s : WingedEdge) (f1 : Face) (e : Edge) (b1 v : Vertex) :
    SameLookups s (interiorStencil s f1 e b1 v).2.2 := by
  have h0 : SameLookups s (GetAdjacentFace s f1 e).2.2 :=
    (GetAdjacentFace_same (sameLookups_refl s) f1 e).2.2
  dsimp only [interiorStencil]
  split
  · exact h0
  · split
    · exact h0
    · exact SubdivideEdgeLoop_sameLookups _ _ _ _ _
        (SubdivideEdgeLoop_sameLookups _ _ _ _ _ h0)

theorem interiorStencil_flag_of_fail {s : WingedEdge} {f1 : Face} {e : Edge}
    (h : interiorLookupFails s f1 e) (b1 v : Vertex) :
    (interiorStencil s f1 e b1 v).2.1 = true := by
  have h0 : SameLookups s (GetAdjacentFace s f1 e).2.2 :=
    (GetAdjacentFace_same (sameLookups_refl s) f1 e).2.2
  dsimp only [interiorStencil]
  split
  · rfl
  · rename_i c1
    split
    · rfl
    · rename_i c2
      rcases h with h | h | h | h
      · exact absurd h c1
      · exact absurd h c2
      · obtain ⟨x, hx, hne, hf⟩ := h
        have hl1 := SubdivideEdgeLoop_flag_of_fail f1 e (edgeSet f1)
          (v + b1 / (8 : ℚ) + (GetAdjacentVertex (GetAdjacentFace s f1 e).1 e).1 / (8 : ℚ))
          false h0 ⟨x, (mem_edgeSet_iff_mem_list f1 x).mpr hx, hne, hf⟩
        rw [hl1]
        exact SubdivideEdgeLoop_flag_mono _ _ _ _ _
      · obtain ⟨x, hx, hne, hf⟩ := h
        exact SubdivideEdgeLoop_flag_of_fail _ e _ _ _
          (SubdivideEdgeLoop_sameLookups _ _ _ _ _ h0)
          ⟨x, (mem_edgeSet_iff_mem_list _ x).mpr hx, hne, hf⟩

theorem boundaryStencil_same {s t : WingedEdge} (h : SameLookups s t) (e : Edge) :
    (boundaryStencil t e).1 =
      e.V1 * (9 : ℚ) / (16 : ℚ) + e.V2 * (9 : ℚ) / (16 : ℚ) -
        (getOtherBoundaryVertice s e.V1 e).1 / (16 : ℚ) -
        (getOtherBoundaryVertice s e.V2 e).1 / (16 : ℚ) := by
  obtain ⟨h3, hs3⟩ := getOtherBoundaryVertice_same h e.V1 e
  obtain ⟨h4, _⟩ := getOtherBoundaryVertice_same hs3 e.V2 e
  dsimp only [boundaryStencil]
  rw [h3, h4]

/-- C8: whenever a lookup of the interior stencil fails, `SubdivideEdge` in butterfly mode
returns exactly `v1*9/16 + v2*9/16 - v3/16 - v4/16`, with `v1`, `v2` the endpoints of `e` and
`v3`, `v4` the results of `getOtherBoundaryVertice` for them; neither `b1` nor any other
interior term occurs in it, and the weights sum to one: when the four points coincide the
result is that point. -/
theorem C8_SubdivideEdge_boundary_fallback (s : WingedEdge) (f1 : Face) (e : Edge)
    (b1 : Vertex) (h : interiorLookupFails s f1 e) :
    (SubdivideEdge s f1 e b1 false).1 =
        e.V1 * (9 : ℚ) / (16 : ℚ) + e.V2 * (9 : ℚ) / (16 : ℚ) -
          (getOtherBoundaryVertice s e.V1 e).1 / (16 : ℚ) -
          (getOtherBoundaryVertice s e.V2 e).1 / (16 : ℚ) ∧
      ∀ p : Vertex, e.V1 = p → e.V2 = p → (getOtherBoundaryVertice s e.V1 e).1 = p →
        (getOtherBoundaryVertice s e.V2 e).1 = p → (SubdivideEdge s f1 e b1 false).1 = p := by
  have hval : (SubdivideEdge s f1 e b1 false).1 =
      e.V1 * (9 : ℚ) / (16 : ℚ) + e.V2 * (9 : ℚ) / (16 : ℚ) -
        (getOtherBoundaryVertice s e.V1 e).1 / (16 : ℚ) -
        (getOtherBoundaryVertice s e.V2 e).1 / (16 : ℚ) := by
    dsimp only [SubdivideEdge]
    rw [if_neg (by simp), interiorStencil_flag_of_fail h, if_pos rfl]
    exact boundaryStencil_same (interiorStencil_sameLookups _ _ _ _ _) e
  refine ⟨hval, ?_⟩
  intro p h1 h2 h3 h4
  rw [hval, h3, h4, h1, h2, Vertex.ext_iff3]
  simp only [Vertex.add_x, Vertex.add_y, Vertex.add_z, Vertex.sub_x, Vertex.sub_y, Vertex.sub_z,
    Vertex.div_x, Vertex.div_y, Vertex.div_z, Vertex.mul_x, Vertex.mul_y, Vertex.mul_z]
  refine ⟨?_, ?_, ?_⟩ <;> ring

/-- C8 at the single triangle: no face lies across the edge `ab`, and the new point is
`9/16 a + 9/16 b - 1/8 c`. -/
theorem C8_SubdivideEdge_boundary_fallback_witness :
    interiorLookupFails triangleSorted faceABC (Edge.make ptA ptB) ∧
    ((SubdivideEdge triangleSorted faceABC (Edge.make ptA ptB) ptC false).1 =
        (Edge.make ptA ptB).V1 * (9 : ℚ) / (16 : ℚ) +
          (Edge.make ptA ptB).V2 * (9 : ℚ) / (16 : ℚ) -
          (getOtherBoundaryVertice triangleSorted (Edge.make ptA ptB).V1
            (Edge.make ptA ptB)).1 / (16 : ℚ) -
          (getOtherBoundaryVertice triangleSorted (Edge.make ptA ptB).V2
            (Edge.make ptA ptB)).1 / (16 : ℚ) ∧
      ∀ p : Vertex, (Edge.make ptA ptB).V1 = p → (Edge.make ptA ptB).V2 = p →
        (getOtherBoundaryVertice triangleSorted (Edge.make ptA ptB).V1
          (Edge.make ptA ptB)).1 = p →
        (getOtherBoundaryVertice triangleSorted (Edge.make ptA ptB).V2
          (Edge.make ptA ptB)).1 = p →
        (SubdivideEdge triangleSorted faceABC (Edge.make ptA ptB) ptC false).1 = p) :=
  ⟨by decide, C8_SubdivideEdge_boundary_fallback triangleSorted faceABC (Edge.make ptA ptB) ptC
    (by decide)⟩

theorem nodup_orderedInsert {α : Type} [KeyLt α] {x : α} {l : List α} (hx : x ∉ l)
    (hl : l.Nodup) : (orderedInsert x l).Nodup := by
  induction l with
  | nil => simp [orderedInsert]
  | cons y ys ih =>
    unfold orderedInsert
    split
    · exact List.nodup_cons.mpr ⟨hx, hl⟩
    · have hxy : x ≠ y := fun h => hx (h ▸ List.mem_cons_self x ys)
      have hxs : x ∉ ys := fun h => hx (List.mem_cons_of_mem y h)
      have hy := List.nodup_cons.mp hl
      refine List.nodup_cons.mpr ⟨?_, ih hxs hy.2⟩
      intro hmem
      rcases (mem_orderedInsert x y ys).mp hmem with h | h
      · exact hxy h.symm
      · exact hy.1 h

theorem nodup_setInsert {α : Type} [DecidableEq α] [KeyLt α] (x : α) {l : List α}
    (hl : l.Nodup) : (setInsert x l).Nodup := by
  unfold setInsert
  split
  · exact hl
  · rename_i hx
    exact nodup_orderedInsert hx hl

theorem nodup_edgeSet (f : Face) : (edgeSet f).Nodup :=
  nodup_setInsert _ (nodup_setInsert _ (nodup_setInsert _ List.nodup_nil))

theorem pair_of_nodup {α : Type} {l : List α} {x y : α} (hn : l.Nodup) (hxy : x ≠ y)
    (hm : ∀ z, z ∈ l ↔ z = x ∨ z = y) : l = [x, y] ∨ l = [y, x] := by
  have hx := (hm x).mpr (Or.inl rfl)
  have hy := (hm y).mpr (Or.inr rfl)
  rcases l with _ | ⟨a, _ | ⟨b, _ | ⟨c, r⟩⟩⟩
  · simp at hx
  · simp only [List.mem_singleton] at hx hy
    exact absurd (hx.trans hy.symm) hxy
  · have hab : a ≠ b := by
      intro h
      simp [h] at hn
    have ha := (hm a).mp (by simp)
    have hb := (hm b).mp (by simp)
    rcases ha with ha | ha <;> rcases hb with hb | hb
    · exact absurd (ha.trans hb.symm) hab
    · left; rw [ha, hb]
    · right; rw [ha, hb]
    · exact absurd (ha.trans hb.symm) hab
  · have ha := (hm a).mp (by simp)
    have hb := (hm b).mp (by simp)
    have hc := (hm c).mp (by simp)
    simp only [List.nodup_cons, List.mem_cons, not_or] at hn
    obtain ⟨⟨hab, hac, _⟩, ⟨hbc, _⟩, _⟩ := hn
    rcases ha with ha | ha <;> rcases hb with hb | hb <;> rcases hc with hc | hc <;>
      first
        | exact absurd (ha.trans hb.symm) hab
        | exact absurd (ha.trans hc.symm) hac
        | exact absurd (hb.trans hc.symm) hbc

theorem other_edges_of_hasEdges {f : Face} {e x y : Edge} (h : f.hasEdges e x y) :
    (edgeSet f).filter (fun z => decide (z ≠ e)) = [x, y] ∨
      (edgeSet f).filter (fun z => decide (z ≠ e)) = [y, x] := by
  obtain ⟨hex, hey, hxy, hsub, hsup⟩ := h
  have hm : ∀ z, z ∈ [f.E1, f.E2, f.E3] ↔ z ∈ [e, x, y] := fun z => ⟨hsub z, hsup z⟩
  apply pair_of_nodup ((nodup_edgeSet f).filter _) hxy
  intro z
  rw [List.mem_filter, mem_edgeSet_iff_mem_list, hm z]
  simp only [List.mem_cons, List.mem_singleton, List.not_mem_nil, or_false, decide_eq_true_eq]
  constructor
  · rintro ⟨h1 | h1 | h1, h2⟩
    · exact absurd h1 h2
    · exact Or.inl h1
    · exact Or.inr h1
  · rintro (h1 | h1)
    · exact ⟨Or.inr (Or.inl h1), fun h2 => hex (h2.symm.trans h1 |>.symm ▸ rfl)⟩
    · exact ⟨Or.inr (Or.inr h1), fun h2 => hey (h2.symm.trans h1 |>.symm ▸ rfl)⟩

theorem interiorStencil_all_found {s : WingedEdge} {f1 f2 : Face} {e : Edge} (b1 v : Vertex)
    (hf2 : (GetAdjacentFace s f1 e).1 = f2) (hok : (GetAdjacentFace s f1 e).2.1 = true)
    (hb : (GetAdjacentVertex f2 e).2 = true)
    (h1 : ∀ x ∈ edgeSet f1, x ≠ e → (GetAdjacentFaceVertex s f1 x).2.1 = true)
    (h2 : ∀ x ∈ edgeSet f2, x ≠ e → (GetAdjacentFaceVertex s f2 x).2.1 = true) :
    (interiorStencil s f1 e b1 v).1 =
        ((edgeSet f2).filter (fun x => decide (x ≠ e))).foldl
          (fun acc x => acc - (GetAdjacentFaceVertex s f2 x).1 / (16 : ℚ))
          (((edgeSet f1).filter (fun x => decide (x ≠ e))).foldl
            (fun acc x => acc - (GetAdjacentFaceVertex s f1 x).1 / (16 : ℚ))
            (v + b1 / (8 : ℚ) + (GetAdjacentVertex f2 e).1 / (8 : ℚ))) ∧
      (interiorStencil s f1 e b1 v).2.1 = false := by
  have h0 : SameLookups s (GetAdjacentFace s f1 e).2.2 :=
    (GetAdjacentFace_same (sameLookups_refl s) f1 e).2.2
  have c1 : ¬ (GetAdjacentFace s f1 e).2.1 = false := by rw [hok]; simp
  have c2 : ¬ (GetAdjacentVertex f2 e).2 = false := by rw [hb]; simp
  dsimp only [interiorStencil]
  rw [if_neg c1, hf2, if_neg c2]
  obtain ⟨l1v, l1b⟩ := SubdivideEdgeLoop_all_found f1 e (edgeSet f1)
    (v + b1 / (8 : ℚ) + (GetAdjacentVertex f2 e).1 / (8 : ℚ)) false h0 h1
  have hs1 := SubdivideEdgeLoop_sameLookups f1 e (edgeSet f1)
    (v + b1 / (8 : ℚ) + (GetAdjacentVertex f2 e).1 / (8 : ℚ)) false h0
  obtain ⟨l2v, l2b⟩ := SubdivideEdgeLoop_all_found f2 e (edgeSet f2)
    (SubdivideEdgeLoop f1 e (edgeSet f1)
      (v + b1 / (8 : ℚ) + (GetAdjacentVertex f2 e).1 / (8 : ℚ)) false
      (GetAdjacentFace s f1 e).2.2).1
    (SubdivideEdgeLoop f1 e (edgeSet f1)
      (v + b1 / (8 : ℚ) + (GetAdjacentVertex f2 e).1 / (8 : ℚ)) false
      (GetAdjacentFace s f1 e).2.2).2.1 hs1 h2
  refine ⟨?_, ?_⟩
  · rw [l2v, l1v]
  · rw [l2b, l1b]

theorem found_of_hasEdges {s : WingedEdge} {f : Face} {e x y : Edge} (h : f.hasEdges e x y)
    (hx : (GetAdjacentFaceVertex s f x).2.1 = true)
    (hy : (GetAdjacentFaceVertex s f y).2.1 = true) :
    ∀ z ∈ edgeSet f, z ≠ e → (GetAdjacentFaceVertex s f z).2.1 = true := by
  intro z hz hne
  have := h.2.2.2.1 z ((mem_edgeSet_iff_mem_list f z).mp hz)
  simp only [List.mem_cons, List.mem_singleton, List.not_mem_nil, or_false] at this
  rcases this with h1 | h1 | h1
  · exact absurd h1 hne
  · rw [h1]; exact hx
  · rw [h1]; exact hy

/-- What `SubdivideEdge` computes in butterfly mode when every lookup succeeds: the stencil on
the vertices that the lookups returned, `b2` being the output of `GetAdjacentVertex(f2, e)`
and `c1 .. c4` the outputs of `GetAdjacentFaceVertex` for the other edges of `f1` and `f2`. -/
theorem SubdivideEdge_interior_value (s : WingedEdge) (f1 f2 : Face)
    (e x1 y1 x2 y2 : Edge) (b1 b2 c1 c2 c3 c4 : Vertex)
    (hf1 : f1.hasEdges e x1 y1) (hf2 : f2.hasEdges e x2 y2)
    (hadj : (GetAdjacentFace s f1 e).1 = f2 ∧ (GetAdjacentFace s f1 e).2.1 = true)
    (hb2 : GetAdjacentVertex f2 e = (b2, true))
    (hc1 : (GetAdjacentFaceVertex s f1 x1).1 = c1 ∧ (GetAdjacentFaceVertex s f1 x1).2.1 = true)
    (hc2 : (GetAdjacentFaceVertex s f1 y1).1 = c2 ∧ (GetAdjacentFaceVertex s f1 y1).2.1 = true)
    (hc3 : (GetAdjacentFaceVertex s f2 x2).1 = c3 ∧ (GetAdjacentFaceVertex s f2 x2).2.1 = true)
    (hc4 : (GetAdjacentFaceVertex s f2 y2).1 = c4 ∧
      (GetAdjacentFaceVertex s f2 y2).2.1 = true) :
    (SubdivideEdge s f1 e b1 false).1 =
        (e.V1 + e.V2) / (2 : ℚ) + b1 / (8 : ℚ) + b2 / (8 : ℚ) -
          (c1 + c2 + c3 + c4) / (16 : ℚ) := by
  have hb : (GetAdjacentVertex f2 e).2 = true := by rw [hb2]
  have hbv : (GetAdjacentVertex f2 e).1 = b2 := by rw [hb2]
  obtain ⟨hv, hflag⟩ := interiorStencil_all_found b1 (e.V1 / (2 : ℚ) + e.V2 / (2 : ℚ))
    hadj.1 hadj.2 hb (found_of_hasEdges hf1 hc1.2 hc2.2) (found_of_hasEdges hf2 hc3.2 hc4.2)
  dsimp only [SubdivideEdge]
  rw [if_neg (by simp), hflag, if_neg (by simp)]
  show (interiorStencil s f1 e b1 (e.V1 / (2 : ℚ) + e.V2 / (2 : ℚ))).1 = _
  rw [hv, hbv]
  rcases other_edges_of_hasEdges hf1 with h1 | h1 <;>
    rcases other_edges_of_hasEdges hf2 with h2 | h2 <;>
    · rw [h1, h2]
      simp only [List.foldl_cons, List.foldl_nil, hc1.1, hc2.1, hc3.1, hc4.1]
      rw [Vertex.ext_iff3]
      simp only [Vertex.add_x, Vertex.add_y, Vertex.add_z, Vertex.sub_x, Vertex.sub_y,
        Vertex.sub_z, Vertex.div_x, Vertex.div_y, Vertex.div_z]
      refine ⟨?_, ?_, ?_⟩ <;> ring

/-! ## Where the entries of a store come from -/

theorem Stmt.run_faceKey {s : WingedEdge} {st : Stmt} {f : Face}
    (h : hasKey f (Stmt.run s st).faceList) : hasKey f s.faceList ∨ ∃ e, st = Stmt.faceEdge f e := by
  cases st with
  | faceEdge g e =>
    rcases (hasKey_mapModify g f _ s.faceList).mp h with h | h
    · exact Or.inr ⟨e, by rw [h]⟩
    · exact Or.inl h
  | _ => exact Or.inl h

theorem Stmt.run_edgeKey {s : WingedEdge} {st : Stmt} {e : Edge}
    (h : hasKey e (Stmt.run s st).edgeListMap) :
    hasKey e s.edgeListMap ∨ (∃ x, st = Stmt.edgeEdge e x) ∨ (∃ v, st = Stmt.edgeVertex e v) ∨
      ∃ f, st = Stmt.edgeFace e f := by
  cases st with
  | edgeEdge g x =>
    rcases (hasKey_mapModify g e _ s.edgeListMap).mp h with h | h
    · exact Or.inr (Or.inl ⟨x, by rw [h]⟩)
    · exact Or.inl h
  | edgeVertex g v =>
    rcases (hasKey_mapModify g e _ s.edgeListMap).mp h with h | h
    · exact Or.inr (Or.inr (Or.inl ⟨v, by rw [h]⟩))
    · exact Or.inl h
  | edgeFace g f =>
    rcases (hasKey_mapModify g e _ s.edgeListMap).mp h with h | h
    · exact Or.inr (Or.inr (Or.inr ⟨f, by rw [h]⟩))
    · exact Or.inl h
  | _ => exact Or.inl h

theorem Stmt.run_facesOf {s : WingedEdge} {st : Stmt} {e : Edge} {f : Face}
    (h : f ∈ facesOf (Stmt.run s st) e) : f ∈ facesOf s e ∨ st = Stmt.edgeFace e f := by
  cases st with
  | edgeEdge g x =>
    left
    simp only [facesOf, Stmt.run, insertEdgeEdge, mapGet_mapModify] at h
    split at h
    · rename_i hg; subst hg; exact h
    · exact h
  | edgeVertex g v =>
    left
    simp only [facesOf, Stmt.run, insertEdgeVertex, mapGet_mapModify] at h
    split at h
    · rename_i hg; subst hg; exact h
    · exact h
  | edgeFace g f2 =>
    simp only [facesOf, Stmt.run, insertEdgeFace, mapGet_mapModify] at h
    split at h
    · rename_i hg; subst hg
      rcases (mem_setInsert _ _ _).mp h with h | h
      · exact Or.inr (by rw [h])
      · exact Or.inl h
    · exact Or.inl h
  | _ => exact Or.inl h

theorem Stmt.run_vertexEdges {s : WingedEdge} {st : Stmt} {v : Vertex} {e : Edge}
    (h : e ∈ mapGet v (Stmt.run s st).vertexList) :
    e ∈ mapGet v s.vertexList ∨ st = Stmt.vertexEdge v e := by
  cases st with
  | vertexKey w =>
    left
    simpa only [Stmt.run, touchVertex, mapGet_mapTouch] using h
  | vertexEdge w x =>
    simp only [Stmt.run, insertVertexEdge, mapGet_mapModify] at h
    split at h
    · rename_i hw; subst hw
      rcases (mem_setInsert _ _ _).mp h with h | h
      · exact Or.inr (by rw [h])
      · exact Or.inl h
    · exact Or.inl h
  | _ => exact Or.inl h

theorem runAll_faceKey (l : List Stmt) : ∀ {s : WingedEdge} {f : Face},
    hasKey f (runAll s l).faceList → hasKey f s.faceList ∨ ∃ e, Stmt.faceEdge f e ∈ l := by
  induction l with
  | nil => intro s f h; exact Or.inl h
  | cons st rest ih =>
    intro s f h
    rcases ih (s := Stmt.run s st) h with h1 | ⟨e, he⟩
    · rcases Stmt.run_faceKey h1 with h2 | ⟨e, he⟩
      · exact Or.inl h2
      · exact Or.inr ⟨e, he ▸ List.mem_cons_self st rest⟩
    · exact Or.inr ⟨e, List.mem_cons_of_mem st he⟩

theorem runAll_edgeKey (l : List Stmt) : ∀ {s : WingedEdge} {e : Edge},
    hasKey e (runAll s l).edgeListMap →
      hasKey e s.edgeListMap ∨ (∃ x, Stmt.edgeEdge e x ∈ l) ∨ (∃ v, Stmt.edgeVertex e v ∈ l) ∨
        ∃ f, Stmt.edgeFace e f ∈ l := by
  induction l with
  | nil => intro s e h; exact Or.inl h
  | cons st rest ih =>
    intro s e h
    rcases ih (s := Stmt.run s st) h with h1 | ⟨x, hx⟩ | ⟨v, hv⟩ | ⟨f, hf⟩
    · rcases Stmt.run_edgeKey h1 with h2 | ⟨x, hx⟩ | ⟨v, hv⟩ | ⟨f, hf⟩
      · exact Or.inl h2
      · exact Or.inr (Or.inl ⟨x, hx ▸ List.mem_cons_self st rest⟩)
      · exact Or.inr (Or.inr (Or.inl ⟨v, hv ▸ List.mem_cons_self st rest⟩))
      · exact Or.inr (Or.inr (Or.inr ⟨f, hf ▸ List.mem_cons_self st rest⟩))
    · exact Or.inr (Or.inl ⟨x, List.mem_cons_of_mem st hx⟩)
    · exact Or.inr (Or.inr (Or.inl ⟨v, List.mem_cons_of_mem st hv⟩))
    · exact Or.inr (Or.inr (Or.inr ⟨f, List.mem_cons_of_mem st hf⟩))

theorem runAll_facesOf (l : List Stmt) : ∀ {s : WingedEdge} {e : Edge} {f : Face},
    f ∈ facesOf (runAll s l) e → f ∈ facesOf s e ∨ Stmt.edgeFace e f ∈ l := by
  induction l with
  | nil => intro s e f h; exact Or.inl h
  | cons st rest ih =>
    intro s e f h
    rcases ih (s := Stmt.run s st) h with h1 | h1
    · rcases Stmt.run_facesOf h1 with h2 | h2
      · exact Or.inl h2
      · exact Or.inr (h2 ▸ List.mem_cons_self st rest)
    · exact Or.inr (List.mem_cons_of_mem st h1)

theorem runAll_vertexEdges (l : List Stmt) : ∀ {s : WingedEdge} {v : Vertex} {e : Edge},
    e ∈ mapGet v (runAll s l).vertexList →
      e ∈ mapGet v s.vertexList ∨ Stmt.vertexEdge v e ∈ l := by
  induction l with
  | nil => intro s v e h; exact Or.inl h
  | cons st rest ih =>
    intro s v e h
    rcases ih (s := Stmt.run s st) h with h1 | h1
    · rcases Stmt.run_vertexEdges h1 with h2 | h2
      · exact Or.inl h2
      · exact Or.inr (h2 ▸ List.mem_cons_self st rest)
    · exact Or.inr (List.mem_cons_of_mem st h1)

theorem closed_runAll {s : WingedEdge} {l : List Stmt} (hc : Closed s)
    (hF : ∀ f e, Stmt.faceEdge f e ∈ l →
      hasKey f.E1 (runAll s l).edgeListMap ∧ hasKey f.E2 (runAll s l).edgeListMap ∧
        hasKey f.E3 (runAll s l).edgeListMap)
    (hEF : ∀ e f, Stmt.edgeFace e f ∈ l → hasKey f (runAll s l).faceList)
    (hEK : ∀ e, ((∃ x, Stmt.edgeEdge e x ∈ l) ∨ (∃ v, Stmt.edgeVertex e v ∈ l) ∨
        ∃ f, Stmt.edgeFace e f ∈ l) →
      hasKey e.V1 (runAll s l).vertexList ∧ hasKey e.V2 (runAll s l).vertexList)
    (hVE : ∀ v e, Stmt.vertexEdge v e ∈ l → hasKey e (runAll s l).edgeListMap) :
    Closed (runAll s l) := by
  have hg := runAll_grows l s
  refine ⟨?_, ?_, ?_, ?_⟩
  · intro f hf
    rcases runAll_faceKey l hf with h | ⟨e, he⟩
    · obtain ⟨h1, h2, h3⟩ := hc.faceEdges f h
      exact ⟨hg.edgeKeys _ h1, hg.edgeKeys _ h2, hg.edgeKeys _ h3⟩
    · exact hF f e he
  · intro e f hf
    rcases runAll_facesOf l hf with h | h
    · exact hg.faceKeys f (hc.edgeFaces e f h)
    · exact hEF e f h
  · intro e he
    rcases runAll_edgeKey l he with h | h
    · obtain ⟨h1, h2⟩ := hc.edgeEnds e h
      exact ⟨hg.vertexKeys _ h1, hg.vertexKeys _ h2⟩
    · exact hEK e h
  · intro v e he
    rcases runAll_vertexEdges l he with h | h
    · exact hg.edgeKeys e (hc.vertexEdges v e h)
    · exact hVE v e h

theorem Edge.make_ends (a b : Vertex) :
    ((Edge.make a b).V1 = a ∧ (Edge.make a b).V2 = b) ∨
      ((Edge.make a b).V1 = b ∧ (Edge.make a b).V2 = a) := by
  unfold Edge.make
  split
  · exact Or.inr ⟨rfl, rfl⟩
  · exact Or.inl ⟨rfl, rfl⟩

theorem closed_empty : Closed WingedEdge.empty := by
  refine ⟨?_, ?_, ?_, ?_⟩
  · intro f h; simp [hasKey, WingedEdge.empty, mapFind] at h
  · intro e f h; simp [facesOf, WingedEdge.empty, mapGet, mapFind] at h
    exact absurd h (List.not_mem_nil f)
  · intro e h; simp [hasKey, WingedEdge.empty, mapFind] at h
  · intro v e h
    exact absurd h (List.not_mem_nil e)

theorem closed_AddVertex {s : WingedEdge} (hc : Closed s) (x y z : ℚ) :
    Closed (AddVertex s x y z).2 := by
  have h : (AddVertex s x y z).2 = runAll s [Stmt.vertexKey ⟨x, y, z⟩] := rfl
  rw [h]
  apply closed_runAll hc
  · intro f e hm; simp at hm
  · intro e f hm; simp at hm
  · intro e hm; simp at hm
  · intro v e hm; simp at hm

theorem closed_AddEdge {s : WingedEdge} (hc : Closed s) (v1 v2 : Vertex) :
    Closed (AddEdge s v1 v2).2 := by
  rw [AddEdge_eq_runAll]
  have hd := runAll_done (addEdgeStmts v1 v2) s
  have k1 : hasKey v1 (runAll s (addEdgeStmts v1 v2)).vertexList :=
    hasKey_of_mem_mapGet (hd (Stmt.vertexEdge v1 (Edge.make v1 v2)) (by simp [addEdgeStmts]))
  have k2 : hasKey v2 (runAll s (addEdgeStmts v1 v2)).vertexList :=
    hasKey_of_mem_mapGet (hd (Stmt.vertexEdge v2 (Edge.make v1 v2)) (by simp [addEdgeStmts]))
  have ke : hasKey (Edge.make v1 v2) (runAll s (addEdgeStmts v1 v2)).edgeListMap :=
    hasKey_of_mem_edges
      (hd (Stmt.edgeEdge (Edge.make v1 v2) (Edge.make v1 v2)) (by simp [addEdgeStmts]))
  have kends : hasKey (Edge.make v1 v2).V1 (runAll s (addEdgeStmts v1 v2)).vertexList ∧
      hasKey (Edge.make v1 v2).V2 (runAll s (addEdgeStmts v1 v2)).vertexList := by
    rcases Edge.make_ends v1 v2 with ⟨h1, h2⟩ | ⟨h1, h2⟩
    · rw [h1, h2]; exact ⟨k1, k2⟩
    · rw [h1, h2]; exact ⟨k2, k1⟩
  apply closed_runAll hc
  · intro f e hm; simp [addEdgeStmts] at hm
  · intro e f hm; simp [addEdgeStmts] at hm
  · intro e hm
    have he : e = Edge.make v1 v2 := by
      rcases hm with ⟨x, hx⟩ | ⟨v, hv⟩ | ⟨f, hf⟩
      · simp [addEdgeStmts] at hx; exact hx.1
      · simp [addEdgeStmts] at hv
        rcases hv with hv | hv <;> exact hv.1
      · simp [addEdgeStmts] at hf
    rw [he]; exact kends
  · intro v e hm
    have he : e = Edge.make v1 v2 := by
      simp [addEdgeStmts] at hm
      rcases hm with hm | hm <;> exact hm.2
    rw [he]; exact ke

theorem addFaceStmts_edgeKey {e1 e2 e3 e : Edge}
    (hm : (∃ x, Stmt.edgeEdge e x ∈ addFaceStmts e1 e2 e3) ∨
      (∃ v, Stmt.edgeVertex e v ∈ addFaceStmts e1 e2 e3) ∨
        ∃ f, Stmt.edgeFace e f ∈ addFaceStmts e1 e2 e3) :
    e = Edge.make e1.V1 e1.V2 ∨ e = Edge.make e2.V1 e2.V2 ∨ e = Edge.make e3.V1 e3.V2 ∨
      e = e1 ∨ e = e2 ∨ e = e3 := by
  rcases hm with ⟨x, hx⟩ | ⟨v, hv⟩ | ⟨f, hf⟩
  · simp [addFaceStmts, addEdgeStmts] at hx
    tauto
  · simp [addFaceStmts, addEdgeStmts] at hv
    tauto
  · simp [addFaceStmts, addEdgeStmts] at hf
    tauto

theorem addFaceStmts_vertexEdge {e1 e2 e3 e : Edge} {v : Vertex}
    (hm : Stmt.vertexEdge v e ∈ addFaceStmts e1 e2 e3) :
    e = Edge.make e1.V1 e1.V2 ∨ e = Edge.make e2.V1 e2.V2 ∨ e = Edge.make e3.V1 e3.V2 := by
  simp [addFaceStmts, addEdgeStmts] at hm
  tauto

theorem closed_AddFace {s : WingedEdge} (hc : Closed s) (e1 e2 e3 : Edge) :
    Closed (AddFace s e1 e2 e3).2 := by
  rw [AddFace_eq_runAll]
  have hd := runAll_done (addFaceStmts e1 e2 e3) s
  have kv : ∀ e ∈ [e1, e2, e3],
      hasKey e.V1 (runAll s (addFaceStmts e1 e2 e3)).vertexList ∧
      hasKey e.V2 (runAll s (addFaceStmts e1 e2 e3)).vertexList := by
    intro e he
    simp only [List.mem_cons, List.mem_singleton, List.not_mem_nil, or_false] at he
    refine ⟨hasKey_of_mem_mapGet (hd (Stmt.vertexEdge e.V1 (Edge.make e.V1 e.V2)) ?_),
      hasKey_of_mem_mapGet (hd (Stmt.vertexEdge e.V2 (Edge.make e.V1 e.V2)) ?_)⟩ <;>
    · rcases he with he | he | he <;> subst he <;> simp [addFaceStmts, addEdgeStmts]
  have kmake : ∀ e ∈ [e1, e2, e3],
      hasKey (Edge.make e.V1 e.V2) (runAll s (addFaceStmts e1 e2 e3)).edgeListMap := by
    intro e he
    simp only [List.mem_cons, List.mem_singleton, List.not_mem_nil, or_false] at he
    refine hasKey_of_mem_edges
      (hd (Stmt.edgeEdge (Edge.make e.V1 e.V2) (Edge.make e.V1 e.V2)) ?_)
    rcases he with he | he | he <;> subst he <;> simp [addFaceStmts, addEdgeStmts]
  have ke : ∀ e ∈ [e1, e2, e3],
      hasKey e (runAll s (addFaceStmts e1 e2 e3)).edgeListMap := by
    intro e he
    simp only [List.mem_cons, List.mem_singleton, List.not_mem_nil, or_false] at he
    refine hasKey_of_mem_faces (hd (Stmt.edgeFace e ⟨e1, e2, e3⟩) ?_)
    rcases he with he | he | he <;> subst he <;> simp [addFaceStmts, addEdgeStmts]
  have kf : hasKey (⟨e1, e2, e3⟩ : Face) (runAll s (addFaceStmts e1 e2 e3)).faceList :=
    hasKey_of_mem_mapGet (hd (Stmt.faceEdge ⟨e1, e2, e3⟩ e1) (by simp [addFaceStmts]))
  have kmakeEnds : ∀ e ∈ [e1, e2, e3],
      hasKey (Edge.make e.V1 e.V2).V1 (runAll s (addFaceStmts e1 e2 e3)).vertexList ∧
      hasKey (Edge.make e.V1 e.V2).V2 (runAll s (addFaceStmts e1 e2 e3)).vertexList := by
    intro e he
    rcases Edge.make_ends e.V1 e.V2 with ⟨h1, h2⟩ | ⟨h1, h2⟩
    · rw [h1, h2]; exact kv e he
    · rw [h1, h2]; exact ⟨(kv e he).2, (kv e he).1⟩
  apply closed_runAll hc
  · intro f e hm
    have hf : f = ⟨e1, e2, e3⟩ := by
      simp [addFaceStmts, addEdgeStmts] at hm
      tauto
    rw [hf]
    exact ⟨ke e1 (by simp), ke e2 (by simp), ke e3 (by simp)⟩
  · intro e f hm
    have hf : f = ⟨e1, e2, e3⟩ := by
      simp [addFaceStmts, addEdgeStmts] at hm
      tauto
    rw [hf]
    exact kf
  · intro e hm
    rcases addFaceStmts_edgeKey hm with h | h | h | h | h | h
    · rw [h]; exact kmakeEnds e1 (by simp)
    · rw [h]; exact kmakeEnds e2 (by simp)
    · rw [h]; exact kmakeEnds e3 (by simp)
    · rw [h]; exact kv e1 (by simp)
    · rw [h]; exact kv e2 (by simp)
    · rw [h]; exact kv e3 (by simp)
  · intro v e hm
    rcases addFaceStmts_vertexEdge hm with h | h | h
    · rw [h]; exact kmake e1 (by simp)
    · rw [h]; exact kmake e2 (by simp)
    · rw [h]; exact kmake e3 (by simp)

theorem closed_of_reachable {s : WingedEdge} (h : Reachable s) : Closed s := by
  induction h with
  | empty => exact closed_empty
  | addVertex s x y z _ ih => exact closed_AddVertex ih x y z
  | addEdge s v1 v2 _ ih => exact closed_AddEdge ih v1 v2
  | addFace s e1 e2 e3 _ ih => exact closed_AddFace ih e1 e2 e3

/-! ## The passes do not touch a store whose keys are all present -/

theorem touchEdge_of_hasKey {s : WingedEdge} {e : Edge} (h : hasKey e s.edgeListMap) :
    touchEdge s e = s := by
  unfold touchEdge
  rw [mapTouch_of_hasKey h]

theorem touchVertex_of_hasKey {s : WingedEdge} {a : Vertex} (h : hasKey a s.vertexList) :
    touchVertex s a = s := by
  unfold touchVertex
  rw [mapTouch_of_hasKey h]

theorem GetAdjacentFace_closed {s : WingedEdge} {e : Edge} (h : hasKey e s.edgeListMap)
    (f : Face) : (GetAdjacentFace s f e).2.2 = s := by
  rw [GetAdjacentFace_store, touchEdge_of_hasKey h]

theorem GetAdjacentFace_mem {s : WingedEdge} {f : Face} {e : Edge}
    (h : ¬ (GetAdjacentFace s f e).2.1 = false) : (GetAdjacentFace s f e).1 ∈ facesOf s e := by
  unfold GetAdjacentFace at h ⊢
  cases hfind : (facesOf s e).find? (fun g => decide (g ≠ f)) with
  | none => rw [hfind] at h; exact absurd rfl h
  | some g => exact (find?_ne_eq_some hfind).1

theorem GetAdjacentFaceVertex_closed {s : WingedEdge} {e : Edge} (h : hasKey e s.edgeListMap)
    (f : Face) : (GetAdjacentFaceVertex s f e).2.2 = s := by
  rw [GetAdjacentFaceVertex_store, touchEdge_of_hasKey h]

theorem getNumAdjacentFaces_closed {s : WingedEdge} {e : Edge} (h : hasKey e s.edgeListMap) :
    (getNumAdjacentFaces s e).2 = s :=
  touchEdge_of_hasKey h

theorem getOtherBoundaryVerticeLoop_closed {s : WingedEdge} (a : Vertex) (fe : Edge)
    (l : List Edge) (h : ∀ e ∈ l, hasKey e s.edgeListMap) :
    (getOtherBoundaryVerticeLoop a fe l s).2 = s := by
  induction l with
  | nil => rfl
  | cons e rest ih =>
    have he := getNumAdjacentFaces_closed (h e (List.mem_cons_self e rest))
    have hr := ih (fun x hx => h x (List.mem_cons_of_mem e hx))
    unfold getOtherBoundaryVerticeLoop
    split
    · split
      · exact he
      · rw [he]; exact hr
    · exact hr

theorem getOtherBoundaryVertice_closed {s : WingedEdge} (hc : Closed s) {a : Vertex}
    (ha : hasKey a s.vertexList) (fe : Edge) : (getOtherBoundaryVertice s a fe).2 = s := by
  unfold getOtherBoundaryVertice
  rw [touchVertex_of_hasKey ha]
  exact getOtherBoundaryVerticeLoop_closed a fe _ (fun e he => hc.vertexEdges a e he)

theorem boundaryStencil_closed {s : WingedEdge} (hc : Closed s) {e : Edge}
    (he : hasKey e s.edgeListMap) : (boundaryStencil s e).2 = s := by
  obtain ⟨h1, h2⟩ := hc.edgeEnds e he
  dsimp only [boundaryStencil]
  rw [getOtherBoundaryVertice_closed hc h1, getOtherBoundaryVertice_closed hc h2]

theorem SubdivideEdgeLoop_closed {s : WingedEdge} (f : Face) (e : Edge) (l : List Edge)
    (h : ∀ x ∈ l, hasKey x s.edgeListMap) :
    ∀ (v : Vertex) (b : Bool), (SubdivideEdgeLoop f e l v b s).2.2 = s := by
  induction l with
  | nil => intro v b; rfl
  | cons x rest ih =>
    intro v b
    have hx := GetAdjacentFaceVertex_closed (h x (List.mem_cons_self x rest)) f
    have hr := ih (fun y hy => h y (List.mem_cons_of_mem x hy))
    unfold SubdivideEdgeLoop
    split
    · split
      · exact hx
      · rw [hx]; exact hr _ _
    · exact hr _ _

theorem edgeSet_keys {s : WingedEdge} (hc : Closed s) {f : Face} (hf : hasKey f s.faceList) :
    ∀ x ∈ edgeSet f, hasKey x s.edgeListMap := by
  intro x hx
  obtain ⟨h1, h2, h3⟩ := hc.faceEdges f hf
  rcases (mem_edgeSet f x).mp hx with h | h | h <;> rw [h] <;> assumption

theorem interiorStencil_closed {s : WingedEdge} (hc : Closed s) {f1 : Face} {e : Edge}
    (hf : hasKey f1 s.faceList) (he : hasKey e s.edgeListMap) (b1 v : Vertex) :
    (interiorStencil s f1 e b1 v).2.2 = s := by
  have h0 := GetAdjacentFace_closed he f1
  dsimp only [interiorStencil]
  split
  · exact h0
  · rename_i c1
    split
    · exact h0
    · have hf2 : hasKey (GetAdjacentFace s f1 e).1 s.faceList :=
        hc.edgeFaces e _ (GetAdjacentFace_mem c1)
      rw [h0, SubdivideEdgeLoop_closed f1 e _ (edgeSet_keys hc hf)]
      exact SubdivideEdgeLoop_closed _ e _ (edgeSet_keys hc hf2) _ _

theorem SubdivideEdge_closed {s : WingedEdge} (hc : Closed s) {f1 : Face} {e : Edge}
    (hf : hasKey f1 s.faceList) (he : hasKey e s.edgeListMap) (b1 : Vertex) (linear : Bool) :
    (SubdivideEdge s f1 e b1 linear).2 = s := by
  dsimp only [SubdivideEdge]
  split
  · rfl
  · split
    · rw [interiorStencil_closed hc hf he]
      exact boundaryStencil_closed hc he
    · exact interiorStencil_closed hc hf he _ _

theorem facesLoop_closed {s : WingedEdge}
    {body : Face → WingedEdge → WingedEdge → Except String WingedEdge × WingedEdge}
    (l : List Face) (h : ∀ face ∈ l, ∀ mesh, (body face mesh s).2 = s) :
    ∀ mesh, (facesLoop body l mesh s).2 = s := by
  induction l with
  | nil => intro mesh; rfl
  | cons face rest ih =>
    intro mesh
    have hb := h face (List.mem_cons_self face rest) mesh
    have hr := ih (fun g hg => h g (List.mem_cons_of_mem face hg))
    unfold facesLoop
    split
    · rename_i msg s1 heq
      rw [heq] at hb
      exact hb
    · rename_i mesh1 s1 heq
      rw [heq] at hb
      simp only at hb
      rw [hb]
      exact hr mesh1

theorem SubdivideFace_closed {s : WingedEdge} (hc : Closed s) {face : Face}
    (hf : hasKey face s.faceList) (linear : Bool) (mesh : WingedEdge) :
    (SubdivideFace linear face mesh s).2 = s := by
  obtain ⟨h1, h2, h3⟩ := hc.faceEdges face hf
  dsimp only [SubdivideFace]
  split
  · rfl
  · split <;>
      simp only [if_true, if_false, Bool.false_eq_true, SubdivideEdge_closed hc hf h1,
        SubdivideEdge_closed hc hf h2, SubdivideEdge_closed hc hf h3]

theorem BoundaryFaceOne_closed {s : WingedEdge} (hc : Closed s) {face : Face}
    (hf : hasKey face s.faceList) (mesh : WingedEdge) (v1 v2 v3 : Vertex) (b1 b2 : Bool) :
    (BoundaryFaceOne face mesh s v1 v2 v3 b1 b2).2 = s := by
  obtain ⟨h1, h2, h3⟩ := hc.faceEdges face hf
  unfold BoundaryFaceOne
  split
  · exact SubdivideEdge_closed hc hf h1 _ _
  · split
    · exact SubdivideEdge_closed hc hf h2 _ _
    · exact SubdivideEdge_closed hc hf h3 _ _

theorem BoundaryFaceFull_closed {s : WingedEdge} (hc : Closed s) {face : Face}
    (hf : hasKey face s.faceList) (mesh : WingedEdge) (v1 v2 v3 : Vertex) (b1 b2 b3 : Bool)
    (n : Nat) : (BoundaryFaceFull face mesh s v1 v2 v3 b1 b2 b3 n).2 = s := by
  obtain ⟨h1, h2, h3⟩ := hc.faceEdges face hf
  have e : (SubdivideEdge (SubdivideEdge (SubdivideEdge s face face.E1 v1 (!b1)).2 face
      face.E2 v2 (!b2)).2 face face.E3 v3 (!b3)).2 = s := by
    rw [SubdivideEdge_closed hc hf h1, SubdivideEdge_closed hc hf h2,
      SubdivideEdge_closed hc hf h3]
  dsimp only [BoundaryFaceFull]
  split_ifs <;> exact e

theorem BoundaryFace_closed {s : WingedEdge} (hc : Closed s) {face : Face}
    (hf : hasKey face s.faceList) (mesh : WingedEdge) : (BoundaryFace face mesh s).2 = s := by
  obtain ⟨h1, h2, h3⟩ := hc.faceEdges face hf
  have n1 := getNumAdjacentFaces_closed h1
  have n2 := getNumAdjacentFaces_closed h2
  have n3 := getNumAdjacentFaces_closed h3
  dsimp only [BoundaryFace]
  rw [n1, n2, n3]
  split
  · rfl
  · split
    · rfl
    · split
      · exact BoundaryFaceOne_closed hc hf _ _ _ _ _ _
      · exact BoundaryFaceFull_closed hc hf _ _ _ _ _ _ _ _

theorem SillyPascalFace_closed {s : WingedEdge} (hc : Closed s) {face : Face}
    (hf : hasKey face s.faceList) (mesh : WingedEdge) :
    (SillyPascalFace face mesh s).2 = s := by
  obtain ⟨h1, h2, h3⟩ := hc.faceEdges face hf
  have n1 := getNumAdjacentFaces_closed h1
  have n2 := getNumAdjacentFaces_closed h2
  have n3 := getNumAdjacentFaces_closed h3
  dsimp only [SillyPascalFace]
  by_cases hswap : (decide (face.E1.V1 = face.E3.V1) || decide (face.E1.V1 = face.E3.V2)) = true
  · simp only [hswap, if_true]
    rw [n1, n3, n2]
    split_ifs <;>
      simp only [SubdivideEdge_closed hc hf h1, SubdivideEdge_closed hc hf h2,
        SubdivideEdge_closed hc hf h3]
  · simp only [hswap, if_false, Bool.false_eq_true]
    rw [n1, n2, n3]
    split_ifs <;>
      simp only [SubdivideEdge_closed hc hf h1, SubdivideEdge_closed hc hf h2,
        SubdivideEdge_closed hc hf h3]

/-- C9: for every store reachable from the empty store by `AddVertex`, `AddEdge` and `AddFace`,
each of the four subdivision members leaves the input store exactly as it was: every key
looked up through `operator[]` during the pass is already present, so no entry is created. -/
theorem C9_subdivision_leaves_input_unchanged (s : WingedEdge) (h : Reachable s) :
    (ButterflySubdivide s).2 = s ∧ (LinearSubdivide s).2 = s ∧
      (BoundaryTrianglularSubdivide s).2 = s ∧ (SillyPascalSubdivide s).2 = s := by
  have hc := closed_of_reachable h
  have hk : ∀ face ∈ s.faceList.map Prod.fst, hasKey face s.faceList :=
    fun face hface => hasKey_of_mem_keys hface
  refine ⟨?_, ?_, ?_, ?_⟩
  · exact facesLoop_closed _ (fun face hface mesh => SubdivideFace_closed hc (hk face hface) _ _) _
  · exact facesLoop_closed _ (fun face hface mesh => SubdivideFace_closed hc (hk face hface) _ _) _
  · exact facesLoop_closed _ (fun face hface mesh => BoundaryFace_closed hc (hk face hface) _) _
  · exact facesLoop_closed _ (fun face hface mesh => SillyPascalFace_closed hc (hk face hface) _) _

/-- C9 at the store built by one `AddFace` of the triangle `ptA ptB ptC`. -/
theorem C9_subdivision_leaves_input_unchanged_witness :
    Reachable triangleSorted ∧
      ((ButterflySubdivide triangleSorted).2 = triangleSorted ∧
        (LinearSubdivide triangleSorted).2 = triangleSorted ∧
        (BoundaryTrianglularSubdivide triangleSorted).2 = triangleSorted ∧
        (SillyPascalSubdivide triangleSorted).2 = triangleSorted) :=
  ⟨Reachable.addFace _ _ _ _ Reachable.empty,
    C9_subdivision_leaves_input_unchanged triangleSorted
      (Reachable.addFace _ _ _ _ Reachable.empty)⟩

/-! ## Boundary-classified and selective subdivision on concrete meshes -/

theorem facesLoop_ok
    {body : Face → WingedEdge → WingedEdge → Except String WingedEdge × WingedEdge}
    (l : List Face)
    (h : ∀ face ∈ l, ∀ mesh t, ∃ mesh1, (body face mesh t).1 = Except.ok mesh1) :
    ∀ mesh t, ∃ m, (facesLoop body l mesh t).1 = Except.ok m := by
  induction l with
  | nil => intro mesh t; exact ⟨mesh, rfl⟩
  | cons face rest ih =>
    intro mesh t
    obtain ⟨mesh1, h1⟩ := h face (List.mem_cons_self face rest) mesh t
    have hr := ih (fun g hg => h g (List.mem_cons_of_mem face hg))
    unfold facesLoop
    split
    · rename_i msg s1 heq
      rw [heq] at h1
      exact absurd h1 (by simp)
    · rename_i mesh2 s1 heq
      exact hr mesh2 s1

theorem SubdivideFace_ok {face : Face} (h : (GetAdjacentVertex face face.E3).2 = true)
    (linear : Bool) (mesh t : WingedEdge) :
    ∃ mesh1, (SubdivideFace linear face mesh t).1 = Except.ok mesh1 := by
  dsimp only [SubdivideFace]
  rw [if_neg (by rw [h]; simp)]
  exact ⟨_, rfl⟩

/-- C20 (as amended): `getNumAdjacentFaces(edge)` is the number of elements of the
incident-face set of the edge, and the uniform subdivide does not look at these counts: it
returns a store whenever the apex lookup for the third edge of every face succeeds, whatever
the number of faces incident to an edge. -/
theorem C20_uniform_subdivide_ignores_counts (s : WingedEdge) (linear : Bool)
    (h : ∀ face ∈ s.faceList.map Prod.fst, (GetAdjacentVertex face face.E3).2 = true) :
    (∀ (t : WingedEdge) (e : Edge), (getNumAdjacentFaces t e).1 = (facesOf t e).length) ∧
      ∃ m, (Subdivide s linear).1 = Except.ok m :=
  ⟨fun _ _ => rfl,
    facesLoop_ok _ (fun face hface mesh t => SubdivideFace_ok (h face hface) linear mesh t) _ _⟩

/-- C20 at the three triangles sharing the edge `ab`, in butterfly mode. -/
theorem C20_uniform_subdivide_ignores_counts_witness :
    (∀ face ∈ book.faceList.map Prod.fst, (GetAdjacentVertex face face.E3).2 = true) ∧
    ((∀ (t : WingedEdge) (e : Edge), (getNumAdjacentFaces t e).1 = (facesOf t e).length) ∧
      ∃ m, (Subdivide book false).1 = Except.ok m) :=
  ⟨by decide, C20_uniform_subdivide_ignores_counts book false (by decide)⟩

/-- C20 (the claim fails as stated): in the store of the three triangles `abc`, `abd`, `abe`
the edge `ab` of the face `abc` has three incident faces, and both `ButterflySubdivide` and
`LinearSubdivide` return a store with 12 faces instead of reporting a violation. -/
theorem C20_three_faces_on_an_edge_no_violation :
    hasKey faceABC book.faceList ∧ faceABC.E1 = Edge.make ptA ptB ∧
    (getNumAdjacentFaces book (Edge.make ptA ptB)).1 = 3 ∧
    (∃ m, (ButterflySubdivide book).1 = Except.ok m ∧ NumFaces m = 12) ∧
    ∃ m, (LinearSubdivide book).1 = Except.ok m ∧ NumFaces m = 12 :=
  ⟨by decide, by decide, by decide, ⟨_, rfl, by decide!⟩, ⟨_, rfl, by decide!⟩⟩

/-! ## The selective pass on interior faces -/

theorem SillyPascalFace_skip {s t : WingedEdge} (h : SameLookups s t) {face : Face}
    (h1 : (facesOf s face.E1).length = 2) (h2 : (facesOf s face.E2).length = 2)
    (h3 : (facesOf s face.E3).length = 2) (mesh : WingedEdge) :
    (SillyPascalFace face mesh t).1 = Except.ok mesh ∧
      SameLookups s (SillyPascalFace face mesh t).2 := by
  have hs1 := (getNumAdjacentFaces_same h face.E1).2
  have n1 : (getNumAdjacentFaces t face.E1).1 = 2 := by
    rw [(getNumAdjacentFaces_same h face.E1).1]; exact h1
  dsimp only [SillyPascalFace]
  by_cases hswap : (decide (face.E1.V1 = face.E3.V1) || decide (face.E1.V1 = face.E3.V2)) = true
  · simp only [hswap, if_true]
    have hs2 := (getNumAdjacentFaces_same hs1 face.E3).2
    have n2 : (getNumAdjacentFaces (getNumAdjacentFaces t face.E1).2 face.E3).1 = 2 := by
      rw [(getNumAdjacentFaces_same hs1 face.E3).1]; exact h3
    have hs3 := (getNumAdjacentFaces_same hs2 face.E2).2
    have n3 : (getNumAdjacentFaces (getNumAdjacentFaces (getNumAdjacentFaces t face.E1).2
        face.E3).2 face.E2).1 = 2 := by
      rw [(getNumAdjacentFaces_same hs2 face.E2).1]; exact h2
    rw [if_pos ⟨n1, n2, n3⟩]
    exact ⟨rfl, hs3⟩
  · simp only [hswap, if_false, Bool.false_eq_true]
    have hs2 := (getNumAdjacentFaces_same hs1 face.E2).2
    have n2 : (getNumAdjacentFaces (getNumAdjacentFaces t face.E1).2 face.E2).1 = 2 := by
      rw [(getNumAdjacentFaces_same hs1 face.E2).1]; exact h2
    have hs3 := (getNumAdjacentFaces_same hs2 face.E3).2
    have n3 : (getNumAdjacentFaces (getNumAdjacentFaces (getNumAdjacentFaces t face.E1).2
        face.E2).2 face.E3).1 = 2 := by
      rw [(getNumAdjacentFaces_same hs2 face.E3).1]; exact h3
    rw [if_pos ⟨n1, n2, n3⟩]
    exact ⟨rfl, hs3⟩

theorem facesLoop_SillyPascal_skip {s : WingedEdge} (l : List Face)
    (h : ∀ face ∈ l, (facesOf s face.E1).length = 2 ∧ (facesOf s face.E2).length = 2 ∧
      (facesOf s face.E3).length = 2) :
    ∀ (mesh t : WingedEdge), SameLookups s t →
      (facesLoop SillyPascalFace l mesh t).1 = Except.ok mesh := by
  induction l with
  | nil => intro mesh t _; rfl
  | cons face rest ih =>
    intro mesh t ht
    obtain ⟨h1, h2, h3⟩ := h face (List.mem_cons_self face rest)
    obtain ⟨hv, hs⟩ := SillyPascalFace_skip ht h1 h2 h3 mesh
    have hr := ih (fun g hg => h g (List.mem_cons_of_mem face hg))
    unfold facesLoop
    split
    · rename_i msg s1 heq
      rw [heq] at hv
      exact absurd hv (by simp)
    · rename_i mesh2 s1 heq
      rw [heq] at hv hs
      simp only [Except.ok.injEq] at hv
      rw [hv]
      exact hr mesh s1 hs

/-- C18: in `SillyPascalSubdivide` a face whose three edges each have exactly two incident
faces leaves the new mesh as it is; hence for a store in which this holds for every face
the returned store is the empty store, with no vertex, no edge and no face. -/
theorem C18_pascal_drops_interior_faces (s : WingedEdge)
    (h : ∀ face ∈ s.faceList.map Prod.fst, (facesOf s face.E1).length = 2 ∧
      (facesOf s face.E2).length = 2 ∧ (facesOf s face.E3).length = 2) :
    (∀ (face : Face) (mesh : WingedEdge), (facesOf s face.E1).length = 2 →
        (facesOf s face.E2).length = 2 → (facesOf s face.E3).length = 2 →
        (SillyPascalFace face mesh s).1 = Except.ok mesh) ∧
      (SillyPascalSubdivide s).1 = Except.ok WingedEdge.empty ∧
      NumVertices WingedEdge.empty = 0 ∧ NumEdges WingedEdge.empty = 0 ∧
      NumFaces WingedEdge.empty = 0 :=
  ⟨fun _ mesh h1 h2 h3 => (SillyPascalFace_skip (sameLookups_refl s) h1 h2 h3 mesh).1,
    facesLoop_SillyPascal_skip _ h _ _ (sameLookups_refl s), rfl, rfl, rfl⟩

/-- C18 at the tetrahedron, whose six edges all have two incident faces. -/
theorem C18_pascal_drops_interior_faces_witness :
    (∀ face ∈ tetrahedron.faceList.map Prod.fst, (facesOf tetrahedron face.E1).length = 2 ∧
      (facesOf tetrahedron face.E2).length = 2 ∧ (facesOf tetrahedron face.E3).length = 2) ∧
    ((∀ (face : Face) (mesh : WingedEdge), (facesOf tetrahedron face.E1).length = 2 →
        (facesOf tetrahedron face.E2).length = 2 → (facesOf tetrahedron face.E3).length = 2 →
        (SillyPascalFace face mesh tetrahedron).1 = Except.ok mesh) ∧
      (SillyPascalSubdivide tetrahedron).1 = Except.ok WingedEdge.empty ∧
      NumVertices WingedEdge.empty = 0 ∧ NumEdges WingedEdge.empty = 0 ∧
      NumFaces WingedEdge.empty = 0) :=
  ⟨by decide!, C18_pascal_drops_interior_faces tetrahedron (by decide!)⟩

/-! ## `AddFace` on an arbitrary store -/

theorem Stmt.run_faceEdges {s : WingedEdge} {st : Stmt} {f : Face} {e : Edge}
    (h : e ∈ mapGet f (Stmt.run s st).faceList) :
    e ∈ mapGet f s.faceList ∨ st = Stmt.faceEdge f e := by
  cases st with
  | faceEdge g x =>
    simp only [Stmt.run, insertFaceEdge, mapGet_mapModify] at h
    split at h
    · rename_i hg; subst hg
      rcases (mem_setInsert _ _ _).mp h with h | h
      · exact Or.inr (by rw [h])
      · exact Or.inl h
    · exact Or.inl h
  | _ => exact Or.inl h

theorem runAll_faceEdges (l : List Stmt) : ∀ {s : WingedEdge} {f : Face} {e : Edge},
    e ∈ mapGet f (runAll s l).faceList →
      e ∈ mapGet f s.faceList ∨ Stmt.faceEdge f e ∈ l := by
  induction l with
  | nil => intro s f e h; exact Or.inl h
  | cons st rest ih =>
    intro s f e h
    rcases ih (s := Stmt.run s st) h with h1 | h1
    · rcases Stmt.run_faceEdges h1 with h2 | h2
      · exact Or.inl h2
      · exact Or.inr (h2 ▸ List.mem_cons_self st rest)
    · exact Or.inr (List.mem_cons_of_mem st h1)

theorem addFaceStmts_faceEdge {e1 e2 e3 e : Edge} {f : Face}
    (hm : Stmt.faceEdge f e ∈ addFaceStmts e1 e2 e3) :
    f = ⟨e1, e2, e3⟩ ∧ (e = e1 ∨ e = e2 ∨ e = e3) := by
  simp [addFaceStmts, addEdgeStmts] at hm
  rcases hm with ⟨h1, h2⟩ | ⟨h1, h2⟩ | ⟨h1, h2⟩
  · exact ⟨h1, Or.inl h2⟩
  · exact ⟨h1, Or.inr (Or.inl h2)⟩
  · exact ⟨h1, Or.inr (Or.inr h2)⟩

theorem reachable_faceEdges {s : WingedEdge} (h : Reachable s) :
    ∀ (f : Face) (e : Edge), e ∈ mapGet f s.faceList → e = f.E1 ∨ e = f.E2 ∨ e = f.E3 := by
  induction h with
  | empty => intro f e he; exact absurd he (List.not_mem_nil e)
  | addVertex s x y z _ ih => exact ih
  | addEdge s v1 v2 _ ih =>
    intro f e he
    rw [AddEdge_eq_runAll] at he
    rcases runAll_faceEdges _ he with h1 | h1
    · exact ih f e h1
    · simp [addEdgeStmts] at h1
  | addFace s e1 e2 e3 _ ih =>
    intro f e he
    rw [AddFace_eq_runAll] at he
    rcases runAll_faceEdges _ he with h1 | h1
    · exact ih f e h1
    · obtain ⟨hf, hE⟩ := addFaceStmts_faceEdge h1
      rw [hf]
      exact hE

theorem AddFace_edge_facts (s : WingedEdge) (e1 e2 e3 : Edge) :
    ∀ e ∈ [e1, e2, e3],
      hasKey e (AddFace s e1 e2 e3).2.edgeListMap ∧
      hasKey e.V1 (AddFace s e1 e2 e3).2.vertexList ∧
      hasKey e.V2 (AddFace s e1 e2 e3).2.vertexList ∧
      (⟨e1, e2, e3⟩ : Face) ∈ facesOf (AddFace s e1 e2 e3).2 e ∧
      e ∈ mapGet (⟨e1, e2, e3⟩ : Face) (AddFace s e1 e2 e3).2.faceList := by
  intro e he
  rw [AddFace_eq_runAll]
  have hd := runAll_done (addFaceStmts e1 e2 e3) s
  simp only [List.mem_cons, List.mem_singleton, List.not_mem_nil, or_false] at he
  have hface : (⟨e1, e2, e3⟩ : Face) ∈ facesOf (runAll s (addFaceStmts e1 e2 e3)) e := by
    refine hd (Stmt.edgeFace e ⟨e1, e2, e3⟩) ?_
    rcases he with he | he | he <;> subst he <;> simp [addFaceStmts, addEdgeStmts]
  refine ⟨hasKey_of_mem_faces hface, ?_, ?_, hface, ?_⟩
  · refine hasKey_of_mem_mapGet (hd (Stmt.vertexEdge e.V1 (Edge.make e.V1 e.V2)) ?_)
    rcases he with he | he | he <;> subst he <;> simp [addFaceStmts, addEdgeStmts]
  · refine hasKey_of_mem_mapGet (hd (Stmt.vertexEdge e.V2 (Edge.make e.V1 e.V2)) ?_)
    rcases he with he | he | he <;> subst he <;> simp [addFaceStmts, addEdgeStmts]
  · refine hd (Stmt.faceEdge ⟨e1, e2, e3⟩ e) ?_
    rcases he with he | he | he <;> subst he <;> simp [addFaceStmts, addEdgeStmts]

theorem AddFace_faceEdges_iff (s : WingedEdge) (e1 e2 e3 x : Edge) :
    x ∈ mapGet (⟨e1, e2, e3⟩ : Face) (AddFace s e1 e2 e3).2.faceList ↔
      x = e1 ∨ x = e2 ∨ x = e3 ∨ x ∈ mapGet (⟨e1, e2, e3⟩ : Face) s.faceList := by
  constructor
  · intro h
    rw [AddFace_eq_runAll] at h
    rcases runAll_faceEdges _ h with h1 | h1
    · exact Or.inr (Or.inr (Or.inr h1))
    · rcases (addFaceStmts_faceEdge h1).2 with h2 | h2 | h2
      · exact Or.inl h2
      · exact Or.inr (Or.inl h2)
      · exact Or.inr (Or.inr (Or.inl h2))
  · intro h
    rcases h with h | h | h | h
    · rw [h]; exact (AddFace_edge_facts s e1 e2 e3 e1 (by simp)).2.2.2.2
    · rw [h]; exact (AddFace_edge_facts s e1 e2 e3 e2 (by simp)).2.2.2.2
    · rw [h]; exact (AddFace_edge_facts s e1 e2 e3 e3 (by simp)).2.2.2.2
    · rw [AddFace_eq_runAll]
      exact (runAll_grows _ s).faceEdges _ _ h

/-- C12: after `AddFace(e1, e2, e3)` on any store, the returned face is `(e1, e2, e3)`; each
of the three edges is a key of the edge map, has both endpoints as keys of the vertex map and
has the face in its incident-face set; the face is a key of the face map and its entry holds
`e1`, `e2`, `e3` next to what it held before, which for a store built by the insertion members
is nothing else; and every entry present before is still present with sets that only grew. -/
theorem C12_AddFace_links_face_and_edges (s : WingedEdge) (e1 e2 e3 : Edge) :
    (AddFace s e1 e2 e3).1 = ⟨e1, e2, e3⟩ ∧
      (∀ e ∈ [e1, e2, e3],
        hasKey e (AddFace s e1 e2 e3).2.edgeListMap ∧
        hasKey e.V1 (AddFace s e1 e2 e3).2.vertexList ∧
        hasKey e.V2 (AddFace s e1 e2 e3).2.vertexList ∧
        (AddFace s e1 e2 e3).1 ∈ facesOf (AddFace s e1 e2 e3).2 e ∧
        e ∈ mapGet (AddFace s e1 e2 e3).1 (AddFace s e1 e2 e3).2.faceList) ∧
      hasKey (AddFace s e1 e2 e3).1 (AddFace s e1 e2 e3).2.faceList ∧
      (∀ x, x ∈ mapGet (AddFace s e1 e2 e3).1 (AddFace s e1 e2 e3).2.faceList ↔
        x = e1 ∨ x = e2 ∨ x = e3 ∨ x ∈ mapGet (AddFace s e1 e2 e3).1 s.faceList) ∧
      (Reachable s →
        ∀ x, x ∈ mapGet (AddFace s e1 e2 e3).1 (AddFace s e1 e2 e3).2.faceList ↔
          x = e1 ∨ x = e2 ∨ x = e3) ∧
      Grows s (AddFace s e1 e2 e3).2 := by
  refine ⟨rfl, AddFace_edge_facts s e1 e2 e3, ?_, AddFace_faceEdges_iff s e1 e2 e3, ?_, ?_⟩
  · exact hasKey_of_mem_mapGet (AddFace_edge_facts s e1 e2 e3 e1 (by simp)).2.2.2.2
  · intro hr x
    constructor
    · intro h
      rcases (AddFace_faceEdges_iff s e1 e2 e3 x).mp h with h | h | h | h
      · exact Or.inl h
      · exact Or.inr (Or.inl h)
      · exact Or.inr (Or.inr h)
      · exact reachable_faceEdges hr _ x h
    · intro h
      apply (AddFace_faceEdges_iff s e1 e2 e3 x).mpr
      rcases h with h | h | h
      · exact Or.inl h
      · exact Or.inr (Or.inl h)
      · exact Or.inr (Or.inr (Or.inl h))
  · rw [AddFace_eq_runAll]
    exact runAll_grows _ s

/-! ## The order of the endpoints of an edge -/

theorem Vertex.lt_iff (a b : Vertex) :
    Vertex.lt a b = true ↔
      a.x < b.x ∨ (a.x = b.x ∧ (a.y < b.y ∨ (a.y = b.y ∧ a.z < b.z))) := by
  simp [Vertex.lt]

theorem Vertex.lt_not_gt {a b : Vertex} (h : Vertex.lt a b = true) : ¬ Vertex.lt b a = true := by
  rw [Vertex.lt_iff] at h ⊢
  rintro (h2 | ⟨h2, h3⟩)
  · rcases h with h | ⟨h, _⟩
    · exact lt_asymm h h2
    · rw [h] at h2; exact lt_irrefl _ h2
  · rcases h with h | ⟨_, h⟩
    · rw [h2] at h; exact lt_irrefl _ h
    · rcases h3 with h3 | ⟨h3, h4⟩
      · rcases h with h | ⟨h, _⟩
        · exact lt_asymm h h3
        · rw [h] at h3; exact lt_irrefl _ h3
      · rcases h with h | ⟨_, h⟩
        · rw [h3] at h; exact lt_irrefl _ h
        · exact lt_asymm h h4

theorem Vertex.eq_of_not_lt {a b : Vertex} (h1 : ¬ Vertex.lt a b = true)
    (h2 : ¬ Vertex.lt b a = true) : a = b := by
  rw [Vertex.lt_iff] at h1 h2
  push_neg at h1 h2
  have hx : a.x = b.x := le_antisymm h2.1 h1.1
  have hy : a.y = b.y := le_antisymm (h2.2 hx.symm).1 (h1.2 hx).1
  have hz : a.z = b.z := le_antisymm ((h2.2 hx.symm).2 hy.symm) ((h1.2 hx).2 hy)
  exact (Vertex.ext_iff3 a b).mpr ⟨hx, hy, hz⟩

theorem Edge.make_comm (a b : Vertex) : Edge.make a b = Edge.make b a := by
  unfold Edge.make
  by_cases h1 : Vertex.lt b a = true
  · rw [if_pos h1, if_neg (Vertex.lt_not_gt h1)]
  · rw [if_neg h1]
    by_cases h2 : Vertex.lt a b = true
    · rw [if_pos h2]
    · rw [if_neg h2, Vertex.eq_of_not_lt h1 h2]

theorem Edge.make_eq_make_iff (a b c d : Vertex) :
    Edge.make a b = Edge.make c d ↔ (a = c ∧ b = d) ∨ (a = d ∧ b = c) := by
  constructor
  · intro h
    have h1 : (Edge.make a b).V1 = (Edge.make c d).V1 := by rw [h]
    have h2 : (Edge.make a b).V2 = (Edge.make c d).V2 := by rw [h]
    rcases Edge.make_ends a b with ⟨p1, p2⟩ | ⟨p1, p2⟩ <;>
      rcases Edge.make_ends c d with ⟨q1, q2⟩ | ⟨q1, q2⟩ <;>
      rw [p1, q1] at h1 <;> rw [p2, q2] at h2
    · exact Or.inl ⟨h1, h2⟩
    · exact Or.inr ⟨h1, h2⟩
    · exact Or.inr ⟨h2, h1⟩
    · exact Or.inl ⟨h2, h1⟩
  · rintro (⟨h1, h2⟩ | ⟨h1, h2⟩)
    · rw [h1, h2]
    · rw [h1, h2, Edge.make_comm]

theorem Edge.make_self_ends (a b : Vertex) :
    Edge.make (Edge.make a b).V1 (Edge.make a b).V2 = Edge.make a b := by
  rcases Edge.make_ends a b with ⟨p1, p2⟩ | ⟨p1, p2⟩
  · rw [p1, p2]
  · rw [p1, p2, Edge.make_comm]

theorem Edge.make_joins (a b : Vertex) : (Edge.make a b).joins a b :=
  Edge.make_ends a b

/-! ## Keys of the maps and the counts -/

theorem keys_mapUpdate {κ β : Type} [DecidableEq κ] (k : κ) (f : β → β) (m : List (κ × β)) :
    (mapUpdate k f m).map Prod.fst = m.map Prod.fst := by
  induction m with
  | nil => rfl
  | cons p rest ih =>
    unfold mapUpdate
    split
    · rfl
    · simp only [List.map_cons, ih]

theorem perm_keys_mapInsertNew {κ β : Type} [KeyLt κ] (k : κ) (v : β) (m : List (κ × β)) :
    ((mapInsertNew k v m).map Prod.fst).Perm (k :: m.map Prod.fst) := by
  induction m with
  | nil => exact List.Perm.refl _
  | cons p rest ih =>
    unfold mapInsertNew
    split
    · exact List.Perm.refl _
    · simp only [List.map_cons]
      exact (List.Perm.cons p.1 ih).trans (List.Perm.swap k p.1 _)

theorem hasKey_iff_mem_keys {κ β : Type} [DecidableEq κ] (k : κ) (m : List (κ × β)) :
    hasKey k m ↔ k ∈ m.map Prod.fst := by
  constructor
  · intro h
    unfold hasKey at h
    induction m with
    | nil => simp [mapFind] at h
    | cons p rest ih =>
      unfold mapFind at h
      split at h
      · rename_i hp
        simp [hp]
      · simp only [List.map_cons, List.mem_cons]
        exact Or.inr (ih h)
  · exact hasKey_of_mem_keys

theorem nodup_keys_mapModify {κ β : Type} [DecidableEq κ] [KeyLt κ] [Inhabited β] (k : κ)
    (f : β → β) {m : List (κ × β)} (h : (m.map Prod.fst).Nodup) :
    ((mapModify k f m).map Prod.fst).Nodup := by
  unfold mapModify
  cases hm : mapFind k m with
  | some w =>
    simp only
    rw [keys_mapUpdate]
    exact h
  | none =>
    simp only
    refine (perm_keys_mapInsertNew k _ m).nodup_iff.mpr (List.nodup_cons.mpr ⟨?_, h⟩)
    intro hk
    have := (hasKey_iff_mem_keys k m).mpr hk
    unfold hasKey at this
    rw [hm] at this
    simp at this

theorem nodup_keys_mapTouch {κ β : Type} [DecidableEq κ] [KeyLt κ] [Inhabited β] (k : κ)
    {m : List (κ × β)} (h : (m.map Prod.fst).Nodup) :
    ((mapTouch k m).map Prod.fst).Nodup := by
  unfold mapTouch
  cases hm : mapFind k m with
  | some w => exact h
  | none =>
    simp only
    refine (perm_keys_mapInsertNew k _ m).nodup_iff.mpr (List.nodup_cons.mpr ⟨?_, h⟩)
    intro hk
    have := (hasKey_iff_mem_keys k m).mpr hk
    unfold hasKey at this
    rw [hm] at this
    simp at this

theorem Stmt.run_keysNodup {s : WingedEdge} (h : KeysNodup s) (st : Stmt) :
    KeysNodup (Stmt.run s st) := by
  obtain ⟨h1, h2, h3⟩ := h
  cases st with
  | vertexKey v => exact ⟨h1, h2, nodup_keys_mapTouch v h3⟩
  | vertexEdge v e => exact ⟨h1, h2, nodup_keys_mapModify v _ h3⟩
  | edgeEdge e e2 => exact ⟨h1, nodup_keys_mapModify e _ h2, h3⟩
  | edgeVertex e v => exact ⟨h1, nodup_keys_mapModify e _ h2, h3⟩
  | edgeFace e f => exact ⟨h1, nodup_keys_mapModify e _ h2, h3⟩
  | faceEdge f e => exact ⟨nodup_keys_mapModify f _ h1, h2, h3⟩

theorem runAll_keysNodup (l : List Stmt) : ∀ {s : WingedEdge}, KeysNodup s →
    KeysNodup (runAll s l) := by
  induction l with
  | nil => intro s h; exact h
  | cons st rest ih => intro s h; exact ih (Stmt.run_keysNodup h st)

theorem keysNodup_empty : KeysNodup WingedEdge.empty :=
  ⟨List.nodup_nil, List.nodup_nil, List.nodup_nil⟩

theorem keysNodup_AddEdge {s : WingedEdge} (h : KeysNodup s) (a b : Vertex) :
    KeysNodup (AddEdge s a b).2 := by
  rw [AddEdge_eq_runAll]; exact runAll_keysNodup _ h

theorem keysNodup_AddFace {s : WingedEdge} (h : KeysNodup s) (e1 e2 e3 : Edge) :
    KeysNodup (AddFace s e1 e2 e3).2 := by
  rw [AddFace_eq_runAll]; exact runAll_keysNodup _ h

theorem keysNodup_addEdgesFace {s : WingedEdge} (h : KeysNodup s) (a1 b1 a2 b2 a3 b3 : Vertex) :
    KeysNodup (addEdgesFace s a1 b1 a2 b2 a3 b3) :=
  keysNodup_AddFace (keysNodup_AddEdge (keysNodup_AddEdge (keysNodup_AddEdge h _ _) _ _) _ _)
    _ _ _

theorem keysNodup_performTriangulation {s : WingedEdge} (h : KeysNodup s)
    (v1 v2 v3 v4 v5 v6 : Vertex) : KeysNodup (performTriangulation s v1 v2 v3 v4 v5 v6) :=
  keysNodup_addEdgesFace (keysNodup_addEdgesFace (keysNodup_addEdgesFace
    (keysNodup_addEdgesFace h _ _ _ _ _ _) _ _ _ _ _ _) _ _ _ _ _ _) _ _ _ _ _ _

theorem length_of_keys {κ β : Type} [DecidableEq κ] {m : List (κ × β)} {l : List κ}
    (hn : (m.map Prod.fst).Nodup) (hl : l.Nodup) (h : ∀ k, hasKey k m ↔ k ∈ l) :
    m.length = l.length := by
  have hp : (m.map Prod.fst).Perm l :=
    (List.perm_ext_iff_of_nodup hn hl).mpr
      (fun k => ((hasKey_iff_mem_keys k m).symm.trans (h k)))
  rw [← hp.length_eq, List.length_map]

/-! ## Keys after the insertion members -/

theorem hasKey_vertex_AddEdge (s : WingedEdge) (a b v : Vertex) :
    hasKey v (AddEdge s a b).2.vertexList ↔ hasKey v s.vertexList ∨ v = a ∨ v = b := by
  simp only [AddEdge, insertVertexEdge, insertEdgeEdge, insertEdgeVertex, hasKey_mapModify]
  tauto

theorem hasKey_edge_AddEdge (s : WingedEdge) (a b : Vertex) (e : Edge) :
    hasKey e (AddEdge s a b).2.edgeListMap ↔ hasKey e s.edgeListMap ∨ e = Edge.make a b := by
  simp only [AddEdge, insertVertexEdge, insertEdgeEdge, insertEdgeVertex, hasKey_mapModify]
  tauto

theorem hasKey_face_AddEdge (s : WingedEdge) (a b : Vertex) (f : Face) :
    hasKey f (AddEdge s a b).2.faceList ↔ hasKey f s.faceList := by
  simp only [AddEdge, insertVertexEdge, insertEdgeEdge, insertEdgeVertex]

theorem hasKey_vertex_AddFace (s : WingedEdge) (e1 e2 e3 : Edge) (v : Vertex) :
    hasKey v (AddFace s e1 e2 e3).2.vertexList ↔
      hasKey v s.vertexList ∨ v = e1.V1 ∨ v = e1.V2 ∨ v = e2.V1 ∨ v = e2.V2 ∨ v = e3.V1 ∨
        v = e3.V2 := by
  simp only [AddFace, insertFaceEdge, insertEdgeFace, insertEdgeVertex, hasKey_vertex_AddEdge]
  tauto

theorem hasKey_edge_AddFace (s : WingedEdge) (e1 e2 e3 e : Edge) :
    hasKey e (AddFace s e1 e2 e3).2.edgeListMap ↔
      hasKey e s.edgeListMap ∨ e = Edge.make e1.V1 e1.V2 ∨ e = Edge.make e2.V1 e2.V2 ∨
        e = Edge.make e3.V1 e3.V2 ∨ e = e1 ∨ e = e2 ∨ e = e3 := by
  simp only [AddFace, insertFaceEdge, insertEdgeFace, insertEdgeVertex, hasKey_mapModify,
    hasKey_edge_AddEdge]
  tauto

theorem hasKey_face_AddFace (s : WingedEdge) (e1 e2 e3 : Edge) (f : Face) :
    hasKey f (AddFace s e1 e2 e3).2.faceList ↔ hasKey f s.faceList ∨ f = ⟨e1, e2, e3⟩ := by
  simp only [AddFace, insertFaceEdge, insertEdgeFace, insertEdgeVertex, hasKey_mapModify,
    hasKey_face_AddEdge]
  tauto

theorem AddEdge_fst (s : WingedEdge) (a b : Vertex) : (AddEdge s a b).1 = Edge.make a b := rfl

theorem Edge.make_end_iff (a b v : Vertex) :
    (v = (Edge.make a b).V1 ∨ v = (Edge.make a b).V2) ↔ (v = a ∨ v = b) := by
  rcases Edge.make_ends a b with ⟨p1, p2⟩ | ⟨p1, p2⟩ <;> rw [p1, p2]
  exact Or.comm

theorem hasKey_vertex_AddFace_make (s : WingedEdge) (a1 b1 a2 b2 a3 b3 v : Vertex) :
    hasKey v (AddFace s (Edge.make a1 b1) (Edge.make a2 b2) (Edge.make a3 b3)).2.vertexList ↔
      hasKey v s.vertexList ∨ (v = a1 ∨ v = b1) ∨ (v = a2 ∨ v = b2) ∨ (v = a3 ∨ v = b3) := by
  rw [hasKey_vertex_AddFace, ← Edge.make_end_iff a1 b1 v, ← Edge.make_end_iff a2 b2 v,
    ← Edge.make_end_iff a3 b3 v]
  simp only [or_assoc]

theorem hasKey_vertex_addEdgesFace (s : WingedEdge) (a1 b1 a2 b2 a3 b3 v : Vertex) :
    hasKey v (addEdgesFace s a1 b1 a2 b2 a3 b3).vertexList ↔
      hasKey v s.vertexList ∨ v = a1 ∨ v = b1 ∨ v = a2 ∨ v = b2 ∨ v = a3 ∨ v = b3 := by
  simp only [addEdgesFace, AddEdge_fst, hasKey_vertex_AddFace_make, hasKey_vertex_AddEdge]
  constructor
  · rintro ((((h | h | h) | h | h) | h | h) | (h | h) | (h | h) | (h | h)) <;> simp [h]
  · rintro (h | h | h | h | h | h | h) <;> simp [h]

theorem hasKey_edge_addEdgesFace (s : WingedEdge) (a1 b1 a2 b2 a3 b3 : Vertex) (e : Edge) :
    hasKey e (addEdgesFace s a1 b1 a2 b2 a3 b3).edgeListMap ↔
      hasKey e s.edgeListMap ∨ e = Edge.make a1 b1 ∨ e = Edge.make a2 b2 ∨
        e = Edge.make a3 b3 := by
  simp only [addEdgesFace, hasKey_edge_AddFace, hasKey_edge_AddEdge, AddEdge_fst,
    Edge.make_self_ends]
  tauto

theorem hasKey_face_addEdgesFace (s : WingedEdge) (a1 b1 a2 b2 a3 b3 : Vertex) (f : Face) :
    hasKey f (addEdgesFace s a1 b1 a2 b2 a3 b3).faceList ↔
      hasKey f s.faceList ∨ f = ⟨Edge.make a1 b1, Edge.make a2 b2, Edge.make a3 b3⟩ := by
  simp only [addEdgesFace, hasKey_face_AddFace, hasKey_face_AddEdge, AddEdge_fst]

theorem hasKey_vertex_performTriangulation (s : WingedEdge) (v1 v2 v3 v4 v5 v6 v : Vertex) :
    hasKey v (performTriangulation s v1 v2 v3 v4 v5 v6).vertexList ↔
      hasKey v s.vertexList ∨ v ∈ [v1, v2, v3, v4, v5, v6] := by
  simp only [performTriangulation, hasKey_vertex_addEdgesFace, List.mem_cons,
    List.mem_singleton, List.not_mem_nil, or_false]
  constructor
  · rintro ((((h | h | h | h | h | h | h) | h | h | h | h | h | h) | h | h | h | h | h | h) |
      h | h | h | h | h | h) <;> simp [h]
  · rintro (h | h | h | h | h | h | h) <;> simp [h]

theorem hasKey_edge_performTriangulation (s : WingedEdge) (v1 v2 v3 v4 v5 v6 : Vertex)
    (e : Edge) :
    hasKey e (performTriangulation s v1 v2 v3 v4 v5 v6).edgeListMap ↔
      hasKey e s.edgeListMap ∨ e ∈ templateEdges v1 v2 v3 v4 v5 v6 := by
  simp only [performTriangulation, hasKey_edge_addEdgesFace, templateEdges, List.mem_cons,
    List.mem_singleton, List.not_mem_nil, or_false]
  constructor
  · rintro ((((h | h | h | h) | h | h | h) | h | h | h) | h | h | h) <;> simp [h]
  · rintro (h | h | h | h | h | h | h | h | h | h) <;> simp [h]

theorem hasKey_face_performTriangulation (s : WingedEdge) (v1 v2 v3 v4 v5 v6 : Vertex)
    (f : Face) :
    hasKey f (performTriangulation s v1 v2 v3 v4 v5 v6).faceList ↔
      hasKey f s.faceList ∨ f ∈ templateFaces v1 v2 v3 v4 v5 v6 := by
  simp only [performTriangulation, hasKey_face_addEdgesFace, templateFaces, List.mem_cons,
    List.mem_singleton, List.not_mem_nil, or_false]
  constructor
  · rintro ((((h | h) | h) | h) | h) <;> simp [h]
  · rintro (h | h | h | h | h) <;> simp [h]

theorem not_hasKey_nil {κ β : Type} [DecidableEq κ] (k : κ) :
    ¬ hasKey k ([] : List (κ × β)) := by
  simp [hasKey, mapFind]

theorem templateEdges_nodup {v1 v2 v3 v4 v5 v6 : Vertex}
    (h : [v1, v2, v3, v4, v5, v6].Nodup) : (templateEdges v1 v2 v3 v4 v5 v6).Nodup := by
  simp only [List.nodup_cons, List.mem_cons, List.mem_singleton, List.not_mem_nil, not_or,
    or_false, List.nodup_nil, and_true, not_false_eq_true] at h
  obtain ⟨⟨h12, h13, h14, h15, h16⟩, ⟨h23, h24, h25, h26⟩, ⟨h34, h35, h36⟩, ⟨h45, h46⟩, h56⟩ := h
  have s12 := Ne.symm h12
  have s13 := Ne.symm h13
  have s14 := Ne.symm h14
  have s15 := Ne.symm h15
  have s16 := Ne.symm h16
  have s23 := Ne.symm h23
  have s24 := Ne.symm h24
  have s25 := Ne.symm h25
  have s26 := Ne.symm h26
  have s34 := Ne.symm h34
  have s35 := Ne.symm h35
  have s36 := Ne.symm h36
  have s45 := Ne.symm h45
  have s46 := Ne.symm h46
  have s56 := Ne.symm h56
  simp [templateEdges, Edge.make_eq_make_iff, *]

theorem templateFaces_nodup {v1 v2 v3 v4 v5 v6 : Vertex}
    (h : [v1, v2, v3, v4, v5, v6].Nodup) : (templateFaces v1 v2 v3 v4 v5 v6).Nodup := by
  simp only [List.nodup_cons, List.mem_cons, List.mem_singleton, List.not_mem_nil, not_or,
    or_false, List.nodup_nil, and_true, not_false_eq_true] at h
  obtain ⟨⟨h12, h13, h14, h15, h16⟩, ⟨h23, h24, h25, h26⟩, ⟨h34, h35, h36⟩, ⟨h45, h46⟩, h56⟩ := h
  have s12 := Ne.symm h12
  have s13 := Ne.symm h13
  have s14 := Ne.symm h14
  have s15 := Ne.symm h15
  have s16 := Ne.symm h16
  have s23 := Ne.symm h23
  have s24 := Ne.symm h24
  have s25 := Ne.symm h25
  have s26 := Ne.symm h26
  have s34 := Ne.symm h34
  have s35 := Ne.symm h35
  have s36 := Ne.symm h36
  have s45 := Ne.symm h45
  have s46 := Ne.symm h46
  have s56 := Ne.symm h56
  simp [templateFaces, Edge.make_eq_make_iff, *]

/-- C13: `performTriangulation` adds to the face map exactly the four faces `(v1,v5,v6)`,
`(v2,v4,v6)`, `(v3,v4,v5)`, `(v4,v5,v6)`, each made of the three edges joining its vertices,
and no other face; on the empty store with six pairwise distinct vertices the result has
4 faces, 9 edges and 6 vertices. -/
theorem C13_performTriangulation_four_faces (mesh : WingedEdge) (v1 v2 v3 v4 v5 v6 : Vertex) :
    (∀ f, hasKey f (performTriangulation mesh v1 v2 v3 v4 v5 v6).faceList ↔
        hasKey f mesh.faceList ∨ f ∈ templateFaces v1 v2 v3 v4 v5 v6) ∧
      templateFaces v1 v2 v3 v4 v5 v6 =
        [⟨Edge.make v1 v5, Edge.make v1 v6, Edge.make v5 v6⟩,
         ⟨Edge.make v2 v4, Edge.make v2 v6, Edge.make v4 v6⟩,
         ⟨Edge.make v3 v4, Edge.make v3 v5, Edge.make v4 v5⟩,
         ⟨Edge.make v4 v5, Edge.make v4 v6, Edge.make v5 v6⟩] ∧
      hasTriangle (performTriangulation mesh v1 v2 v3 v4 v5 v6) v1 v5 v6 ∧
      hasTriangle (performTriangulation mesh v1 v2 v3 v4 v5 v6) v2 v4 v6 ∧
      hasTriangle (performTriangulation mesh v1 v2 v3 v4 v5 v6) v3 v4 v5 ∧
      hasTriangle (performTriangulation mesh v1 v2 v3 v4 v5 v6) v4 v5 v6 ∧
      ([v1, v2, v3, v4, v5, v6].Nodup →
        NumFaces (performTriangulation WingedEdge.empty v1 v2 v3 v4 v5 v6) = 4 ∧
        NumEdges (performTriangulation WingedEdge.empty v1 v2 v3 v4 v5 v6) = 9 ∧
        NumVertices (performTriangulation WingedEdge.empty v1 v2 v3 v4 v5 v6) = 6) := by
  have hface := hasKey_face_performTriangulation
  refine ⟨hface mesh v1 v2 v3 v4 v5 v6, rfl, ?_, ?_, ?_, ?_, ?_⟩
  · obtain ⟨w, hw⟩ := List.exists_of_mem_map ((hasKey_iff_mem_keys _ _).mp
      ((hface mesh v1 v2 v3 v4 v5 v6 ⟨Edge.make v1 v5, Edge.make v1 v6, Edge.make v5 v6⟩).mpr
        (Or.inr (by simp [templateFaces]))))
    refine ⟨w, hw.1, ?_⟩
    rw [hw.2]
    exact ⟨⟨_, by simp, Edge.make_joins v1 v5⟩, ⟨_, by simp, Edge.make_joins v5 v6⟩,
      ⟨_, by simp, Edge.make_joins v1 v6⟩⟩
  · obtain ⟨w, hw⟩ := List.exists_of_mem_map ((hasKey_iff_mem_keys _ _).mp
      ((hface mesh v1 v2 v3 v4 v5 v6 ⟨Edge.make v2 v4, Edge.make v2 v6, Edge.make v4 v6⟩).mpr
        (Or.inr (by simp [templateFaces]))))
    refine ⟨w, hw.1, ?_⟩
    rw [hw.2]
    exact ⟨⟨_, by simp, Edge.make_joins v2 v4⟩, ⟨_, by simp, Edge.make_joins v4 v6⟩,
      ⟨_, by simp, Edge.make_joins v2 v6⟩⟩
  · obtain ⟨w, hw⟩ := List.exists_of_mem_map ((hasKey_iff_mem_keys _ _).mp
      ((hface mesh v1 v2 v3 v4 v5 v6 ⟨Edge.make v3 v4, Edge.make v3 v5, Edge.make v4 v5⟩).mpr
        (Or.inr (by simp [templateFaces]))))
    refine ⟨w, hw.1, ?_⟩
    rw [hw.2]
    exact ⟨⟨_, by simp, Edge.make_joins v3 v4⟩, ⟨_, by simp, Edge.make_joins v4 v5⟩,
      ⟨_, by simp, Edge.make_joins v3 v5⟩⟩
  · obtain ⟨w, hw⟩ := List.exists_of_mem_map ((hasKey_iff_mem_keys _ _).mp
      ((hface mesh v1 v2 v3 v4 v5 v6 ⟨Edge.make v4 v5, Edge.make v4 v6, Edge.make v5 v6⟩).mpr
        (Or.inr (by simp [templateFaces]))))
    refine ⟨w, hw.1, ?_⟩
    rw [hw.2]
    exact ⟨⟨_, by simp, Edge.make_joins v4 v5⟩, ⟨_, by simp, Edge.make_joins v5 v6⟩,
      ⟨_, by simp, Edge.make_joins v4 v6⟩⟩
  · intro hd
    have hn := keysNodup_performTriangulation keysNodup_empty v1 v2 v3 v4 v5 v6
    refine ⟨?_, ?_, ?_⟩
    · exact length_of_keys hn.1 (templateFaces_nodup hd) (fun f => by
        rw [hface]
        exact ⟨fun h => h.resolve_left (not_hasKey_nil f), Or.inr⟩)
    · exact length_of_keys hn.2.1 (templateEdges_nodup hd) (fun e => by
        rw [hasKey_edge_performTriangulation]
        exact ⟨fun h => h.resolve_left (not_hasKey_nil e), Or.inr⟩)
    · exact length_of_keys hn.2.2 hd (fun v => by
        rw [hasKey_vertex_performTriangulation]
        exact ⟨fun h => h.resolve_left (not_hasKey_nil v), Or.inr⟩)

/-! ## Well-formedness of built stores -/

theorem Stmt.run_edgeEdges {s : WingedEdge} {st : Stmt} {e x : Edge}
    (h : x ∈ (mapGet e (Stmt.run s st).edgeListMap).edges) :
    x ∈ (mapGet e s.edgeListMap).edges ∨ st = Stmt.edgeEdge e x := by
  cases st with
  | edgeEdge g y =>
    simp only [Stmt.run, insertEdgeEdge, mapGet_mapModify] at h
    split at h
    · rename_i hg; subst hg
      rcases (mem_setInsert _ _ _).mp h with h | h
      · exact Or.inr (by rw [h])
      · exact Or.inl h
    · exact Or.inl h
  | edgeVertex g v =>
    left
    simp only [Stmt.run, insertEdgeVertex, mapGet_mapModify] at h
    split at h
    · rename_i hg; subst hg; exact h
    · exact h
  | edgeFace g f =>
    left
    simp only [Stmt.run, insertEdgeFace, mapGet_mapModify] at h
    split at h
    · rename_i hg; subst hg; exact h
    · exact h
  | _ => exact Or.inl h

theorem Stmt.run_edgeVertices {s : WingedEdge} {st : Stmt} {e : Edge} {v : Vertex}
    (h : v ∈ (mapGet e (Stmt.run s st).edgeListMap).vertices) :
    v ∈ (mapGet e s.edgeListMap).vertices ∨ st = Stmt.edgeVertex e v := by
  cases st with
  | edgeEdge g y =>
    left
    simp only [Stmt.run, insertEdgeEdge, mapGet_mapModify] at h
    split at h
    · rename_i hg; subst hg; exact h
    · exact h
  | edgeVertex g w =>
    simp only [Stmt.run, insertEdgeVertex, mapGet_mapModify] at h
    split at h
    · rename_i hg; subst hg
      rcases (mem_setInsert _ _ _).mp h with h | h
      · exact Or.inr (by rw [h])
      · exact Or.inl h
    · exact Or.inl h
  | edgeFace g f =>
    left
    simp only [Stmt.run, insertEdgeFace, mapGet_mapModify] at h
    split at h
    · rename_i hg; subst hg; exact h
    · exact h
  | _ => exact Or.inl h

theorem runAll_edgeEdges (l : List Stmt) : ∀ {s : WingedEdge} {e x : Edge},
    x ∈ (mapGet e (runAll s l).edgeListMap).edges →
      x ∈ (mapGet e s.edgeListMap).edges ∨ Stmt.edgeEdge e x ∈ l := by
  induction l with
  | nil => intro s e x h; exact Or.inl h
  | cons st rest ih =>
    intro s e x h
    rcases ih (s := Stmt.run s st) h with h1 | h1
    · rcases Stmt.run_edgeEdges h1 with h2 | h2
      · exact Or.inl h2
      · exact Or.inr (h2 ▸ List.mem_cons_self st rest)
    · exact Or.inr (List.mem_cons_of_mem st h1)

theorem runAll_edgeVertices (l : List Stmt) : ∀ {s : WingedEdge} {e : Edge} {v : Vertex},
    v ∈ (mapGet e (runAll s l).edgeListMap).vertices →
      v ∈ (mapGet e s.edgeListMap).vertices ∨ Stmt.edgeVertex e v ∈ l := by
  induction l with
  | nil => intro s e v h; exact Or.inl h
  | cons st rest ih =>
    intro s e v h
    rcases ih (s := Stmt.run s st) h with h1 | h1
    · rcases Stmt.run_edgeVertices h1 with h2 | h2
      · exact Or.inl h2
      · exact Or.inr (h2 ▸ List.mem_cons_self st rest)
    · exact Or.inr (List.mem_cons_of_mem st h1)

theorem wellFormed_runAll {s : WingedEdge} {l : List Stmt} (hw : WellFormed s)
    (h1 : ∀ e x, Stmt.edgeEdge e x ∈ l → x = e)
    (h2 : ∀ e v, Stmt.edgeVertex e v ∈ l → v = e.V1 ∨ v = e.V2)
    (h3 : ∀ e, ((∃ x, Stmt.edgeEdge e x ∈ l) ∨ (∃ v, Stmt.edgeVertex e v ∈ l) ∨
        ∃ f, Stmt.edgeFace e f ∈ l) →
      Stmt.edgeEdge e e ∈ l ∧ Stmt.edgeVertex e e.V1 ∈ l ∧ Stmt.edgeVertex e e.V2 ∈ l ∧
        Stmt.vertexEdge e.V1 e ∈ l ∧ Stmt.vertexEdge e.V2 e ∈ l)
    (h4 : ∀ f e, Stmt.faceEdge f e ∈ l →
      Stmt.edgeFace f.E1 f ∈ l ∧ Stmt.edgeFace f.E2 f ∈ l ∧ Stmt.edgeFace f.E3 f ∈ l)
    (h5 : ∀ v e, Stmt.vertexEdge v e ∈ l → Stmt.edgeEdge e e ∈ l) :
    WellFormed (runAll s l) := by
  have hg := runAll_grows l s
  have hd := runAll_done l s
  refine ⟨?_, ?_, ?_, ?_, ?_⟩
  · intro e he
    rcases runAll_edgeKey l he with h | h
    · obtain ⟨⟨a1, a2⟩, ⟨b1, b2⟩⟩ := hw.edgeEnds e h
      exact ⟨⟨hg.vertexKeys _ a1, hg.vertexEdges _ _ a2⟩,
        ⟨hg.vertexKeys _ b1, hg.vertexEdges _ _ b2⟩⟩
    · obtain ⟨_, _, _, c1, c2⟩ := h3 e h
      have d1 := hd _ c1
      have d2 := hd _ c2
      exact ⟨⟨hasKey_of_mem_mapGet d1, d1⟩, ⟨hasKey_of_mem_mapGet d2, d2⟩⟩
  · intro v e he
    rcases runAll_vertexEdges l he with h | h
    · exact hg.edgeKeys e (hw.vertexEdges v e h)
    · exact hasKey_of_mem_edges (hd _ (h5 v e h))
  · intro e he v
    constructor
    · intro hv
      rcases runAll_edgeVertices l hv with h | h
      · exact (hw.edgeVertices e (hasKey_of_mem_vertices h) v).mp h
      · exact h2 e v h
    · intro hv
      rcases runAll_edgeKey l he with h | h
      · exact hg.edgeVertices e v ((hw.edgeVertices e h v).mpr hv)
      · obtain ⟨_, c1, c2, _, _⟩ := h3 e h
        rcases hv with hv | hv
        · rw [hv]; exact hd _ c1
        · rw [hv]; exact hd _ c2
  · intro e he x
    constructor
    · intro hx
      rcases runAll_edgeEdges l hx with h | h
      · exact (hw.edgeSelf e (hasKey_of_mem_edges h) x).mp h
      · exact h1 e x h
    · intro hx
      rw [hx]
      rcases runAll_edgeKey l he with h | h
      · exact hg.edgeEdges e e ((hw.edgeSelf e h e).mpr rfl)
      · exact hd _ (h3 e h).1
  · intro f hf e he
    rcases runAll_faceKey l hf with h | ⟨x, hx⟩
    · obtain ⟨a1, a2⟩ := hw.faceEdges f h e he
      exact ⟨hg.edgeKeys e a1, hg.edgeFaces e f a2⟩
    · obtain ⟨c1, c2, c3⟩ := h4 f x hx
      simp only [List.mem_cons, List.mem_singleton, List.not_mem_nil, or_false] at he
      rcases he with he | he | he <;> rw [he]
      · exact ⟨hasKey_of_mem_faces (hd _ c1), hd _ c1⟩
      · exact ⟨hasKey_of_mem_faces (hd _ c2), hd _ c2⟩
      · exact ⟨hasKey_of_mem_faces (hd _ c3), hd _ c3⟩

theorem wellFormed_empty : WellFormed WingedEdge.empty := by
  refine ⟨?_, ?_, ?_, ?_, ?_⟩
  · intro e h; exact absurd h (not_hasKey_nil e)
  · intro v e h; exact absurd h (List.not_mem_nil e)
  · intro e h; exact absurd h (not_hasKey_nil e)
  · intro e h; exact absurd h (not_hasKey_nil e)
  · intro f h; exact absurd h (not_hasKey_nil f)

theorem wellFormed_AddVertex {s : WingedEdge} (hw : WellFormed s) (x y z : ℚ) :
    WellFormed (AddVertex s x y z).2 := by
  have h : (AddVertex s x y z).2 = runAll s [Stmt.vertexKey ⟨x, y, z⟩] := rfl
  rw [h]
  apply wellFormed_runAll hw
  · intro e x hm; simp at hm
  · intro e v hm; simp at hm
  · intro e hm; simp at hm
  · intro f e hm; simp at hm
  · intro v e hm; simp at hm

theorem wellFormed_AddEdge {s : WingedEdge} (hw : WellFormed s) (a b : Vertex) :
    WellFormed (AddEdge s a b).2 := by
  rw [AddEdge_eq_runAll]
  apply wellFormed_runAll hw
  · intro e x hm
    simp [addEdgeStmts] at hm
    rw [hm.1, hm.2]
  · intro e v hm
    simp [addEdgeStmts] at hm
    rcases Edge.make_ends a b with ⟨p1, p2⟩ | ⟨p1, p2⟩ <;>
      rcases hm with ⟨q1, q2⟩ | ⟨q1, q2⟩ <;> rw [q1, q2, p1, p2] <;> simp
  · intro e hm
    have he : e = Edge.make a b := by
      rcases hm with ⟨x, hx⟩ | ⟨v, hv⟩ | ⟨f, hf⟩
      · simp [addEdgeStmts] at hx; exact hx.1
      · simp [addEdgeStmts] at hv
        rcases hv with hv | hv <;> exact hv.1
      · simp [addEdgeStmts] at hf
    rw [he]
    rcases Edge.make_ends a b with ⟨p1, p2⟩ | ⟨p1, p2⟩ <;> rw [p1, p2] <;> simp [addEdgeStmts]
  · intro f e hm; simp [addEdgeStmts] at hm
  · intro v e hm
    simp [addEdgeStmts] at hm
    rcases hm with hm | hm <;> rw [hm.2] <;> simp [addEdgeStmts]

theorem addFaceStmts_canonical {e1 e2 e3 : Edge} (c1 : e1.canonical) (c2 : e2.canonical)
    (c3 : e3.canonical) :
    addFaceStmts e1 e2 e3 =
      [Stmt.vertexEdge e1.V1 e1, Stmt.vertexEdge e1.V2 e1, Stmt.edgeEdge e1 e1,
       Stmt.edgeVertex e1 e1.V1, Stmt.edgeVertex e1 e1.V2,
       Stmt.vertexEdge e2.V1 e2, Stmt.vertexEdge e2.V2 e2, Stmt.edgeEdge e2 e2,
       Stmt.edgeVertex e2 e2.V1, Stmt.edgeVertex e2 e2.V2,
       Stmt.vertexEdge e3.V1 e3, Stmt.vertexEdge e3.V2 e3, Stmt.edgeEdge e3 e3,
       Stmt.edgeVertex e3 e3.V1, Stmt.edgeVertex e3 e3.V2,
       Stmt.faceEdge ⟨e1, e2, e3⟩ e1, Stmt.faceEdge ⟨e1, e2, e3⟩ e2,
       Stmt.faceEdge ⟨e1, e2, e3⟩ e3,
       Stmt.edgeFace e1 ⟨e1, e2, e3⟩, Stmt.edgeFace e2 ⟨e1, e2, e3⟩,
       Stmt.edgeFace e3 ⟨e1, e2, e3⟩,
       Stmt.edgeVertex e1 e1.V1, Stmt.edgeVertex e1 e1.V2, Stmt.edgeVertex e2 e2.V1,
       Stmt.edgeVertex e2 e2.V2, Stmt.edgeVertex e3 e3.V1, Stmt.edgeVertex e3 e3.V2] := by
  unfold Edge.canonical at c1 c2 c3
  simp only [addFaceStmts, addEdgeStmts, c1, c2, c3, List.cons_append, List.nil_append]

theorem wellFormed_AddFace {s : WingedEdge} (hw : WellFormed s) {e1 e2 e3 : Edge}
    (c1 : e1.canonical) (c2 : e2.canonical) (c3 : e3.canonical) :
    WellFormed (AddFace s e1 e2 e3).2 := by
  rw [AddFace_eq_runAll, addFaceStmts_canonical c1 c2 c3]
  apply wellFormed_runAll hw
  · intro e x hm
    simp at hm
    rcases hm with ⟨p, q⟩ | ⟨p, q⟩ | ⟨p, q⟩ <;> rw [p, q]
  · intro e v hm
    simp at hm
    have hv : (e = e1 ∧ (v = e1.V1 ∨ v = e1.V2)) ∨ (e = e2 ∧ (v = e2.V1 ∨ v = e2.V2)) ∨
        (e = e3 ∧ (v = e3.V1 ∨ v = e3.V2)) := by tauto
    rcases hv with ⟨p, q⟩ | ⟨p, q⟩ | ⟨p, q⟩ <;> rw [p] <;> exact q
  · intro e hm
    have he : e = e1 ∨ e = e2 ∨ e = e3 := by
      rcases hm with ⟨x, hx⟩ | ⟨v, hv⟩ | ⟨f, hf⟩
      · simp at hx; tauto
      · simp at hv; tauto
      · simp at hf; tauto
    rcases he with he | he | he <;> rw [he] <;> simp
  · intro f e hm
    simp at hm
    have hf : f = ⟨e1, e2, e3⟩ := by tauto
    rw [hf]
    simp
  · intro v e hm
    simp at hm
    have he : e = e1 ∨ e = e2 ∨ e = e3 := by tauto
    rcases he with he | he | he <;> rw [he] <;> simp

theorem wellFormed_of_built {s : WingedEdge} (h : Built s) : WellFormed s := by
  induction h with
  | empty => exact wellFormed_empty
  | addVertex s x y z _ ih => exact wellFormed_AddVertex ih x y z
  | addEdge s v1 v2 _ ih => exact wellFormed_AddEdge ih v1 v2
  | addFace s e1 e2 e3 c1 c2 c3 _ ih => exact wellFormed_AddFace ih c1 c2 c3

theorem Stmt.run_setsNodup {s : WingedEdge} (h : SetsNodup s) (st : Stmt) :
    SetsNodup (Stmt.run s st) := by
  cases st with
  | vertexKey v => exact h
  | vertexEdge v e => exact h
  | faceEdge f e => exact h
  | edgeEdge e e2 =>
    intro x
    simp only [Stmt.run, insertEdgeEdge, mapGet_mapModify]
    split
    · rename_i hx; subst hx
      exact ⟨(h x).1, nodup_setInsert _ (h x).2.1, (h x).2.2⟩
    · exact h x
  | edgeVertex e v =>
    intro x
    simp only [Stmt.run, insertEdgeVertex, mapGet_mapModify]
    split
    · rename_i hx; subst hx
      exact ⟨nodup_setInsert _ (h x).1, (h x).2.1, (h x).2.2⟩
    · exact h x
  | edgeFace e f =>
    intro x
    simp only [Stmt.run, insertEdgeFace, mapGet_mapModify]
    split
    · rename_i hx; subst hx
      exact ⟨(h x).1, (h x).2.1, nodup_setInsert _ (h x).2.2⟩
    · exact h x

theorem runAll_setsNodup (l : List Stmt) : ∀ {s : WingedEdge}, SetsNodup s →
    SetsNodup (runAll s l) := by
  induction l with
  | nil => intro s h; exact h
  | cons st rest ih => intro s h; exact ih (Stmt.run_setsNodup h st)

theorem setsNodup_empty : SetsNodup WingedEdge.empty :=
  fun _ => ⟨List.nodup_nil, List.nodup_nil, List.nodup_nil⟩

theorem setsNodup_of_built {s : WingedEdge} (h : Built s) : SetsNodup s := by
  induction h with
  | empty => exact setsNodup_empty
  | addVertex s x y z _ ih => exact ih
  | addEdge s v1 v2 _ ih => rw [AddEdge_eq_runAll]; exact runAll_setsNodup _ ih
  | addFace s e1 e2 e3 _ _ _ _ ih => rw [AddFace_eq_runAll]; exact runAll_setsNodup _ ih

theorem eq_singleton_of_nodup {α : Type} {l : List α} {a : α} (hn : l.Nodup)
    (hm : ∀ x, x ∈ l ↔ x = a) : l = [a] := by
  rcases l with _ | ⟨b, _ | ⟨c, r⟩⟩
  · exact absurd ((hm a).mpr rfl) (List.not_mem_nil a)
  · rw [(hm b).mp (List.mem_cons_self b [])]
  · have hb := (hm b).mp (List.mem_cons_self b _)
    have hc := (hm c).mp (List.mem_cons_of_mem b (List.mem_cons_self c r))
    have hbc : b ≠ c := by
      intro h
      simp [h] at hn
    exact absurd (hb.trans hc.symm) hbc

theorem length_le_two_of_nodup {α : Type} {l : List α} {a b : α} (hn : l.Nodup)
    (hm : ∀ x, x ∈ l → x = a ∨ x = b) : l.length ≤ 2 := by
  rcases l with _ | ⟨x, _ | ⟨y, _ | ⟨z, r⟩⟩⟩
  · simp
  · simp
  · simp
  · have hx := hm x (by simp)
    have hy := hm y (by simp)
    have hz := hm z (by simp)
    simp only [List.nodup_cons, List.mem_cons, not_or] at hn
    obtain ⟨⟨hxy, hxz, _⟩, ⟨hyz, _⟩, _⟩ := hn
    rcases hx with hx | hx <;> rcases hy with hy | hy <;> rcases hz with hz | hz <;>
      first
        | exact absurd (hx.trans hy.symm) hxy
        | exact absurd (hx.trans hz.symm) hxz
        | exact absurd (hy.trans hz.symm) hyz

/-- C11: every store built from the empty store by `AddVertex`, `AddEdge` and `AddFace` is
well formed: every edge key has both endpoints as keys of the vertex map with the edge in
their incident-edge sets; every edge of an incident-edge set is a key of the edge map; the
vertex set of an edge record is exactly the endpoints of the edge, at most two, and its
self-reference set is exactly that edge; and every face key has its three edges as keys of
the edge map with the face in their incident-face sets. -/
theorem C11_built_stores_are_well_formed (s : WingedEdge) (h : Built s) :
    WellFormed s ∧
      ∀ e, hasKey e s.edgeListMap →
        (mapGet e s.edgeListMap).vertices.length ≤ 2 ∧ (mapGet e s.edgeListMap).edges = [e] := by
  have hw := wellFormed_of_built h
  have hn := setsNodup_of_built h
  refine ⟨hw, fun e he => ⟨?_, ?_⟩⟩
  · exact length_le_two_of_nodup (hn e).1 (fun v hv => (hw.edgeVertices e he v).mp hv)
  · exact eq_singleton_of_nodup (hn e).2.1 (hw.edgeSelf e he)

/-- C11 at the store built by one `AddFace` of the triangle `ptA ptB ptC`. -/
theorem C11_built_stores_are_well_formed_witness :
    Built triangleSorted ∧
      (WellFormed triangleSorted ∧
        ∀ e, hasKey e triangleSorted.edgeListMap →
          (mapGet e triangleSorted.edgeListMap).vertices.length ≤ 2 ∧
            (mapGet e triangleSorted.edgeListMap).edges = [e]) :=
  ⟨Built.addFace _ _ _ _ (by decide) (by decide) (by decide) Built.empty,
    C11_built_stores_are_well_formed triangleSorted
      (Built.addFace _ _ _ _ (by decide) (by decide) (by decide) Built.empty)⟩

/-! ## The new mesh only grows during a pass -/

theorem grows_AddEdge (s : WingedEdge) (a b : Vertex) : Grows s (AddEdge s a b).2 := by
  rw [AddEdge_eq_runAll]; exact runAll_grows _ s

theorem grows_AddFace (s : WingedEdge) (e1 e2 e3 : Edge) : Grows s (AddFace s e1 e2 e3).2 := by
  rw [AddFace_eq_runAll]; exact runAll_grows _ s

theorem grows_addEdgesFace (s : WingedEdge) (a1 b1 a2 b2 a3 b3 : Vertex) :
    Grows s (addEdgesFace s a1 b1 a2 b2 a3 b3) :=
  grows_trans (grows_AddEdge _ _ _) (grows_trans (grows_AddEdge _ _ _)
    (grows_trans (grows_AddEdge _ _ _) (grows_AddFace _ _ _ _)))

theorem grows_performTriangulation (s : WingedEdge) (v1 v2 v3 v4 v5 v6 : Vertex) :
    Grows s (performTriangulation s v1 v2 v3 v4 v5 v6) :=
  grows_trans (grows_addEdgesFace _ _ _ _ _ _ _) (grows_trans (grows_addEdgesFace _ _ _ _ _ _ _)
    (grows_trans (grows_addEdgesFace _ _ _ _ _ _ _) (grows_addEdgesFace _ _ _ _ _ _ _)))

theorem grows_addThreeFaces (s : WingedEdge) (a b c d e : Vertex) :
    Grows s (addThreeFaces s a b c d e) :=
  grows_trans (grows_addEdgesFace _ _ _ _ _ _ _) (grows_trans (grows_addEdgesFace _ _ _ _ _ _ _)
    (grows_addEdgesFace _ _ _ _ _ _ _))

theorem grows_addTwoFaces (s : WingedEdge) (a b c d : Vertex) :
    Grows s (addTwoFaces s a b c d) :=
  grows_trans (grows_AddEdge _ _ _) (grows_trans (grows_AddEdge _ _ _)
    (grows_trans (grows_AddEdge _ _ _) (grows_trans (grows_AddFace _ _ _ _)
      (grows_trans (grows_AddEdge _ _ _) (grows_trans (grows_AddEdge _ _ _)
        (grows_AddFace _ _ _ _))))))

theorem grows_copyFace (s : WingedEdge) (e1 e2 e3 : Edge) : Grows s (copyFace s e1 e2 e3) :=
  grows_trans (grows_AddEdge _ _ _) (grows_trans (grows_AddEdge _ _ _)
    (grows_trans (grows_AddEdge _ _ _) (grows_AddFace _ _ _ _)))

theorem boundaryCount_le (b1 b2 b3 : Bool) : boundaryCount b1 b2 b3 ≤ 3 := by
  cases b1 <;> cases b2 <;> cases b3 <;> decide

theorem boundaryCount_eq_zero {b1 b2 b3 : Bool} (h1 : b1 = false) (h2 : b2 = false)
    (h3 : b3 = false) : boundaryCount b1 b2 b3 = 0 := by
  rw [h1, h2, h3]; rfl

theorem BoundaryFaceOne_ok (face : Face) (mesh t : WingedEdge) (v1 v2 v3 : Vertex)
    (b1 b2 : Bool) :
    ∃ mesh1, (BoundaryFaceOne face mesh t v1 v2 v3 b1 b2).1 = Except.ok mesh1 ∧
      Grows mesh mesh1 := by
  unfold BoundaryFaceOne
  split
  · exact ⟨_, rfl, grows_addTwoFaces _ _ _ _ _⟩
  · split
    · exact ⟨_, rfl, grows_addTwoFaces _ _ _ _ _⟩
    · exact ⟨_, rfl, grows_addTwoFaces _ _ _ _ _⟩

theorem BoundaryFaceFull_ok (face : Face) (mesh t : WingedEdge) (v1 v2 v3 : Vertex)
    (b1 b2 b3 : Bool) {n : Nat} (hn : n ≤ 3) :
    ∃ mesh1, (BoundaryFaceFull face mesh t v1 v2 v3 b1 b2 b3 n).1 = Except.ok mesh1 ∧
      Grows mesh mesh1 := by
  dsimp only [BoundaryFaceFull]
  split
  · exact ⟨_, rfl, grows_performTriangulation _ _ _ _ _ _ _⟩
  · split
    · rename_i h; exact absurd hn (Nat.not_le.mpr h)
    · split
      · exact ⟨_, rfl, grows_addThreeFaces _ _ _ _ _ _⟩
      · split
        · exact ⟨_, rfl, grows_addThreeFaces _ _ _ _ _ _⟩
        · exact ⟨_, rfl, grows_addThreeFaces _ _ _ _ _ _⟩

theorem BoundaryFace_ok {face : Face} (h : (GetAdjacentVertex face face.E3).2 = true)
    (mesh t : WingedEdge) :
    ∃ mesh1, (BoundaryFace face mesh t).1 = Except.ok mesh1 ∧ Grows mesh mesh1 := by
  dsimp only [BoundaryFace]
  rw [if_neg (by rw [h]; simp)]
  split
  · exact ⟨_, rfl, grows_copyFace _ _ _ _⟩
  · split
    · exact BoundaryFaceOne_ok _ _ _ _ _ _ _ _
    · exact BoundaryFaceFull_ok _ _ _ _ _ _ _ _ _ (boundaryCount_le _ _ _)

theorem BoundaryFace_copy {s : WingedEdge} {face : Face}
    (hk : hasKey face.E1 s.edgeListMap ∧ hasKey face.E2 s.edgeListMap ∧
      hasKey face.E3 s.edgeListMap)
    (h : (GetAdjacentVertex face face.E3).2 = true)
    (h1 : (facesOf s face.E1).length ≠ 1) (h2 : (facesOf s face.E2).length ≠ 1)
    (h3 : (facesOf s face.E3).length ≠ 1) (mesh : WingedEdge) :
    (BoundaryFace face mesh s).1 = Except.ok (copyFace mesh face.E1 face.E2 face.E3) := by
  have n1 := getNumAdjacentFaces_closed hk.1
  have n2 := getNumAdjacentFaces_closed hk.2.1
  have n3 := getNumAdjacentFaces_closed hk.2.2
  have c1 : (getNumAdjacentFaces s face.E1).1 = (facesOf s face.E1).length := rfl
  have c2 : (getNumAdjacentFaces s face.E2).1 = (facesOf s face.E2).length := rfl
  have c3 : (getNumAdjacentFaces s face.E3).1 = (facesOf s face.E3).length := rfl
  dsimp only [BoundaryFace]
  rw [if_neg (by rw [h]; simp), n1, n2, n3, c1, c2, c3,
    boundaryCount_eq_zero (decide_eq_false h1) (decide_eq_false h2) (decide_eq_false h3)]
  rfl

/-! ## Copying a face into the new mesh -/

theorem reachable_of_built {s : WingedEdge} (h : Built s) : Reachable s := by
  induction h with
  | empty => exact Reachable.empty
  | addVertex s x y z _ ih => exact Reachable.addVertex s x y z ih
  | addEdge s v1 v2 _ ih => exact Reachable.addEdge s v1 v2 ih
  | addFace s e1 e2 e3 _ _ _ _ ih => exact Reachable.addFace s e1 e2 e3 ih

theorem hasKey_face_AddVertex (s : WingedEdge) (x y z : ℚ) (f : Face) :
    hasKey f (AddVertex s x y z).2.faceList ↔ hasKey f s.faceList := Iff.rfl

theorem built_faces_canonical {s : WingedEdge} (h : Built s) :
    ∀ f, hasKey f s.faceList → f.E1.canonical ∧ f.E2.canonical ∧ f.E3.canonical := by
  induction h with
  | empty => intro f hf; exact absurd hf (by simp [hasKey, WingedEdge.empty, mapFind])
  | addVertex s x y z _ ih => intro f hf; exact ih f hf
  | addEdge s v1 v2 _ ih => intro f hf; exact ih f ((hasKey_face_AddEdge s v1 v2 f).mp hf)
  | addFace s e1 e2 e3 c1 c2 c3 _ ih =>
    intro f hf
    rcases (hasKey_face_AddFace s e1 e2 e3 f).mp hf with h | h
    · exact ih f h
    · rw [h]; exact ⟨c1, c2, c3⟩

theorem copyFace_eq (mesh : WingedEdge) {e1 e2 : Edge} (e3 : Edge) (c1 : e1.canonical)
    (c2 : e2.canonical) :
    copyFace mesh e1 e2 e3 =
      (AddFace (AddEdge (AddEdge (AddEdge mesh e1.V1 e1.V2).2 e2.V1 e2.V2).2 e2.V1 e2.V2).2
        e1 e2 e3).2 := by
  unfold Edge.canonical at c1 c2
  simp only [copyFace, AddEdgeOf, AddEdge_fst, c1, c2]

theorem copyFace_facts (mesh : WingedEdge) (face : Face) (c1 : face.E1.canonical)
    (c2 : face.E2.canonical) :
    hasKey face (copyFace mesh face.E1 face.E2 face.E3).faceList ∧
      ∀ e ∈ [face.E1, face.E2, face.E3],
        e ∈ mapGet face (copyFace mesh face.E1 face.E2 face.E3).faceList ∧
        hasKey e (copyFace mesh face.E1 face.E2 face.E3).edgeListMap ∧
        face ∈ facesOf (copyFace mesh face.E1 face.E2 face.E3) e := by
  rw [copyFace_eq mesh face.E3 c1 c2]
  refine ⟨(hasKey_face_AddFace _ _ _ _ _).mpr (Or.inr rfl), ?_⟩
  intro e he
  have h := AddFace_edge_facts
    (AddEdge (AddEdge (AddEdge mesh face.E1.V1 face.E1.V2).2 face.E2.V1 face.E2.V2).2
      face.E2.V1 face.E2.V2).2 face.E1 face.E2 face.E3 e he
  exact ⟨h.2.2.2.2, h.1, h.2.2.2.1⟩

theorem hasKey_face_copyFace (mesh : WingedEdge) (face : Face) (c1 : face.E1.canonical)
    (c2 : face.E2.canonical) (f : Face) :
    hasKey f (copyFace mesh face.E1 face.E2 face.E3).faceList ↔
      hasKey f mesh.faceList ∨ f = face := by
  rw [copyFace_eq mesh face.E3 c1 c2]
  simp only [hasKey_face_AddFace, hasKey_face_AddEdge]

theorem hasKey_vertex_copyFace (mesh : WingedEdge) (face : Face) (c1 : face.E1.canonical)
    (c2 : face.E2.canonical) (v : Vertex) :
    hasKey v (copyFace mesh face.E1 face.E2 face.E3).vertexList ↔
      hasKey v mesh.vertexList ∨ v = face.E1.V1 ∨ v = face.E1.V2 ∨ v = face.E2.V1 ∨
        v = face.E2.V2 ∨ v = face.E3.V1 ∨ v = face.E3.V2 := by
  rw [copyFace_eq mesh face.E3 c1 c2]
  simp only [hasKey_vertex_AddFace, hasKey_vertex_AddEdge]
  constructor
  · rintro ((((h | h | h) | h | h) | h | h) | h | h | h | h | h | h) <;> simp [h]
  · rintro (h | h | h | h | h | h | h) <;> simp [h]

theorem hasKey_edge_copyFace (mesh : WingedEdge) (face : Face) (c1 : face.E1.canonical)
    (c2 : face.E2.canonical) (c3 : face.E3.canonical) (e : Edge) :
    hasKey e (copyFace mesh face.E1 face.E2 face.E3).edgeListMap ↔
      hasKey e mesh.edgeListMap ∨ e = face.E1 ∨ e = face.E2 ∨ e = face.E3 := by
  rw [copyFace_eq mesh face.E3 c1 c2]
  have d1 := c1
  have d2 := c2
  have d3 := c3
  unfold Edge.canonical at d1 d2 d3
  simp only [hasKey_edge_AddFace, hasKey_edge_AddEdge, d1, d2, d3]
  constructor
  · rintro ((((h | h) | h) | h) | h | h | h | h | h | h) <;> simp [h]
  · rintro (h | h | h | h) <;> simp [h]

/-! ## The boundary pass on faces without a boundary edge -/

theorem boundaryLoop_copy {s : WingedEdge} (hc : Closed s)
    (hcan : ∀ f, hasKey f s.faceList → f.E1.canonical ∧ f.E2.canonical ∧ f.E3.canonical)
    (l : List Face)
    (hl : ∀ face ∈ l, hasKey face s.faceList ∧ (GetAdjacentVertex face face.E3).2 = true) :
    ∀ mesh, ∃ m, (facesLoop BoundaryFace l mesh s).1 = Except.ok m ∧ Grows mesh m ∧
      (∀ face ∈ l, (facesOf s face.E1).length ≠ 1 → (facesOf s face.E2).length ≠ 1 →
        (facesOf s face.E3).length ≠ 1 →
          hasKey face m.faceList ∧
            ∀ e ∈ [face.E1, face.E2, face.E3],
              e ∈ mapGet face m.faceList ∧ hasKey e m.edgeListMap ∧ face ∈ facesOf m e) ∧
      ((∀ e, hasKey e s.edgeListMap → (facesOf s e).length ≠ 1) →
        (∀ f, hasKey f m.faceList ↔ hasKey f mesh.faceList ∨ f ∈ l) ∧
        (∀ e, hasKey e m.edgeListMap → hasKey e mesh.edgeListMap ∨ hasKey e s.edgeListMap) ∧
        ∀ v, hasKey v m.vertexList → hasKey v mesh.vertexList ∨ hasKey v s.vertexList) := by
  induction l with
  | nil =>
    intro mesh
    exact ⟨mesh, rfl, grows_refl mesh, fun face hface => absurd hface (List.not_mem_nil face),
      fun _ => ⟨fun f => by simp, fun e he => Or.inl he, fun v hv => Or.inl hv⟩⟩
  | cons face rest ih =>
    intro mesh
    obtain ⟨hf, hg⟩ := hl face (List.mem_cons_self face rest)
    obtain ⟨mesh1, h1, g1⟩ := BoundaryFace_ok hg mesh s
    have hbody : BoundaryFace face mesh s = (Except.ok mesh1, s) :=
      Prod.ext h1 (BoundaryFace_closed hc hf mesh)
    obtain ⟨m, hm, gm, facts, closed⟩ :=
      ih (fun g hmem => hl g (List.mem_cons_of_mem face hmem)) mesh1
    have hk := hc.faceEdges face hf
    obtain ⟨c1, c2, c3⟩ := hcan face hf
    have hcopy : (facesOf s face.E1).length ≠ 1 → (facesOf s face.E2).length ≠ 1 →
        (facesOf s face.E3).length ≠ 1 → mesh1 = copyFace mesh face.E1 face.E2 face.E3 := by
      intro i1 i2 i3
      have h := BoundaryFace_copy hk hg i1 i2 i3 mesh
      rw [h1] at h
      exact Except.ok.inj h
    refine ⟨m, ?_, grows_trans g1 gm, ?_, ?_⟩
    · unfold facesLoop
      rw [hbody]
      exact hm
    · intro g hmem i1 i2 i3
      rcases List.mem_cons.mp hmem with hgf | hr
      · subst hgf
        have hfacts := copyFace_facts mesh g c1 c2
        rw [← hcopy i1 i2 i3] at hfacts
        refine ⟨gm.faceKeys g hfacts.1, fun e he => ?_⟩
        obtain ⟨p1, p2, p3⟩ := hfacts.2 e he
        exact ⟨gm.faceEdges g e p1, gm.edgeKeys e p2, gm.edgeFaces e g p3⟩
      · exact facts g hr i1 i2 i3
    · intro hall
      obtain ⟨q1, q2, q3⟩ := closed hall
      have hm1 := hcopy (hall _ hk.1) (hall _ hk.2.1) (hall _ hk.2.2)
      refine ⟨fun f => ?_, fun e he => ?_, fun v hv => ?_⟩
      · rw [q1 f, hm1, hasKey_face_copyFace mesh face c1 c2 f, List.mem_cons, or_assoc]
      · rcases q2 e he with h | h
        · rw [hm1, hasKey_edge_copyFace mesh face c1 c2 c3 e] at h
          rcases h with h | h | h | h
          · exact Or.inl h
          · exact Or.inr (h ▸ hk.1)
          · exact Or.inr (h ▸ hk.2.1)
          · exact Or.inr (h ▸ hk.2.2)
        · exact Or.inr h
      · rcases q3 v hv with h | h
        · rw [hm1, hasKey_vertex_copyFace mesh face c1 c2 v] at h
          rcases h with h | h | h | h | h | h | h
          · exact Or.inl h
          · exact Or.inr (h ▸ (hc.edgeEnds _ hk.1).1)
          · exact Or.inr (h ▸ (hc.edgeEnds _ hk.1).2)
          · exact Or.inr (h ▸ (hc.edgeEnds _ hk.2.1).1)
          · exact Or.inr (h ▸ (hc.edgeEnds _ hk.2.1).2)
          · exact Or.inr (h ▸ (hc.edgeEnds _ hk.2.2).1)
          · exact Or.inr (h ▸ (hc.edgeEnds _ hk.2.2).2)
        · exact Or.inr h

theorem hasKey_empty_face (f : Face) : ¬ hasKey f WingedEdge.empty.faceList := by
  simp [hasKey, WingedEdge.empty, mapFind]

theorem hasKey_empty_edge (e : Edge) : ¬ hasKey e WingedEdge.empty.edgeListMap := by
  simp [hasKey, WingedEdge.empty, mapFind]

theorem hasKey_empty_vertex (v : Vertex) : ¬ hasKey v WingedEdge.empty.vertexList := by
  simp [hasKey, WingedEdge.empty, mapFind]

/-- C14: on a store built by the insertion members on which the adjacency lookup of the pass
succeeds for every face, `BoundaryTrianglularSubdivide` returns a store; each face none of
whose three edges has exactly one incident face takes the branch that copies it, which adds
no vertex beyond those of the input; the returned store has that face as a key, its entry
holds the three edges of the face, and each of them is an edge key with the face in its
incident-face set. If no edge of the input has exactly one incident face, the faces of the
returned store are exactly those of the input, and its edges and vertices are among those of
the input. -/
theorem C14_boundary_pass_copies_interior_faces (s : WingedEdge) (hb : Built s)
    (hok : ∀ face ∈ s.faceList.map Prod.fst, (GetAdjacentVertex face face.E3).2 = true) :
    ∃ m, (BoundaryTrianglularSubdivide s).1 = Except.ok m ∧
      (∀ face, hasKey face s.faceList → (facesOf s face.E1).length ≠ 1 →
        (facesOf s face.E2).length ≠ 1 → (facesOf s face.E3).length ≠ 1 →
          (∀ mesh, BoundaryFace face mesh s =
              (Except.ok (copyFace mesh face.E1 face.E2 face.E3), s) ∧
            ∀ v, hasKey v (copyFace mesh face.E1 face.E2 face.E3).vertexList →
              hasKey v mesh.vertexList ∨ hasKey v s.vertexList) ∧
          hasKey face m.faceList ∧
          ∀ e ∈ [face.E1, face.E2, face.E3],
            e ∈ mapGet face m.faceList ∧ hasKey e m.edgeListMap ∧ face ∈ facesOf m e) ∧
      ((∀ e, hasKey e s.edgeListMap → (facesOf s e).length ≠ 1) →
        (∀ f, hasKey f m.faceList ↔ hasKey f s.faceList) ∧
        (∀ e, hasKey e m.edgeListMap → hasKey e s.edgeListMap) ∧
        ∀ v, hasKey v m.vertexList → hasKey v s.vertexList) := by
  have hc := closed_of_reachable (reachable_of_built hb)
  have hcan := built_faces_canonical hb
  have hl : ∀ face ∈ s.faceList.map Prod.fst,
      hasKey face s.faceList ∧ (GetAdjacentVertex face face.E3).2 = true :=
    fun face hface => ⟨hasKey_of_mem_keys hface, hok face hface⟩
  obtain ⟨m, hm, _, facts, closed⟩ := boundaryLoop_copy hc hcan _ hl WingedEdge.empty
  refine ⟨m, hm, ?_, ?_⟩
  · intro face hf i1 i2 i3
    have hmem : face ∈ s.faceList.map Prod.fst := (hasKey_iff_mem_keys face s.faceList).mp hf
    have hk := hc.faceEdges face hf
    obtain ⟨c1, c2, _⟩ := hcan face hf
    refine ⟨fun mesh => ⟨?_, fun v hv => ?_⟩, facts face hmem i1 i2 i3⟩
    · exact Prod.ext (BoundaryFace_copy hk (hok face hmem) i1 i2 i3 mesh)
        (BoundaryFace_closed hc hf mesh)
    · rcases (hasKey_vertex_copyFace mesh face c1 c2 v).mp hv with h | h | h | h | h | h | h
      · exact Or.inl h
      · exact Or.inr (h ▸ (hc.edgeEnds _ hk.1).1)
      · exact Or.inr (h ▸ (hc.edgeEnds _ hk.1).2)
      · exact Or.inr (h ▸ (hc.edgeEnds _ hk.2.1).1)
      · exact Or.inr (h ▸ (hc.edgeEnds _ hk.2.1).2)
      · exact Or.inr (h ▸ (hc.edgeEnds _ hk.2.2).1)
      · exact Or.inr (h ▸ (hc.edgeEnds _ hk.2.2).2)
  · intro hall
    obtain ⟨q1, q2, q3⟩ := closed hall
    refine ⟨fun f => ?_, fun e he => ?_, fun v hv => ?_⟩
    · rw [q1 f, hasKey_iff_mem_keys f s.faceList]
      exact ⟨fun h => h.elim (fun h0 => absurd h0 (hasKey_empty_face f)) id, Or.inr⟩
    · exact (q2 e he).elim (fun h0 => absurd h0 (hasKey_empty_edge e)) id
    · exact (q3 v hv).elim (fun h0 => absurd h0 (hasKey_empty_vertex v)) id

end gfx
namespace gfx

theorem built_tetrahedron : Built tetrahedron :=
  Built.addFace _ _ _ _ (by decide) (by decide) (by decide)
    (Built.addFace _ _ _ _ (by decide) (by decide) (by decide)
      (Built.addFace _ _ _ _ (by decide) (by decide) (by decide)
        (Built.addFace _ _ _ _ (by decide) (by decide) (by decide) Built.empty)))

/-- C14 at the tetrahedron, a store built by four `AddFace` calls on which the adjacency
lookup succeeds for every face. -/
theorem C14_boundary_pass_copies_interior_faces_witness :
    Built tetrahedron ∧
      (∀ face ∈ tetrahedron.faceList.map Prod.fst,
        (GetAdjacentVertex face face.E3).2 = true) ∧
      ∃ m, (BoundaryTrianglularSubdivide tetrahedron).1 = Except.ok m ∧
        (∀ face, hasKey face tetrahedron.faceList →
          (facesOf tetrahedron face.E1).length ≠ 1 →
          (facesOf tetrahedron face.E2).length ≠ 1 →
          (facesOf tetrahedron face.E3).length ≠ 1 →
            (∀ mesh, BoundaryFace face mesh tetrahedron =
                (Except.ok (copyFace mesh face.E1 face.E2 face.E3), tetrahedron) ∧
              ∀ v, hasKey v (copyFace mesh face.E1 face.E2 face.E3).vertexList →
                hasKey v mesh.vertexList ∨ hasKey v tetrahedron.vertexList) ∧
            hasKey face m.faceList ∧
            ∀ e ∈ [face.E1, face.E2, face.E3],
              e ∈ mapGet face m.faceList ∧ hasKey e m.edgeListMap ∧ face ∈ facesOf m e) ∧
        ((∀ e, hasKey e tetrahedron.edgeListMap → (facesOf tetrahedron e).length ≠ 1) →
          (∀ f, hasKey f m.faceList ↔ hasKey f tetrahedron.faceList) ∧
          (∀ e, hasKey e m.edgeListMap → hasKey e tetrahedron.edgeListMap) ∧
          ∀ v, hasKey v m.vertexList → hasKey v tetrahedron.vertexList) :=
  ⟨built_tetrahedron, by decide!,
    C14_boundary_pass_copies_interior_faces tetrahedron built_tetrahedron (by decide!)⟩

/-! ## The scan for another boundary edge at a vertex -/

theorem exists_first_of_exists {α : Type} (q : α → Prop) [DecidablePred q] (l : List α)
    (h : ∃ x ∈ l, q x) :
    ∃ pre e post, l = pre ++ e :: post ∧ (∀ x ∈ pre, ¬ q x) ∧ q e := by
  induction l with
  | nil => obtain ⟨x, hx, _⟩ := h; exact absurd hx (List.not_mem_nil x)
  | cons y rest ih =>
    by_cases hy : q y
    · exact ⟨[], y, rest, rfl, fun x hx => absurd hx (List.not_mem_nil x), hy⟩
    · obtain ⟨x, hx, hq⟩ := h
      rcases List.mem_cons.mp hx with hxy | hxr
      · exact absurd (hxy ▸ hq) hy
      · obtain ⟨pre, e, post, hl, hpre, he⟩ := ih ⟨x, hxr, hq⟩
        refine ⟨y :: pre, e, post, by rw [hl]; rfl, ?_, he⟩
        intro z hz
        rcases List.mem_cons.mp hz with hzy | hzp
        · rw [hzy]; exact hy
        · exact hpre z hzp

theorem getOtherBoundaryVerticeLoop_none (s : WingedEdge) (a : Vertex) (fe : Edge)
    (l : List Edge) (h : ∀ x ∈ l, ¬ (x ≠ fe ∧ (facesOf s x).length = 1)) :
    ∀ t, SameLookups s t → (getOtherBoundaryVerticeLoop a fe l t).1 = a := by
  induction l with
  | nil => intro t _; rfl
  | cons y rest ih =>
    intro t ht
    have hy := h y (List.mem_cons_self y rest)
    have hr := ih (fun x hx => h x (List.mem_cons_of_mem y hx))
    have hn : (getNumAdjacentFaces t y).1 = (facesOf s y).length := by
      unfold getNumAdjacentFaces
      simp only [sameLookups_facesOf ht y]
    unfold getOtherBoundaryVerticeLoop
    split
    · rename_i hne
      rw [hn, if_neg (fun hc => hy ⟨hne, hc⟩)]
      exact hr _ (getNumAdjacentFaces_same ht y).2
    · exact hr t ht

theorem getOtherBoundaryVerticeLoop_first (s : WingedEdge) (a : Vertex) (fe : Edge)
    (pre : List Edge) (e : Edge) (post : List Edge)
    (h : ∀ x ∈ pre, ¬ (x ≠ fe ∧ (facesOf s x).length = 1)) (he : e ≠ fe)
    (hc : (facesOf s e).length = 1) :
    ∀ t, SameLookups s t →
      (getOtherBoundaryVerticeLoop a fe (pre ++ e :: post) t).1 = getOtherVertex e a := by
  induction pre with
  | nil =>
    intro t ht
    have hn : (getNumAdjacentFaces t e).1 = (facesOf s e).length := by
      unfold getNumAdjacentFaces
      simp only [sameLookups_facesOf ht e]
    rw [List.nil_append]
    unfold getOtherBoundaryVerticeLoop
    rw [if_pos he, hn, if_pos hc]
  | cons y rest ih =>
    intro t ht
    have hy := h y (List.mem_cons_self y rest)
    have hr := ih (fun x hx => h x (List.mem_cons_of_mem y hx))
    have hn : (getNumAdjacentFaces t y).1 = (facesOf s y).length := by
      unfold getNumAdjacentFaces
      simp only [sameLookups_facesOf ht y]
    rw [List.cons_append]
    unfold getOtherBoundaryVerticeLoop
    split
    · rename_i hne
      rw [hn, if_neg (fun hc2 => hy ⟨hne, hc2⟩)]
      exact hr _ (getNumAdjacentFaces_same ht y).2
    · exact hr t ht

theorem getOtherVertex_joins {e : Edge} {a : Vertex} (h : a = e.V1 ∨ a = e.V2) :
    e.joins a (getOtherVertex e a) := by
  unfold getOtherVertex Edge.joins
  split
  · rename_i h1; exact Or.inl ⟨h1, rfl⟩
  · rename_i h1
    rcases h with h | h
    · exact absurd h.symm h1
    · exact Or.inr ⟨rfl, h.symm⟩

theorem reachable_incident {s : WingedEdge} (h : Reachable s) :
    ∀ (v : Vertex) (e : Edge), e ∈ mapGet v s.vertexList → v = e.V1 ∨ v = e.V2 := by
  have key : ∀ (a b v : Vertex) (e : Edge),
      Stmt.vertexEdge v e ∈ addEdgeStmts a b → v = e.V1 ∨ v = e.V2 := by
    intro a b v e hm
    simp only [addEdgeStmts, List.mem_cons, List.mem_singleton, List.not_mem_nil, or_false,
      Stmt.vertexEdge.injEq, false_or, reduceCtorEq] at hm
    rcases hm with ⟨hv, he⟩ | ⟨hv, he⟩ <;> rw [hv, he] <;>
      rcases Edge.make_ends a b with ⟨p1, p2⟩ | ⟨p1, p2⟩ <;> rw [p1, p2] <;> simp
  induction h with
  | empty => intro v e he; exact absurd he (List.not_mem_nil e)
  | addVertex s x y z _ ih =>
    intro v e he
    exact ih v e (by simpa only [AddVertex, mapGet_mapTouch] using he)
  | addEdge s v1 v2 _ ih =>
    intro v e he
    rw [AddEdge_eq_runAll] at he
    rcases runAll_vertexEdges _ he with h1 | h1
    · exact ih v e h1
    · exact key v1 v2 v e h1
  | addFace s e1 e2 e3 _ ih =>
    intro v e he
    rw [AddFace_eq_runAll] at he
    rcases runAll_vertexEdges _ he with h1 | h1
    · exact ih v e h1
    · simp only [addFaceStmts, List.mem_append] at h1
      rcases h1 with ((h1 | h1) | h1) | h1
      · exact key _ _ v e h1
      · exact key _ _ v e h1
      · exact key _ _ v e h1
      · simp at h1

/-- C21: `getOtherBoundaryVertice(a, forbidden)` scans the incident-edge set of `a` in its
order. If some edge of the set differs from `forbidden` and has exactly one incident face, the
result is `getOtherVertex` of the first such edge, which is the endpoint of that edge other
than `a` whenever `a` is one of its endpoints (and differs from `a` unless the two endpoints
of the edge coincide); if there is no such edge the result is `a`. In
a store built by the insertion members every edge of the incident-edge set of `a` has `a` as
an endpoint. -/
theorem C21_getOtherBoundaryVertice_first_boundary_edge (s : WingedEdge) (a : Vertex)
    (forbidden : Edge) :
    ((∃ e ∈ mapGet a s.vertexList, e ≠ forbidden ∧ (facesOf s e).length = 1) →
      ∃ pre e post, mapGet a s.vertexList = pre ++ e :: post ∧
        (∀ x ∈ pre, ¬ (x ≠ forbidden ∧ (facesOf s x).length = 1)) ∧
        e ≠ forbidden ∧ (facesOf s e).length = 1 ∧
        (getOtherBoundaryVertice s a forbidden).1 = getOtherVertex e a ∧
        ((a = e.V1 ∨ a = e.V2) →
          e.joins a (getOtherBoundaryVertice s a forbidden).1 ∧
            (e.V1 ≠ e.V2 → (getOtherBoundaryVertice s a forbidden).1 ≠ a))) ∧
      ((∀ e ∈ mapGet a s.vertexList, ¬ (e ≠ forbidden ∧ (facesOf s e).length = 1)) →
        (getOtherBoundaryVertice s a forbidden).1 = a) ∧
      (Reachable s → ∀ e ∈ mapGet a s.vertexList, a = e.V1 ∨ a = e.V2) := by
  refine ⟨fun h => ?_, fun h => ?_, fun hr e he => reachable_incident hr a e he⟩
  · obtain ⟨pre, e, post, hl, hpre, he, hc⟩ :=
      exists_first_of_exists (fun x => x ≠ forbidden ∧ (facesOf s x).length = 1) _ h
    have hres : (getOtherBoundaryVertice s a forbidden).1 = getOtherVertex e a := by
      unfold getOtherBoundaryVertice
      rw [hl]
      exact getOtherBoundaryVerticeLoop_first s a forbidden pre e post hpre he hc _
        (sameLookups_touchVertex s a)
    refine ⟨pre, e, post, hl, hpre, he, hc, hres, fun hends => ?_⟩
    have hj : e.joins a (getOtherBoundaryVertice s a forbidden).1 :=
      hres ▸ getOtherVertex_joins hends
    refine ⟨hj, fun hne hra => hne ?_⟩
    rcases hj with ⟨p1, p2⟩ | ⟨p1, p2⟩
    · rw [p1, p2, hra]
    · rw [p1, p2, hra]
  · unfold getOtherBoundaryVertice
    exact getOtherBoundaryVerticeLoop_none s a forbidden _ h _ (sameLookups_touchVertex s a)

/-! ## When the uniform pass throws -/

theorem GetAdjacentVertex_fails_iff (face : Face) (e : Edge) :
    (GetAdjacentVertex face e).2 = false ↔ face.E1 = e ∧ face.E2 = e ∧ face.E3 = e := by
  unfold GetAdjacentVertex
  by_cases h1 : face.E1 = e
  · by_cases h2 : face.E2 = e
    · by_cases h3 : face.E3 = e
      · simp [h1, h2, h3]
      · simp [h1, h2, h3]
    · simp [h1, h2]
  · simp [h1]

theorem GetAdjacentVertex_third_fails {face : Face} {e : Edge}
    (h : (GetAdjacentVertex face e).2 = false) :
    (GetAdjacentVertex face face.E3).2 = false := by
  obtain ⟨h1, h2, h3⟩ := (GetAdjacentVertex_fails_iff face e).mp h
  exact (GetAdjacentVertex_fails_iff face face.E3).mpr ⟨h1.trans h3.symm, h2.trans h3.symm, rfl⟩

theorem SubdivideFace_error {face : Face} (h : (GetAdjacentVertex face face.E3).2 = false)
    (linear : Bool) (mesh t : WingedEdge) :
    (SubdivideFace linear face mesh t).1 =
      Except.error "Something is wrong with the mesh topology" := by
  dsimp only [SubdivideFace]
  rw [if_pos h]

theorem facesLoop_error
    {body : Face → WingedEdge → WingedEdge → Except String WingedEdge × WingedEdge}
    {bad : Face → Prop} [DecidablePred bad] {msg : String} (l : List Face)
    (hbad : ∀ face, bad face → ∀ mesh t, (body face mesh t).1 = Except.error msg)
    (hok : ∀ face, ¬ bad face → ∀ mesh t, ∃ mesh1, (body face mesh t).1 = Except.ok mesh1)
    (h : ∃ face ∈ l, bad face) :
    ∀ mesh t, (facesLoop body l mesh t).1 = Except.error msg := by
  induction l with
  | nil => obtain ⟨x, hx, _⟩ := h; exact absurd hx (List.not_mem_nil x)
  | cons face rest ih =>
    intro mesh t
    unfold facesLoop
    by_cases hf : bad face
    · have hb := hbad face hf mesh t
      split
      · rename_i m s1 heq
        rw [heq] at hb
        exact hb
      · rename_i mesh1 s1 heq
        rw [heq] at hb
        exact absurd hb (by simp)
    · obtain ⟨mesh1, h1⟩ := hok face hf mesh t
      have hrest : ∃ g ∈ rest, bad g := by
        obtain ⟨x, hx, hq⟩ := h
        rcases List.mem_cons.mp hx with hxf | hxr
        · exact absurd (hxf ▸ hq) hf
        · exact ⟨x, hxr, hq⟩
      split
      · rename_i m s1 heq
        rw [heq] at h1
        exact absurd h1 (by simp)
      · rename_i mesh2 s1 heq
        exact ih hrest mesh2 s1

/-- C22: the uniform `Subdivide(linear)` throws if and only if, for some face of the store,
`GetAdjacentVertex(face, e)` fails for one of the three edges `e` of the face, and what it
throws is the topology message. A lookup `GetAdjacentVertex(face, e)` fails exactly when the
three edges of the face all equal `e`, so a failed lookup for one edge of the face makes the
lookup for its third edge, the only one whose flag is tested, fail as well. -/
theorem C22_subdivide_throws_iff_apex_lookup_fails (s : WingedEdge) (linear : Bool) :
    ((∃ msg, (Subdivide s linear).1 = Except.error msg) ↔
        ∃ face, hasKey face s.faceList ∧
          ∃ e ∈ [face.E1, face.E2, face.E3], (GetAdjacentVertex face e).2 = false) ∧
      (∀ msg, (Subdivide s linear).1 = Except.error msg →
        msg = "Something is wrong with the mesh topology") ∧
      (∀ (face : Face) (e : Edge),
        (GetAdjacentVertex face e).2 = false ↔ face.E1 = e ∧ face.E2 = e ∧ face.E3 = e) ∧
      (∀ (face : Face) (e : Edge),
        (GetAdjacentVertex face e).2 = false → (GetAdjacentVertex face face.E3).2 = false) := by
  have hthrow : (∃ face ∈ s.faceList.map Prod.fst, (GetAdjacentVertex face face.E3).2 = false) →
      (Subdivide s linear).1 = Except.error "Something is wrong with the mesh topology" :=
    fun h => facesLoop_error (s.faceList.map Prod.fst)
      (fun face hf mesh t => SubdivideFace_error hf linear mesh t)
      (fun face hf mesh t => SubdivideFace_ok (by simpa using hf) linear mesh t) h _ _
  have hret : (¬ ∃ face ∈ s.faceList.map Prod.fst, (GetAdjacentVertex face face.E3).2 = false) →
      ∃ m, (Subdivide s linear).1 = Except.ok m := by
    intro h
    refine facesLoop_ok _ (fun face hface mesh t => SubdivideFace_ok ?_ linear mesh t) _ _
    cases hg : (GetAdjacentVertex face face.E3).2 with
    | true => rfl
    | false => exact absurd ⟨face, hface, hg⟩ h
  refine ⟨⟨?_, ?_⟩, ?_, GetAdjacentVertex_fails_iff,
    fun face e h => GetAdjacentVertex_third_fails h⟩
  · rintro ⟨msg, hmsg⟩
    by_cases hb : ∃ face ∈ s.faceList.map Prod.fst, (GetAdjacentVertex face face.E3).2 = false
    · obtain ⟨face, hface, hg⟩ := hb
      exact ⟨face, hasKey_of_mem_keys hface, face.E3, by simp, hg⟩
    · obtain ⟨m, hm⟩ := hret hb
      rw [hm] at hmsg
      exact absurd hmsg (by simp)
  · rintro ⟨face, hface, e, _, hg⟩
    exact ⟨_, hthrow ⟨face, (hasKey_iff_mem_keys face s.faceList).mp hface,
      GetAdjacentVertex_third_fails hg⟩⟩
  · intro msg hmsg
    by_cases hb : ∃ face ∈ s.faceList.map Prod.fst, (GetAdjacentVertex face face.E3).2 = false
    · rw [hthrow hb] at hmsg
      exact (Except.error.inj hmsg).symm
    · obtain ⟨m, hm⟩ := hret hb
      rw [hm] at hmsg
      exact absurd hmsg (by simp)

/-! ## What the adjacency queries do to the store -/

theorem length_mapInsertNew {κ β : Type} [KeyLt κ] (k : κ) (v : β) (m : List (κ × β)) :
    (mapInsertNew k v m).length = m.length + 1 := by
  have h := (perm_keys_mapInsertNew k v m).length_eq
  simpa using h

theorem length_mapTouch_of_not_hasKey {κ β : Type} [DecidableEq κ] [KeyLt κ] [Inhabited β]
    {k : κ} {m : List (κ × β)} (h : ¬ hasKey k m) : (mapTouch k m).length = m.length + 1 := by
  unfold hasKey at h
  unfold mapTouch
  cases hm : mapFind k m with
  | none => exact length_mapInsertNew k default m
  | some w => rw [hm] at h; simp at h

theorem touchesOnlyEdge_touchEdge (s : WingedEdge) (edge : Edge) :
    TouchesOnlyEdge s (touchEdge s edge) edge := by
  refine ⟨rfl, rfl, sameLookups_touchEdge s edge, fun h => touchEdge_of_hasKey h, fun h => ?_⟩
  refine ⟨(hasKey_mapTouch edge edge s.edgeListMap).mpr (Or.inl rfl), ?_, rfl, rfl⟩
  exact length_mapTouch_of_not_hasKey h

theorem getOtherBoundaryVerticeLoop_frame (a : Vertex) (fe : Edge) (l : List Edge) :
    ∀ t, (getOtherBoundaryVerticeLoop a fe l t).2.faceList = t.faceList ∧
      (getOtherBoundaryVerticeLoop a fe l t).2.vertexList = t.vertexList := by
  induction l with
  | nil => intro t; exact ⟨rfl, rfl⟩
  | cons y rest ih =>
    intro t
    unfold getOtherBoundaryVerticeLoop
    split
    · split
      · exact ⟨rfl, rfl⟩
      · exact ih (getNumAdjacentFaces t y).2
    · exact ih t

/-- C23 fails where the key looked up is absent: in the store of the single triangle
`ptA ptB ptC` the edge `ptA ptD` is not a key of the edge map and `ptD` is not a key of the
vertex map; each of the three queries on that edge leaves a store with four edges instead of
three, and `getOtherBoundaryVertice` at `ptD` leaves a store with four vertices instead of
three. -/
theorem C23_query_on_absent_key_adds_entry :
    NumEdges triangleSorted = 3 ∧ NumVertices triangleSorted = 3 ∧
      NumEdges (GetAdjacentFace triangleSorted faceABC (Edge.make ptA ptD)).2.2 = 4 ∧
      NumEdges (GetAdjacentFaceVertex triangleSorted faceABC (Edge.make ptA ptD)).2.2 = 4 ∧
      NumEdges (getNumAdjacentFaces triangleSorted (Edge.make ptA ptD)).2 = 4 ∧
      NumVertices (getOtherBoundaryVertice triangleSorted ptD (Edge.make ptA ptD)).2 = 4 ∧
      (getNumAdjacentFaces triangleSorted (Edge.make ptA ptD)).2 ≠ triangleSorted := by
  refine ⟨by decide!, by decide!, by decide!, by decide!, by decide!, by decide!, by decide!⟩

/-- C23 (as amended): the adjacency queries never change the face map and every lookup
answers after the query as before. `GetAdjacentFace`, `GetAdjacentFaceVertex` and
`getNumAdjacentFaces` leave the vertex map as it is, and the whole store when the edge is a
key of the edge map; for an edge that is not a key they create its entry, so `NumEdges` grows
by one while `NumVertices` and `NumFaces` stay. `getOtherBoundaryVertice` leaves the store
unchanged when the vertex is a key of the vertex map and the edges of its incident-edge set
are keys of the edge map, as they are in every store built by the insertion members; for a
vertex that is not a key it creates its entry, so `NumVertices` grows by one while `NumEdges`
and `NumFaces` stay. -/
theorem C23_queries_create_only_looked_up_entries (s : WingedEdge) (face : Face) (edge : Edge)
    (a : Vertex) :
    TouchesOnlyEdge s (GetAdjacentFace s face edge).2.2 edge ∧
      TouchesOnlyEdge s (GetAdjacentFaceVertex s face edge).2.2 edge ∧
      TouchesOnlyEdge s (getNumAdjacentFaces s edge).2 edge ∧
      (getOtherBoundaryVertice s a edge).2.faceList = s.faceList ∧
      SameLookups s (getOtherBoundaryVertice s a edge).2 ∧
      (hasKey a s.vertexList → (∀ e ∈ mapGet a s.vertexList, hasKey e s.edgeListMap) →
        (getOtherBoundaryVertice s a edge).2 = s) ∧
      (Reachable s → hasKey a s.vertexList → (getOtherBoundaryVertice s a edge).2 = s) ∧
      (¬ hasKey a s.vertexList →
        hasKey a (getOtherBoundaryVertice s a edge).2.vertexList ∧
          NumVertices (getOtherBoundaryVertice s a edge).2 = NumVertices s + 1 ∧
          NumEdges (getOtherBoundaryVertice s a edge).2 = NumEdges s ∧
          NumFaces (getOtherBoundaryVertice s a edge).2 = NumFaces s) := by
  refine ⟨?_, ?_, touchesOnlyEdge_touchEdge s edge, ?_,
    (getOtherBoundaryVertice_same (sameLookups_refl s) a edge).2, ?_, ?_, ?_⟩
  · rw [GetAdjacentFace_store]; exact touchesOnlyEdge_touchEdge s edge
  · rw [GetAdjacentFaceVertex_store]; exact touchesOnlyEdge_touchEdge s edge
  · exact (getOtherBoundaryVerticeLoop_frame a edge _ _).1
  · intro ha hk
    unfold getOtherBoundaryVertice
    rw [touchVertex_of_hasKey ha]
    exact getOtherBoundaryVerticeLoop_closed a edge _ hk
  · intro hr ha
    exact getOtherBoundaryVertice_closed (closed_of_reachable hr) ha edge
  · intro ha
    have hnil : mapGet a s.vertexList = [] := mapGet_of_not_hasKey ha
    have hst : (getOtherBoundaryVertice s a edge).2 = touchVertex s a := by
      unfold getOtherBoundaryVertice
      rw [hnil]
      rfl
    rw [hst]
    exact ⟨(hasKey_mapTouch a a s.vertexList).mpr (Or.inl rfl),
      length_mapTouch_of_not_hasKey ha, rfl, rfl⟩

end gfx
